import Mathlib

/-!
# Todo agent backend: job pipeline, job registry and rate limiter

A shallow embedding of the Go sources

* `internal/models/models.go` (the records),
* `internal/service/processing_service.go` (the processing pipeline),
* `internal/service/job_service.go` (the job registry),
* `internal/middleware/rate_limiter.go` (the token bucket and the per-client
  limiter with its sweep),
* `internal/handler/handler.go` (the entry point that creates jobs),

followed by theorems about them.

Conventions of the embedding.

* A Go `error` is its message (a `String`); `nil` is `none` or `Except.ok`.
* A `time.Time` is an `Int`: a number of nanoseconds on one time line.
* Go `int` is a 64-bit integer: arithmetic that may leave the range is wrapped
  with `wrapInt64`.
* A pointer to a `Job` is an address into a heap of job records.
* A Go map is the list of its entries, one per key; the order of the list
  stands for the order in which `range` visits the map.
* Calls that leave the process (file system, the AI client, the todo store,
  the clock, the UUID generator) and calls of the standard library that are
  not spelled out (`time.Parse`, `strings.ToLower`, `filepath.Ext`) are fields
  of an environment record; the logger is left out, it does not touch the
  state.
-/

namespace TodoAgent

/-! ## Records of `internal/models/models.go` -/

/-- The Go type `JobStatusEnum`, a string type. -/
abbrev JobStatusEnum := String

def JobStatusPending : JobStatusEnum := "pending"

def JobStatusProcessing : JobStatusEnum := "processing"

def JobStatusCompleted : JobStatusEnum := "completed"

def JobStatusFailed : JobStatusEnum := "failed"

/-- The record `models.TodoItem`; `DueDate` is a `*string`. -/
structure TodoItem where
  Title : String
  Description : String
  DueDate : Option String
  deriving DecidableEq, Repr

/-- The record `gemini.TodoItem` returned by the AI client. -/
structure GeminiTodoItem where
  Title : String
  Description : String
  DueDate : Option String
  deriving DecidableEq, Repr

/-- The record `models.ProcessingResult`. -/
structure ProcessingResult where
  Todos : List TodoItem
  ProcessedAt : Int
  deriving DecidableEq, Repr

/-- The record `models.Todo`; the pointer fields are options holding the value
the pointer refers to when the record is handed on. -/
structure Todo where
  ID : String
  UserID : String
  Title : String
  Description : Option String
  DueDate : Option Int
  SourceType : String
  SourceURL : Option String
  CreatedAt : Int
  deriving DecidableEq, Repr

/-- The record `models.Job`. The Go field `Type` is `JobType` here; `Result`
is a `*ProcessingResult` (`none` is `nil`). -/
structure Job where
  ID : String
  UserID : String
  JobType : String
  Content : String
  FilePath : String
  Status : JobStatusEnum
  Result : Option ProcessingResult
  Error : String
  CreatedAt : Int
  UpdatedAt : Int
  deriving DecidableEq, Repr

/-! ## The processing pipeline, `internal/service/processing_service.go` -/

/-- What the pipeline calls outside the process. -/
structure Env where
  /-- The call `os.ReadFile(path)`: the content, or the error. -/
  ReadFile : String → Except String String
  /-- The call `geminiClient.ExtractTodos(text)`. -/
  ExtractTodos : String → Except String (List GeminiTodoItem)
  /-- The call `todoRepo.InsertTodos(todos)`: the error, `none` for `nil`. -/
  InsertTodos : List Todo → Option String
  /-- The call `os.Remove(path)`: the error, `none` for `nil`. -/
  Remove : String → Option String
  /-- The value of the k-th call of `time.Now()` made by one pipeline run. -/
  Now : Nat → Int
  /-- The value of the k-th call of `uuid.New()` made by one pipeline run. -/
  NewUUID : Nat → String
  /-- The call `time.Parse("2006-01-02", s)`: the date, `none` on error. -/
  ParseDate : String → Option Int
  /-- Whether a `for ... range` loop has one variable per iteration (Go 1.22
  and later) or one variable shared by all iterations (earlier versions). -/
  LoopVarPerIteration : Bool

/-- What one pipeline run does that others can see, in program order: each
assignment to a field of the job record, and each call to the AI client, to
the todo repository and to the file removal. -/
inductive Event where
  | setStatus (v : JobStatusEnum)
  | setResult (v : ProcessingResult)
  | setError (v : String)
  | setUpdatedAt (v : Int)
  | callExtractTodos (text : String)
  | callInsertTodos (batch : List Todo)
  | callRemove (path : String)
  deriving DecidableEq, Repr

/-- The state of one pipeline run: the job record as it stands, the events so
far, and how many times the clock and the UUID generator were called. -/
structure PState where
  job : Job
  trace : List Event
  nowCalls : Nat
  uuidCalls : Nat
  deriving Repr

/-- The state in which `ProcessJob` is entered. -/
def PState.start (job : Job) : PState :=
  { job := job, trace := [], nowCalls := 0, uuidCalls := 0 }

/-- Records an event. -/
def PState.emit (s : PState) (e : Event) : PState :=
  { s with trace := s.trace ++ [e] }

/-- The assignment `job.Status = v`. -/
def PState.setStatus (s : PState) (v : JobStatusEnum) : PState :=
  { s with job := { s.job with Status := v }, trace := s.trace ++ [Event.setStatus v] }

/-- The assignment `job.Result = &v`. -/
def PState.setResult (s : PState) (v : ProcessingResult) : PState :=
  { s with job := { s.job with Result := some v }, trace := s.trace ++ [Event.setResult v] }

/-- The assignment `job.Error = v`. -/
def PState.setError (s : PState) (v : String) : PState :=
  { s with job := { s.job with Error := v }, trace := s.trace ++ [Event.setError v] }

/-- The assignment `job.UpdatedAt = v`. -/
def PState.setUpdatedAt (s : PState) (v : Int) : PState :=
  { s with job := { s.job with UpdatedAt := v }, trace := s.trace ++ [Event.setUpdatedAt v] }

/-- One call of `time.Now()`. -/
def PState.timeNow (env : Env) (s : PState) : Int × PState :=
  (env.Now s.nowCalls, { s with nowCalls := s.nowCalls + 1 })

/-- The statement `job.UpdatedAt = time.Now()`. -/
def PState.touch (env : Env) (s : PState) : PState :=
  ((s.timeNow env).2).setUpdatedAt (s.timeNow env).1

/-- The function `processImageFile`: a placeholder text, never an error. -/
def processImageFile (filePath : String) : Except String String :=
  Except.ok ("Image content from file: " ++ filePath)

/-- The function `processDocumentFile`: a file whose lower-cased path ends in
`.txt` is read, any other gives a placeholder text. `strings.ToLower` is
taken on the ASCII letters, which decides the same paths: no other letter has
`t` or `x` as its lower case. -/
def processDocumentFile (env : Env) (filePath : String) : Except String String :=
  if (filePath.map Char.toLower).endsWith ".txt" then
    match env.ReadFile filePath with
    | Except.error err => Except.error ("failed to read text file: " ++ err)
    | Except.ok content => Except.ok content
  else
    Except.ok ("Document content from file: " ++ filePath)

/-- The function `extractText`: the switch on the job type. -/
def extractText (env : Env) (job : Job) : Except String String :=
  if job.JobType = "text" then Except.ok job.Content
  else if job.JobType = "image" then processImageFile job.FilePath
  else if job.JobType = "document" then processDocumentFile env job.FilePath
  else Except.error ("unsupported job type: " ++ job.JobType)

/-- The body of the loop of `saveTodosToDatabase` for the items from index
`k` on. `shared` is the description the shared loop variable holds once the
loop is over (that of the last item): with one loop variable for all
iterations every `&item.Description` is the same address. -/
def buildTodos (env : Env) (userID sourceType : String) (now : Int) (uuid0 : Nat)
    (shared : String) : Nat → List TodoItem → List Todo
  | _, [] => []
  | k, item :: rest =>
    { ID := env.NewUUID (uuid0 + k)
      UserID := userID
      Title := item.Title
      Description :=
        if item.Description ≠ "" then
          some (if env.LoopVarPerIteration then item.Description else shared)
        else none
      DueDate :=
        match item.DueDate with
        | some d => if d ≠ "" then env.ParseDate d else none
        | none => none
      SourceType := sourceType
      SourceURL := none
      CreatedAt := now } :: buildTodos env userID sourceType now uuid0 shared (k + 1) rest

/-- The function `saveTodosToDatabase`: the returned error and the state. -/
def saveTodosToDatabase (env : Env) (s : PState) (userID : String)
    (todoItems : List TodoItem) (sourceType : String) : Option String × PState :=
  if todoItems.length = 0 then (none, s)
  else
    let now := (s.timeNow env).1
    let s1 := (s.timeNow env).2
    let shared := match todoItems.getLast? with
      | some item => item.Description
      | none => ""
    let todos := buildTodos env userID sourceType now s1.uuidCalls shared 0 todoItems
    let s2 := { s1 with uuidCalls := s1.uuidCalls + todoItems.length }
    (env.InsertTodos todos, s2.emit (Event.callInsertTodos todos))

/-- The function `markJobFailed`. -/
def markJobFailed (env : Env) (s : PState) (errorMsg : String) : PState :=
  (((s.setStatus JobStatusFailed).setError errorMsg).touch env)

/-- The function `cleanupFile`: the removal is called, its error only logged. -/
def cleanupFile (_env : Env) (s : PState) (filePath : String) : PState :=
  s.emit (Event.callRemove filePath)

/-- The conversion loop of `ProcessJob`: one `models.TodoItem` per item of
the AI client. -/
def toTodoItem (todo : GeminiTodoItem) : TodoItem :=
  { Title := todo.Title, Description := todo.Description, DueDate := todo.DueDate }

/-- The function `ProcessJob`, run on a job record to its return. -/
def ProcessJob (env : Env) (job : Job) : PState :=
  let s := ((PState.start job).setStatus JobStatusProcessing).touch env
  match extractText env s.job with
  | Except.error err => markJobFailed env s ("Failed to extract text: " ++ err)
  | Except.ok text =>
    let s := s.emit (Event.callExtractTodos text)
    match env.ExtractTodos text with
    | Except.error err => markJobFailed env s ("Failed to process with AI: " ++ err)
    | Except.ok todos =>
      let result : ProcessingResult :=
        { Todos := todos.map toTodoItem, ProcessedAt := (s.timeNow env).1 }
      let s := (s.timeNow env).2
      let saved := saveTodosToDatabase env s s.job.UserID result.Todos s.job.JobType
      match saved.1 with
      | some err => markJobFailed env saved.2 ("Failed to save todos: " ++ err)
      | none =>
        let s := ((saved.2.setStatus JobStatusCompleted).setResult result).touch env
        if s.job.FilePath ≠ "" then cleanupFile env s s.job.FilePath else s

/-- The job record after one event. -/
def applyEvent (job : Job) : Event → Job
  | Event.setStatus v => { job with Status := v }
  | Event.setResult v => { job with Result := some v }
  | Event.setError v => { job with Error := v }
  | Event.setUpdatedAt v => { job with UpdatedAt := v }
  | Event.callExtractTodos _ => job
  | Event.callInsertTodos _ => job
  | Event.callRemove _ => job

/-- Every value the job record takes during a run: the record handed in,
then the record after each event. -/
def history (job : Job) : List Event → List Job
  | [] => [job]
  | e :: rest => job :: history (applyEvent job e) rest

/-- The statuses written during a run, in order. -/
def statusWrites : List Event → List JobStatusEnum
  | [] => []
  | Event.setStatus v :: rest => v :: statusWrites rest
  | _ :: rest => statusWrites rest

/-- The paths handed to the file removal during a run, in order. -/
def cleanupCalls : List Event → List String
  | [] => []
  | Event.callRemove p :: rest => p :: cleanupCalls rest
  | _ :: rest => cleanupCalls rest

/-- The error returned by the step of a call event, when it returned one:
the AI client's for `callExtractTodos`, the repository's for
`callInsertTodos`. -/
def callError (env : Env) : Event → Option String
  | Event.callExtractTodos text =>
    match env.ExtractTodos text with
    | Except.error err => some err
    | Except.ok _ => none
  | Event.callInsertTodos batch => env.InsertTodos batch
  | _ => none

/-- The error returned by the first of steps 2 to 4 that failed in a run on
`job` with the events `trace`: the error of text extraction, else that of the
first call to the AI client or to the repository that returned one; `none`
when no step returned an error. -/
def stepError (env : Env) (job : Job) (trace : List Event) : Option String :=
  match extractText env job with
  | Except.error err => some err
  | Except.ok _ => trace.findSome? (callError env)

/-- The events every run starts with. -/
def headEvents (env : Env) : List Event :=
  [Event.setStatus JobStatusProcessing, Event.setUpdatedAt (env.Now 0)]

/-- The events of `markJobFailed`. -/
def failEvents (msg : String) (t : Int) : List Event :=
  [Event.setStatus JobStatusFailed, Event.setError msg, Event.setUpdatedAt t]

/-- The state after the first two statements of `ProcessJob`. -/
def entered (env : Env) (job : Job) : PState :=
  ((PState.start job).setStatus JobStatusProcessing).touch env

/-- The state in which `saveTodosToDatabase` returns, for a run whose text
and AI extraction gave `text` and `todos`. -/
def afterSave (env : Env) (job : Job) (text : String) (todos : List GeminiTodoItem) :
    Option String × PState :=
  saveTodosToDatabase env ((((entered env job).emit (Event.callExtractTodos text)).timeNow env).2)
    job.UserID (todos.map toTodoItem) job.JobType

/-- The texts handed to the AI client during a run, in order. -/
def extractCalls : List Event → List String
  | [] => []
  | Event.callExtractTodos text :: rest => text :: extractCalls rest
  | _ :: rest => extractCalls rest

/-- The batches handed to the todo repository during a run, in order. -/
def insertCalls : List Event → List (List Todo)
  | [] => []
  | Event.callInsertTodos batch :: rest => batch :: insertCalls rest
  | _ :: rest => insertCalls rest

/-- The record the loop of `saveTodosToDatabase` builds for one item: `id` is
the value of `uuid.New()`, `now` the creation time of the batch, and
`description` what `&item.Description` refers to when the batch is handed to
the store. -/
def todoOf (env : Env) (userID sourceType : String) (now : Int) (id description : String)
    (item : TodoItem) : Todo :=
  { ID := id
    UserID := userID
    Title := item.Title
    Description := if item.Description ≠ "" then some description else none
    DueDate :=
      match item.DueDate with
      | some d => if d ≠ "" then env.ParseDate d else none
      | none => none
    SourceType := sourceType
    SourceURL := none
    CreatedAt := now }

/-- The description the loop variable of `saveTodosToDatabase` holds once the
loop over `items` is over: that of the last item. -/
def lastDescription (items : List TodoItem) : String :=
  match items.getLast? with
  | some item => item.Description
  | none => ""

/-- The batch `saveTodosToDatabase` hands to the store in a run of
`ProcessJob` on `job` whose AI extraction returned the non-empty list
`todos`: the clock has been read twice before and no UUID has been drawn. -/
def runBatch (env : Env) (job : Job) (todos : List GeminiTodoItem) : List Todo :=
  buildTodos env job.UserID job.JobType (env.Now 2) 0
    (lastDescription (todos.map toTodoItem)) 0 (todos.map toTodoItem)

/-! ## Machine integers -/

/-- The value a Go `int` (64 bits, two's complement) holds for the
mathematical result `x` of an addition or a multiplication. -/
def wrapInt64 (x : Int) : Int := (x + 2 ^ 63) % 2 ^ 64 - 2 ^ 63

/-- The largest `time.Duration`, in nanoseconds. -/
def maxDuration : Int := 2 ^ 63 - 1

/-- The smallest `time.Duration`, in nanoseconds. -/
def minDuration : Int := -(2 ^ 63)

/-! ## The job registry, `internal/service/job_service.go` -/

/-- A `*models.Job`: an address of the heap of job records. -/
abbrev JobPtr := Nat

/-- The heap of job records: the record stored at each allocated address. -/
structure Heap where
  cells : List Job
  deriving Repr

/-- The record a pointer refers to; `none` for a pointer to nothing. -/
def Heap.read (h : Heap) (p : JobPtr) : Option Job := h.cells.get? p

/-- The allocation `&models.Job{...}`: the new pointer and the heap. -/
def Heap.alloc (h : Heap) (job : Job) : JobPtr × Heap :=
  (h.cells.length, { cells := h.cells ++ [job] })

/-- The Go map `map[string]*models.Job` as the list of its entries, one per
key. -/
abbrev JobMap := List (String × JobPtr)

/-- The map read `m[k]`. -/
def JobMap.get (m : JobMap) (k : String) : Option JobPtr := List.lookup k m

/-- The map write `m[k] = v`: the entry of `k` is replaced when there is one
and added otherwise. -/
def JobMap.set : JobMap → String → JobPtr → JobMap
  | [], k, v => [(k, v)]
  | (k0, v0) :: rest, k, v =>
    if k0 = k then (k, v) :: rest else (k0, v0) :: JobMap.set rest k v

/-- The record `JobService`: the map `jobs`. -/
structure JobService where
  jobs : JobMap
  deriving Repr

/-- The error value `ErrJobNotFound`. -/
def ErrJobNotFound : String := "job not found"

/-- The function `NewJobService`. -/
def NewJobService : JobService := { jobs := [] }

/-- The method `SubmitJob(job)`: the registry afterwards and the returned
error (always `nil`); `none` stands for the panic of reading `job.ID`
through a pointer to nothing. -/
def JobService.SubmitJob (js : JobService) (h : Heap) (job : JobPtr) :
    Option (JobService × Option String) :=
  match h.read job with
  | none => none
  | some j => some ({ jobs := js.jobs.set j.ID job }, none)

/-- The method `GetJob(jobID)`: the pointer held by the map, or
`ErrJobNotFound`. -/
def JobService.GetJob (js : JobService) (jobID : String) : Except String JobPtr :=
  match js.jobs.get jobID with
  | none => Except.error ErrJobNotFound
  | some job => Except.ok job

/-- The assignment of the fields of the record a pointer refers to. -/
def Heap.write (h : Heap) (p : JobPtr) (job : Job) : Heap :=
  { cells := h.cells.set p job }

/-- The method `UpdateJob(jobID, status, result, errorMsg)` called at time
`now`: the registry and the heap afterwards and the returned error. The four
fields are written through the pointer the map holds. `none` stands for the
panic of writing through a pointer to nothing. -/
def JobService.UpdateJob (js : JobService) (h : Heap) (jobID : String)
    (status : JobStatusEnum) (result : Option ProcessingResult) (errorMsg : String)
    (now : Int) : Option (JobService × Heap × Option String) :=
  match js.jobs.get jobID with
  | none => some (js, h, some ErrJobNotFound)
  | some p =>
    match h.read p with
    | none => none
    | some job =>
      some (js, h.write p { job with Status := status, Result := result, Error := errorMsg,
                                     UpdatedAt := now }, none)

/-- The loop of `ListJobs` over the entries in the order `range` visits them:
the pointers of the records whose `UserID` is `userID`, in that order. `none`
stands for the panic of reading through a pointer to nothing. -/
def listJobsLoop (h : Heap) (userID : String) : JobMap → Option (List JobPtr)
  | [] => some []
  | (_, p) :: rest =>
    match h.read p with
    | none => none
    | some job =>
      match listJobsLoop h userID rest with
      | none => none
      | some out => some (if job.UserID = userID then p :: out else out)

/-- The method `ListJobs(userID)`. The order of the list `jobs` stands for the
order in which `range` visits the map, which Go leaves open. -/
def JobService.ListJobs (js : JobService) (h : Heap) (userID : String) :
    Option (List JobPtr) :=
  listJobsLoop h userID js.jobs

/-- The loop of `CleanupOldJobs`: the entries left in the map, those whose
record was not created before `cutoff`. `none` stands for the panic of
reading through a pointer to nothing. -/
def cleanupLoop (h : Heap) (cutoff : Int) : JobMap → Option JobMap
  | [] => some []
  | (k, p) :: rest =>
    match h.read p with
    | none => none
    | some job =>
      match cleanupLoop h cutoff rest with
      | none => none
      | some kept => some (if job.CreatedAt < cutoff then kept else (k, p) :: kept)

/-- The method `CleanupOldJobs(maxAge)` called at time `now`: the cutoff is
`time.Now().Add(-maxAge)`, where `-maxAge` is the negation of a 64-bit
`time.Duration`. -/
def JobService.CleanupOldJobs (js : JobService) (h : Heap) (maxAge now : Int) :
    Option JobService :=
  match cleanupLoop h (now + wrapInt64 (-maxAge)) js.jobs with
  | none => none
  | some kept => some { jobs := kept }

/-- What holds of the registry of a running program: the map has one entry
per key, and every pointer it holds refers to a record. -/
def JobService.WellFormed (js : JobService) (h : Heap) : Prop :=
  (js.jobs.map Prod.fst).Nodup ∧ ∀ e ∈ js.jobs, ∃ job, h.read e.2 = some job

/-- Whether the record an entry points to has `userID` as its `UserID`. -/
def ownedBy (h : Heap) (userID : String) (e : String × JobPtr) : Bool :=
  match h.read e.2 with
  | some job => decide (job.UserID = userID)
  | none => false

/-- Whether the record an entry points to was created before `cutoff`. -/
def createdBefore (h : Heap) (cutoff : Int) (e : String × JobPtr) : Bool :=
  match h.read e.2 with
  | some job => decide (job.CreatedAt < cutoff)
  | none => false

/-- The heap after `ProcessJob` has run on the record a pointer refers to:
the record holds what the run left in it. `none` stands for the panic of
writing through a pointer to nothing. -/
def ProcessJobAt (env : Env) (h : Heap) (p : JobPtr) : Option Heap :=
  match h.read p with
  | none => none
  | some job => some (h.write p (ProcessJob env job).job)

/-! ## A status read next to an update -/

/-- The steps of one call of `UpdateJob`, in program order. -/
inductive UpdateStep where
  /-- The call `js.mutex.Lock()`. -/
  | lock
  /-- The statement `job, exists := js.jobs[jobID]` and the test of `exists`. -/
  | lookup
  /-- The statement `job.Status = status`. -/
  | setStatus
  /-- The statement `job.Result = result`. -/
  | setResult
  /-- The statement `job.Error = errorMsg`. -/
  | setError
  /-- The statement `job.UpdatedAt = time.Now()`. -/
  | setUpdatedAt
  /-- The deferred call `js.mutex.Unlock()`. -/
  | unlock
  deriving DecidableEq, Repr

/-- The steps of one status read, in program order: the call of `GetJob`, then
the reads `GetJobStatus` makes of the fields an update writes. -/
inductive ReadStep where
  /-- The call `js.mutex.RLock()` of `GetJob`. -/
  | rlock
  /-- The statement `job, exists := js.jobs[jobID]` of `GetJob` and the test
  of `exists`. -/
  | lookup
  /-- The deferred call `js.mutex.RUnlock()` of `GetJob`. -/
  | runlock
  /-- The read of `job.Status`. -/
  | readStatus
  /-- The read of `job.UpdatedAt`. -/
  | readUpdatedAt
  /-- The read of `job.Error`. -/
  | readError
  /-- The read of `job.Result`. -/
  | readResult
  deriving DecidableEq, Repr

/-- The body of `UpdateJob` as a list of steps. -/
def UpdateJobSteps : List UpdateStep :=
  [UpdateStep.lock, UpdateStep.lookup, UpdateStep.setStatus, UpdateStep.setResult,
   UpdateStep.setError, UpdateStep.setUpdatedAt, UpdateStep.unlock]

/-- The body of `GetJob` followed by the field reads of `GetJobStatus`, as a
list of steps. -/
def statusReadSteps : List ReadStep :=
  [ReadStep.rlock, ReadStep.lookup, ReadStep.runlock, ReadStep.readStatus,
   ReadStep.readUpdatedAt, ReadStep.readError, ReadStep.readResult]

/-- The arguments of one call of `UpdateJob`, and the value its `time.Now()`
returns. -/
structure UpdateCall where
  jobID : String
  status : JobStatusEnum
  result : Option ProcessingResult
  errorMsg : String
  now : Int
  deriving DecidableEq, Repr

/-- What a status read has read so far: `none` for a field not read yet. -/
structure Seen where
  Status : Option JobStatusEnum
  UpdatedAt : Option Int
  Error : Option String
  Result : Option (Option ProcessingResult)
  deriving DecidableEq, Repr

/-- What a status read sees that reads every field of the record `job`. -/
def Seen.all (job : Job) : Seen :=
  { Status := some job.Status, UpdatedAt := some job.UpdatedAt, Error := some job.Error,
    Result := some job.Result }

/-- One goroutine that calls `UpdateJob` and one that reads the status of a
job, at some point of their run: the job records, the state of `js.mutex`
(held for writing, and the number of read locks held), the steps each
goroutine has left, the variable `job` of each, and what the reader has read. -/
structure Race where
  heap : Heap
  writeLocked : Bool
  readLocks : Nat
  update : List UpdateStep
  read : List ReadStep
  updatePtr : Option JobPtr
  readPtr : Option JobPtr
  seen : Seen

/-- The two goroutines before their first step. -/
def Race.start (h : Heap) : Race :=
  { heap := h, writeLocked := false, readLocks := 0, update := UpdateJobSteps,
    read := statusReadSteps, updatePtr := none, readPtr := none,
    seen := { Status := none, UpdatedAt := none, Error := none, Result := none } }

/-- An assignment to a field of the record the variable `job` of `UpdateJob`
points to. `none` stands for a panic. -/
def Race.assign (s : Race) (rest : List UpdateStep) (f : Job → Job) : Option Race :=
  match s.updatePtr with
  | none => none
  | some p =>
    match s.heap.read p with
    | none => none
    | some job => some { s with heap := s.heap.write p (f job), update := rest }

/-- The next step of the goroutine in `UpdateJob`. `none` when the step cannot
be taken: the goroutine has returned, it waits for the mutex, or it panics. -/
def Race.stepUpdate (js : JobService) (call : UpdateCall) (s : Race) : Option Race :=
  match s.update with
  | [] => none
  | UpdateStep.lock :: rest =>
    if s.writeLocked = false ∧ s.readLocks = 0 then
      some { s with writeLocked := true, update := rest }
    else none
  | UpdateStep.lookup :: rest =>
    match js.jobs.get call.jobID with
    | some p => some { s with updatePtr := some p, update := rest }
    | none => some { s with update := [UpdateStep.unlock] }
  | UpdateStep.setStatus :: rest => s.assign rest (fun job => { job with Status := call.status })
  | UpdateStep.setResult :: rest => s.assign rest (fun job => { job with Result := call.result })
  | UpdateStep.setError :: rest => s.assign rest (fun job => { job with Error := call.errorMsg })
  | UpdateStep.setUpdatedAt :: rest =>
    s.assign rest (fun job => { job with UpdatedAt := call.now })
  | UpdateStep.unlock :: rest => some { s with writeLocked := false, update := rest }

/-- A read of a field of the record the variable `job` of the reader points
to. `none` stands for a panic. -/
def Race.fetch (s : Race) (rest : List ReadStep) (f : Job → Seen → Seen) : Option Race :=
  match s.readPtr with
  | none => none
  | some p =>
    match s.heap.read p with
    | none => none
    | some job => some { s with seen := f job s.seen, read := rest }

/-- The next step of the goroutine that reads the status of the job `jobID`.
`none` when the step cannot be taken: the goroutine is done, it waits for the
mutex, or it panics. -/
def Race.stepRead (js : JobService) (jobID : String) (s : Race) : Option Race :=
  match s.read with
  | [] => none
  | ReadStep.rlock :: rest =>
    if s.writeLocked = false then some { s with readLocks := s.readLocks + 1, read := rest }
    else none
  | ReadStep.lookup :: rest =>
    match js.jobs.get jobID with
    | some p => some { s with readPtr := some p, read := rest }
    | none => some { s with read := [ReadStep.runlock] }
  | ReadStep.runlock :: rest => some { s with readLocks := s.readLocks - 1, read := rest }
  | ReadStep.readStatus :: rest =>
    s.fetch rest (fun job seen => { seen with Status := some job.Status })
  | ReadStep.readUpdatedAt :: rest =>
    s.fetch rest (fun job seen => { seen with UpdatedAt := some job.UpdatedAt })
  | ReadStep.readError :: rest =>
    s.fetch rest (fun job seen => { seen with Error := some job.Error })
  | ReadStep.readResult :: rest =>
    s.fetch rest (fun job seen => { seen with Result := some job.Result })

/-- The goroutine that takes a step. -/
inductive Thread where
  | reader
  | updater
  deriving DecidableEq, Repr

/-- The run of the two goroutines in which they take their steps in the order
`schedule` gives, the reader reading the job the update is for. `none` when
the schedule asks for a step that cannot be taken. -/
def Race.run (js : JobService) (call : UpdateCall) : List Thread → Race → Option Race
  | [], s => some s
  | Thread.reader :: rest, s =>
    match s.stepRead js call.jobID with
    | some s1 => Race.run js call rest s1
    | none => none
  | Thread.updater :: rest, s =>
    match s.stepUpdate js call with
    | some s1 => Race.run js call rest s1
    | none => none

/-- What the reader has seen at the end of the interleaving `schedule` of a
status read with the update `call`, both run to their end on the registry
`js` and the records `h`; `none` when `schedule` is not such an interleaving. -/
def observed (js : JobService) (h : Heap) (call : UpdateCall) (schedule : List Thread) :
    Option Seen :=
  match Race.run js call schedule (Race.start h) with
  | some s => if s.update = [] ∧ s.read = [] then some s.seen else none
  | none => none

/-! ## The entry point, `internal/handler/handler.go` -/

/-- The record built under "Create job" in `ProcessInput`: `Result` and
`Error` are left at their zero values. -/
def ProcessInput.newJob (id userID jobType content filePath : String)
    (createdAt updatedAt : Int) : Job :=
  { ID := id, UserID := userID, JobType := jobType, Content := content, FilePath := filePath,
    Status := JobStatusPending, Result := none, Error := "",
    CreatedAt := createdAt, UpdatedAt := updatedAt }

/-- What the end of `ProcessInput` leaves behind. -/
structure Submitted where
  /-- The HTTP status code of the answer. -/
  code : Nat
  /-- The registry afterwards. -/
  js : JobService
  /-- The heap afterwards. -/
  heap : Heap
  /-- The job on which `go ProcessJob(job)` was started, if it was. -/
  started : Option JobPtr
  deriving Repr

/-- The end of `ProcessInput`, from "Create job" to the answer, for a request
that passed authentication and validation with the given user, type, content
and staged file path: the job is allocated, submitted to the registry and, if
that returned no error, the pipeline is started on it. `none` stands for a
panic. -/
def ProcessInput.submit (js : JobService) (h : Heap)
    (id userID jobType content filePath : String) (createdAt updatedAt : Int) :
    Option Submitted :=
  match js.SubmitJob
      (h.alloc (ProcessInput.newJob id userID jobType content filePath createdAt updatedAt)).2
      (h.alloc (ProcessInput.newJob id userID jobType content filePath createdAt updatedAt)).1
    with
  | none => none
  | some (js1, some _) =>
    some { code := 500, js := js1, started := none,
           heap := (h.alloc
             (ProcessInput.newJob id userID jobType content filePath createdAt updatedAt)).2 }
  | some (js1, none) =>
    some { code := 202, js := js1,
           heap := (h.alloc
             (ProcessInput.newJob id userID jobType content filePath createdAt updatedAt)).2
           started := some (h.alloc
             (ProcessInput.newJob id userID jobType content filePath createdAt updatedAt)).1 }

/-- The record `Handler`: the configured API key (the two services are the
registry and the pipeline of this file). -/
structure Handler where
  apiKey : String
  deriving Repr

/-- The header of an uploaded file, `multipart.FileHeader`. -/
structure FileHeader where
  Filename : String
  Size : Int
  deriving Repr

/-- What `ProcessInput` reads of a request. -/
structure Request where
  /-- The value of `c.GetHeader("X-API-Key")`, empty when the header is absent. -/
  XAPIKey : String
  /-- The value of `c.GetHeader("Authorization")`. -/
  Authorization : String
  /-- The error of `c.Request.ParseMultipartForm`, `none` for `nil`. -/
  multipartError : Option String
  /-- The value of `c.PostForm("type")`. -/
  formType : String
  /-- The value of `c.PostForm("user_id")`. -/
  formUserID : String
  /-- The value of `c.PostForm("content")`. -/
  formContent : String
  /-- The header `c.Request.FormFile("file")` returns, `none` when it returns an
  error. -/
  formFile : Option FileHeader
  deriving Repr

/-- What `ProcessInput` calls outside the handler. -/
structure HandlerEnv where
  /-- The call `strings.ToLower`. -/
  ToLower : String → String
  /-- The call `filepath.Ext`. -/
  Ext : String → String
  /-- The call `h.saveUploadedFile(file, header)`: the path of the staged file,
  or the error. -/
  saveUploadedFile : FileHeader → Except String String
  /-- The value of `uuid.New().String()` for the job. -/
  NewUUID : String
  /-- The value of the k-th call of `utils.TimeNow()`. -/
  TimeNow : Nat → Int

/-- The call `strings.CutPrefix(s, lead)`: the rest of `s` after `lead` and
`true` when `s` starts with `lead`, else `s` and `false`. -/
def cutLeading (s lead : String) : String × Bool :=
  if lead.data.isPrefixOf s.data then (String.mk (s.data.drop lead.data.length), true)
  else (s, false)

/-- The key a request presents, as `authenticate` computes it: the
`X-API-Key` header, or when that is empty the `Authorization` header with a
leading `Bearer ` cut off. -/
def presentedKey (req : Request) : String :=
  if req.XAPIKey = "" then
    if (cutLeading req.Authorization "Bearer ").2 = true then
      (cutLeading req.Authorization "Bearer ").1
    else req.Authorization
  else req.XAPIKey

/-- The method `authenticate`: whether the presented key is the configured
one; when it is not, the answer 401 has been written. -/
def Handler.authenticate (hd : Handler) (req : Request) : Bool :=
  if presentedKey req ≠ hd.apiKey then false else true

/-- The function `contains`. -/
def contains : List String → String → Bool
  | [], _ => false
  | s :: rest, item => if s = item then true else contains rest item

/-- The function `isValidType`. -/
def isValidType (inputType : String) : Bool :=
  contains ["text", "image", "document"] inputType

/-- The method `validateFile`: the error, `none` for `nil`. -/
def validateFile (henv : HandlerEnv) (header : FileHeader) (inputType : String) :
    Option String :=
  if header.Size > 5 * 1024 * 1024 then some "file size exceeds 5MB limit"
  else if inputType = "image" then
    if ¬ contains [".jpg", ".jpeg", ".png", ".gif", ".bmp", ".webp"]
        (henv.ToLower (henv.Ext header.Filename)) = true then
      some "invalid image format. Supported: jpg, jpeg, png, gif, bmp, webp"
    else none
  else if inputType = "document" then
    if ¬ contains [".pdf", ".doc", ".docx", ".txt", ".rtf"]
        (henv.ToLower (henv.Ext header.Filename)) = true then
      some "invalid document format. Supported: pdf, doc, docx, txt, rtf"
    else none
  else none

/-- An answer of `ProcessInput` that leaves the registry and the heap as they
were and starts nothing. -/
def rejected (code : Nat) (js : JobService) (h : Heap) : Option Submitted :=
  some { code := code, js := js, heap := h, started := none }

/-- The method `ProcessInput`: the status code of the answer, the registry
and the heap afterwards, and the job the pipeline was started on. `none`
stands for a panic. -/
def Handler.ProcessInput (hd : Handler) (henv : HandlerEnv) (js : JobService) (h : Heap)
    (req : Request) : Option Submitted :=
  if hd.authenticate req = false then rejected 401 js h
  else
    match req.multipartError with
    | some _ => rejected 400 js h
    | none =>
      if req.formType = "" ∨ req.formUserID = "" then rejected 400 js h
      else if isValidType req.formType = false then rejected 400 js h
      else if req.formType = "text" then
        if req.formContent = "" then rejected 400 js h
        else
          ProcessInput.submit js h henv.NewUUID req.formUserID req.formType req.formContent ""
            (henv.TimeNow 0) (henv.TimeNow 1)
      else if req.formType = "image" ∨ req.formType = "document" then
        match req.formFile with
        | none => rejected 400 js h
        | some header =>
          match validateFile henv header req.formType with
          | some _ => rejected 400 js h
          | none =>
            match henv.saveUploadedFile header with
            | Except.error _ => rejected 500 js h
            | Except.ok filePath =>
              ProcessInput.submit js h henv.NewUUID req.formUserID req.formType "" filePath
                (henv.TimeNow 0) (henv.TimeNow 1)
      else
        ProcessInput.submit js h henv.NewUUID req.formUserID req.formType "" ""
          (henv.TimeNow 0) (henv.TimeNow 1)

/-- The statuses a job record takes from the moment it is handed to
`ProcessJob` to the return of `ProcessJob`: the status it is handed in with,
then each status written. -/
def stateSequence (env : Env) (job : Job) : List JobStatusEnum :=
  job.Status :: statusWrites (ProcessJob env job).trace

/-- The record `models.JobStatus`, the body of a status answer. In the JSON
text `Message` is left out when it is empty and `Todos` when it has no
element (`omitempty`). -/
structure JobStatus where
  JobID : String
  Status : String
  Message : String
  Todos : List Todo
  CreatedAt : Int
  UpdatedAt : Int
  deriving DecidableEq, Repr

/-- What `GetJobStatus` calls outside the handler. -/
structure StatusEnv where
  /-- The value of the k-th call of `uuid.New()` made by one status query. -/
  NewUUID : Nat → String
  /-- The call `utils.ParseDate(s)`: the date, `none` on error. -/
  ParseDate : String → Option Int
  /-- Whether a `for ... range` loop has one variable per iteration (Go 1.22
  and later) or one variable shared by all iterations (earlier versions). -/
  LoopVarPerIteration : Bool

/-- The loop of `GetJobStatus` over `job.Result.Todos`, from the item of index
`k` on, as the answer is written once the loop is over. `shared` is the
description the shared loop variable holds by then (that of the last item):
with one loop variable for all iterations every `&item.Description` is the
same address. -/
def statusTodos (senv : StatusEnv) (job : Job) (shared : String) :
    Nat → List TodoItem → List Todo
  | _, [] => []
  | k, item :: rest =>
    { ID := senv.NewUUID k
      UserID := job.UserID
      Title := item.Title
      Description := some (if senv.LoopVarPerIteration then item.Description else shared)
      DueDate :=
        match item.DueDate with
        | some d => if d ≠ "" then senv.ParseDate d else none
        | none => none
      SourceType := job.JobType
      SourceURL := none
      CreatedAt := job.CreatedAt } :: statusTodos senv job shared (k + 1) rest

/-- An answer of `GetJobStatus`: the status code, and the `JobStatus` body of
an answer 200 (`none` for the error answers, whose body is an
`ErrorResponse`). -/
structure StatusAnswer where
  code : Nat
  body : Option JobStatus
  deriving DecidableEq, Repr

/-- The method `GetJobStatus` for a request with the route parameter
`c.Param("job_id") = jobID`, with the job records as the heap `h` holds them
when the handler reads them. `none` stands for a panic. -/
def Handler.GetJobStatus (hd : Handler) (senv : StatusEnv) (js : JobService) (h : Heap)
    (req : Request) (jobID : String) : Option StatusAnswer :=
  if hd.authenticate req = false then some { code := 401, body := none }
  else if jobID = "" then some { code := 400, body := none }
  else
    match js.GetJob jobID with
    | Except.error err =>
      if err = ErrJobNotFound then some { code := 404, body := none }
      else some { code := 500, body := none }
    | Except.ok p =>
      match h.read p with
      | none => none
      | some job =>
        some
          { code := 200
            body := some
              { JobID := job.ID
                Status := job.Status
                Message := if job.Error ≠ "" then job.Error else ""
                Todos :=
                  match job.Result with
                  | some result =>
                    statusTodos senv job (lastDescription result.Todos) 0 result.Todos
                  | none => []
                CreatedAt := job.CreatedAt
                UpdatedAt := job.UpdatedAt } }

/-! ## The token bucket, `internal/middleware/rate_limiter.go` -/

/-- The most whole seconds a `time.Duration` holds. -/
def maxSeconds : Int := 9223372036

/-- The method `t.Sub(u)` of `time.Time`: the difference in nanoseconds, kept
within the range of a `time.Duration`. -/
def timeSub (t u : Int) : Int :=
  if t - u > maxDuration then maxDuration
  else if t - u < minDuration then minDuration
  else t - u

/-- The quotient `n / d` rounded to the nearest whole number, a tie going to
the even one: the rounding of IEEE 754 arithmetic. -/
def roundHalfEven (n d : Nat) : Nat :=
  if 2 * (n % d) < d then n / d
  else if d < 2 * (n % d) then n / d + 1
  else if n / d % 2 = 0 then n / d
  else n / d + 1

/-- The number of times `n` can be halved before it falls under 2, with at
most `fuel` halvings. -/
def halvings : Nat → Nat → Nat
  | 0, _ => 0
  | fuel + 1, n => if 2 ≤ n then halvings fuel (n / 2) + 1 else 0

/-- The whole part of the binary logarithm of `n`, and 0 for `n = 0`. -/
def floorLog2 (n : Nat) : Nat := halvings n n

/-- The binary exponent of the positive fraction `p / q`: the `e` with
`2^e <= p / q < 2^(e+1)`. The difference of the two logarithms is `e` or
`e + 1`; the comparison of `p / q` with 2 to that power tells which. -/
def binaryExponent (p q : Nat) : Int :=
  if q * 2 ^ (floorLog2 p - floorLog2 q) ≤ p * 2 ^ (floorLog2 q - floorLog2 p) then
    (floorLog2 p : Int) - floorLog2 q
  else (floorLog2 p : Int) - floorLog2 q - 1

/-- A finite `float64` that is not negative: the value `mant * 2^exp`. -/
structure Float64 where
  mant : Nat
  exp : Int
  deriving DecidableEq, Repr

/-- The `float64` nearest to the fraction `p / q`, a tie going to the even
mantissa: the fraction is rounded to a whole multiple of 2^(e-52), where `e`
is its binary exponent, which leaves 53 significant bits. This is the rounding
of every IEEE 754 operation on normal numbers (no underflow and no overflow:
the values of this file lie between 2^-30 and 2^34). -/
def Float64.ofFraction (p q : Nat) : Float64 :=
  if p = 0 then { mant := 0, exp := 0 }
  else
    { mant := roundHalfEven (p * 2 ^ (52 - binaryExponent p q).toNat)
        (q * 2 ^ (binaryExponent p q - 52).toNat)
      exp := binaryExponent p q - 52 }

/-- The conversion `float64(n)` of a whole number: exact under 2^53, rounded
from there on. -/
def Float64.ofNat (n : Nat) : Float64 :=
  if n < 2 ^ 53 then { mant := n, exp := 0 } else Float64.ofFraction n 1

/-- The quotient `a / b` of two `float64`: the exact quotient, rounded. -/
def Float64.div (a b : Float64) : Float64 :=
  Float64.ofFraction (a.mant * 2 ^ (a.exp - b.exp).toNat) (b.mant * 2 ^ (b.exp - a.exp).toNat)

/-- The sum `a + b` of two `float64`: the exact sum, rounded. -/
def Float64.add (a b : Float64) : Float64 :=
  Float64.ofFraction
    ((a.mant * 2 ^ (a.exp - min a.exp b.exp).toNat + b.mant * 2 ^ (b.exp - min a.exp b.exp).toNat)
      * 2 ^ (min a.exp b.exp).toNat)
    (2 ^ (-min a.exp b.exp).toNat)

/-- The conversion `int(a)` of a `float64`: its whole part. -/
def Float64.trunc (a : Float64) : Nat := a.mant * 2 ^ a.exp.toNat / 2 ^ (-a.exp).toNat

/-- The method `Seconds` of `time.Duration` for a duration of `d` nanoseconds,
`d >= 0`: with `sec := d / Second` and `nsec := d % Second` it returns
`float64(sec) + float64(nsec)/1e9`. -/
def Seconds (d : Nat) : Float64 :=
  (Float64.ofNat (d / 1000000000)).add
    ((Float64.ofNat (d % 1000000000)).div (Float64.ofNat 1000000000))

/-- The expression `int(d.Seconds())` for a duration of `d` nanoseconds,
`d >= 0`. -/
def wholeSecondsNat (d : Nat) : Nat := (Seconds d).trunc

/-- The expression `int(d.Seconds())` for a duration of `d` nanoseconds: the
`float64` seconds, rounded toward zero. For a negative duration the quotient,
the remainder, the two `float64` operations and the conversion all mirror
those of `-d`, so the result is the negative of that for `-d`. For every
duration under 2^24 seconds (about 194 days) the result is the whole seconds
`d / 10^9`; from there on a duration within a few nanoseconds below a whole
second is rounded up to it by the `float64` sum. -/
def wholeSeconds (d : Int) : Int :=
  if 0 ≤ d then (wholeSecondsNat d.toNat : Int) else -(wholeSecondsNat (-d).toNat : Int)

/-- The record `TokenBucket` (without its mutex). -/
structure TokenBucket where
  tokens : Int
  capacity : Int
  rate : Int
  lastRefill : Int
  deriving DecidableEq, Repr

/-- The function `newTokenBucket`, called at time `now`. -/
def newTokenBucket (rate capacity : Int) (now : Int) : TokenBucket :=
  { tokens := capacity, capacity := capacity, rate := rate, lastRefill := now }

/-- The variable `tokensToAdd` of `allow` called at time `now`. -/
def TokenBucket.tokensToAdd (tb : TokenBucket) (now : Int) : Int :=
  wrapInt64 (wholeSeconds (timeSub now tb.lastRefill) * tb.rate)

/-- The first half of `allow` called at time `now`, "Add tokens based on
elapsed time": the bucket before the check for an available token. -/
def TokenBucket.refill (tb : TokenBucket) (now : Int) : TokenBucket :=
  if tb.tokensToAdd now > 0 then
    { tb with
      tokens :=
        if wrapInt64 (tb.tokens + tb.tokensToAdd now) > tb.capacity then tb.capacity
        else wrapInt64 (tb.tokens + tb.tokensToAdd now)
      lastRefill := now }
  else tb

/-- The method `allow` of `TokenBucket` called at time `now`: the answer and
the bucket afterwards. -/
def TokenBucket.allow (tb : TokenBucket) (now : Int) : Bool × TokenBucket :=
  if (tb.refill now).tokens > 0 then
    (true, { tb.refill now with tokens := (tb.refill now).tokens - 1 })
  else (false, tb.refill now)

/-- The calls of `allow` at the given times, one after the other: the answers
and the bucket after the last call. -/
def allowAll (tb : TokenBucket) : List Int → List Bool × TokenBucket
  | [] => ([], tb)
  | t :: ts =>
    ((tb.allow t).1 :: (allowAll (tb.allow t).2 ts).1, (allowAll (tb.allow t).2 ts).2)

/-- The number of calls that were permitted, among the answers of a run of
calls of `allow`. -/
def permits (answers : List Bool) : Nat := answers.count true

/-- The time of the last call of a run of calls at the times `ts` on a bucket
created at time `t0`; `t0` itself when no call is made. -/
def lastTime (t0 : Int) : List Int → Int
  | [] => t0
  | t :: ts => lastTime t ts

/-- The record `visitor`: the bucket its `limiter` points to and `lastSeen`. -/
structure visitor where
  limiter : TokenBucket
  lastSeen : Int
  deriving DecidableEq, Repr

/-- The Go map `map[string]*visitor` as the list of its entries, one per
key. -/
abbrev VisitorMap := List (String × visitor)

/-- The map read `m[k]`. -/
def VisitorMap.get (m : VisitorMap) (k : String) : Option visitor := List.lookup k m

/-- The map write `m[k] = v`. -/
def VisitorMap.set : VisitorMap → String → visitor → VisitorMap
  | [], k, v => [(k, v)]
  | (k0, v0) :: rest, k, v =>
    if k0 = k then (k, v) :: rest else (k0, v0) :: VisitorMap.set rest k v

/-- The record `RateLimiter` (without its mutex). -/
structure RateLimiter where
  visitors : VisitorMap
  rate : Int
  burst : Int
  cleanupInterval : Int
  deriving DecidableEq, Repr

/-- The function `NewRateLimiter`. It starts the sweep routine, whose
`time.NewTicker(cleanup)` panics when `cleanup` is not positive: `none`
stands for that panic. -/
def NewRateLimiter (rate burst cleanup : Int) : Option RateLimiter :=
  if cleanup ≤ 0 then none
  else some { visitors := [], rate := rate, burst := burst, cleanupInterval := cleanup }

/-- The method `allow(ip)` of `RateLimiter`; `clock k` is the value of the
k-th call of `time.Now()` it makes. For an unknown client the bucket is made
at `clock 0`, `lastSeen` is set at `clock 1` and again at `clock 2`, and the
bucket's `allow` runs at `clock 3`; for a known client `lastSeen` is set at
`clock 0` and the bucket's `allow` runs at `clock 1`. -/
def RateLimiter.allow (rl : RateLimiter) (ip : String) (clock : Nat → Int) :
    Bool × RateLimiter :=
  match rl.visitors.get ip with
  | none =>
    (((newTokenBucket rl.rate rl.burst (clock 0)).allow (clock 3)).1,
      { rl with
        visitors := rl.visitors.set ip
          { limiter := ((newTokenBucket rl.rate rl.burst (clock 0)).allow (clock 3)).2
            lastSeen := clock 2 } })
  | some v =>
    ((v.limiter.allow (clock 1)).1,
      { rl with
        visitors := rl.visitors.set ip
          { limiter := (v.limiter.allow (clock 1)).2, lastSeen := clock 0 } })

/-- The method `cleanupVisitors` called at time `now`: the cutoff is
`time.Now().Add(-rl.cleanupInterval)`, and the clients last seen before it
are deleted. -/
def RateLimiter.cleanupVisitors (rl : RateLimiter) (now : Int) : RateLimiter :=
  { rl with
    visitors := rl.visitors.filter
      (fun e => !decide (e.2.lastSeen < now + wrapInt64 (-rl.cleanupInterval))) }

/-- What holds of the rate limiter of a running program: the map has one
entry per key, and the sweep interval is a positive `time.Duration` (with any
other interval the sweep routine started by `NewRateLimiter` panics). -/
def RateLimiter.WellFormed (rl : RateLimiter) : Prop :=
  (rl.visitors.map Prod.fst).Nodup ∧ 0 < rl.cleanupInterval ∧
    rl.cleanupInterval ≤ maxDuration

/-- The elapsed time between `lastRefill` and `now` as a number of seconds. -/
def elapsedSeconds (lastRefill now : Int) : ℚ := ((now - lastRefill : Int) : ℚ) / 1000000000

/-- What holds of every bucket made by `newTokenBucket rate capacity` after
any calls of `allow`, when the credit of the longest elapsed time fits a Go
`int`: capacity and rate are as given and the tokens are between zero and the
capacity. -/
def BucketInv (capacity rate : Int) (tb : TokenBucket) : Prop :=
  tb.capacity = capacity ∧ tb.rate = rate ∧ 0 ≤ tb.tokens ∧ tb.tokens ≤ capacity

/-! ## Inputs of the worked examples -/

/-- An environment whose AI client is down and whose other calls succeed. -/
def envAIDown : Env :=
  { ReadFile := fun _ => Except.ok "notes"
    ExtractTodos := fun _ => Except.error "Gemini API returned status 503"
    InsertTodos := fun _ => none
    Remove := fun _ => none
    Now := fun k => 1000 + k
    NewUUID := fun _ => "00000000-0000-0000-0000-000000000000"
    ParseDate := fun _ => none
    LoopVarPerIteration := true }

/-- An environment in which every call succeeds; the AI client returns one
item. -/
def envAllOk : Env :=
  { envAIDown with
    ExtractTodos := fun _ =>
      Except.ok [{ Title := "Buy milk", Description := "", DueDate := some "2024-01-02" }] }

/-- An `image` job as the entry point builds it, with a staged upload. -/
def jobUpload : Job :=
  { ID := "job-1", UserID := "user-1", JobType := "image", Content := "",
    FilePath := "/tmp/todo-agent/1_scan.png", Status := JobStatusPending, Result := none,
    Error := "", CreatedAt := 1000, UpdatedAt := 1000 }

/-- A `text` job as the entry point builds it. -/
def jobText : Job :=
  ProcessInput.newJob "job-2" "user-1" "text" "Buy milk tomorrow" "" 1000 1000

/-- A heap holding a finished job and a new job with the same identifier. -/
def heapTwice : Heap :=
  { cells := [{ jobText with Status := JobStatusCompleted }, jobText] }

/-- A registry holding the finished job of `heapTwice`. -/
def registryOne : JobService := { jobs := [("job-2", 0)] }

/-- A heap holding the `text` job of the entry point, created at time 1000. -/
def heapOne : Heap := { cells := [jobText] }

/-- A result with one item. -/
def resultOne : ProcessingResult :=
  { Todos := [{ Title := "Buy milk", Description := "", DueDate := some "2024-01-02" }],
    ProcessedAt := 1500 }

/-- A heap of three jobs: two of `user-1` and one of `user-2`. -/
def heapMixed : Heap :=
  { cells := [jobText, jobUpload, { jobText with ID := "job-3", UserID := "user-2" }] }

/-- The registry of the three jobs of `heapMixed`. -/
def registryMixed : JobService := { jobs := [("job-2", 0), ("job-1", 1), ("job-3", 2)] }

/-- The handler of the tests, with the key `test-api-key`. -/
def handlerTest : Handler := { apiKey := "test-api-key" }

/-- A handler environment whose calls all succeed. -/
def henvOk : HandlerEnv :=
  { ToLower := fun s => s.map Char.toLower
    Ext := fun _ => ".png"
    saveUploadedFile := fun _ => Except.ok "/tmp/todo-agent/1_scan.png"
    NewUUID := "job-7"
    TimeNow := fun k => 3000 + k }

/-- The request of `TestProcessInput_InvalidAPIKey`: no form, and the key
`invalid-key` in the `X-API-Key` header. -/
def requestInvalidKey : Request :=
  { XAPIKey := "invalid-key", Authorization := "", multipartError := some "no multipart form",
    formType := "", formUserID := "", formContent := "", formFile := none }

/-- A well-formed `text` request that presents the key `wrong` as a bearer
token. -/
def requestBearerWrong : Request :=
  { XAPIKey := "", Authorization := "Bearer wrong", multipartError := none,
    formType := "text", formUserID := "user-1", formContent := "Buy milk tomorrow",
    formFile := none }

/-- A limiter of rate 1, burst 5 and a sweep interval of 60 seconds that
knows a client last seen at time 0 with a drained bucket and a client last
seen 50 seconds later. -/
def limiterTwo : RateLimiter :=
  { visitors :=
      [("10.0.0.1", { limiter := { tokens := 0, capacity := 5, rate := 1, lastRefill := 0 },
                      lastSeen := 0 }),
       ("10.0.0.2", { limiter := { tokens := 3, capacity := 5, rate := 1,
                                   lastRefill := 50000000000 },
                      lastSeen := 50000000000 })]
    rate := 1, burst := 5, cleanupInterval := 60000000000 }

/-- An environment in which every call succeeds and `time.Parse` knows the
date `2024-01-02`; loops have one variable per iteration. -/
def envDates : Env :=
  { envAllOk with
    ParseDate := fun d => if d = "2024-01-02" then some 1704153600000000000 else none }

/-- The environment `envDates` with one loop variable shared by all
iterations. -/
def envDatesShared : Env := { envDates with LoopVarPerIteration := false }

/-- Two candidates: one without description and with a date, one with a
description and the due-date text `soon`. -/
def itemsTwo : List TodoItem :=
  [{ Title := "Buy milk", Description := "", DueDate := some "2024-01-02" },
   { Title := "Call mom", Description := "about the trip", DueDate := some "soon" }]

/-- Two candidates with different descriptions. -/
def itemsDescribed : List TodoItem :=
  [{ Title := "Buy milk", Description := "two litres", DueDate := none },
   { Title := "Call mom", Description := "about the trip", DueDate := none }]

/-- The candidate list of the end-to-end scenario. -/
def candidatesMilk : List GeminiTodoItem :=
  [{ Title := "Buy milk", Description := "", DueDate := some "2024-01-02" }]

/-- An environment whose todo store is down and whose other calls succeed. -/
def envStoreDown : Env :=
  { envDates with InsertTodos := fun _ => some "supabase returned status 500" }

/-- A drained bucket of capacity 10 and rate 2, last refilled at time 0. -/
def bucketHalf : TokenBucket := { tokens := 0, capacity := 10, rate := 2, lastRefill := 0 }

/-- The job of `TestGetJobStatus`: completed, with a result of one item. -/
def jobDone : Job :=
  { ID := "test-job-id", UserID := "test-user", JobType := "text", Content := "",
    FilePath := "", Status := JobStatusCompleted,
    Result := some { Todos := [{ Title := "Test todo", Description := "Test description",
                                 DueDate := none }],
                     ProcessedAt := 0 },
    Error := "", CreatedAt := 0, UpdatedAt := 0 }

/-- A heap holding the job of `TestGetJobStatus`. -/
def heapDone : Heap := { cells := [jobDone] }

/-- A registry holding the job of `TestGetJobStatus`. -/
def registryDone : JobService := { jobs := [("test-job-id", 0)] }

/-- The request of `TestGetJobStatus`: the key `test-api-key` in the
`X-API-Key` header and no form. -/
def requestStatus : Request :=
  { XAPIKey := "test-api-key", Authorization := "", multipartError := none,
    formType := "", formUserID := "", formContent := "", formFile := none }

/-- A status environment that knows no date. -/
def senvOk : StatusEnv :=
  { NewUUID := fun _ => "00000000-0000-0000-0000-000000000000"
    ParseDate := fun _ => none
    LoopVarPerIteration := true }

/-- The update that completes the job `job-2` with the result `resultOne`
at time 2000. -/
def updateDone : UpdateCall :=
  { jobID := "job-2", status := JobStatusCompleted, result := some resultOne,
    errorMsg := "", now := 2000 }

/-- The interleaving in which the update runs first and the read after it. -/
def scheduleUpdateFirst : List Thread :=
  List.replicate 7 Thread.updater ++ List.replicate 7 Thread.reader

/-- The interleaving in which the read runs first and the update after it. -/
def scheduleReadFirst : List Thread :=
  List.replicate 7 Thread.reader ++ List.replicate 7 Thread.updater

/-- The interleaving in which `GetJob` returns, `UpdateJob` then takes the
mutex and assigns the status, the reader then reads its four fields, and
`UpdateJob` then runs to its end. -/
def scheduleTorn : List Thread :=
  List.replicate 3 Thread.reader ++ List.replicate 3 Thread.updater ++
    List.replicate 4 Thread.reader ++ List.replicate 4 Thread.updater

/-- The times of a run of calls on a bucket created at time 0: 16777217 calls
at time 0, then 16777217 calls 16777216.999999999 seconds later. -/
def callsTwoBursts : List Int :=
  List.replicate 16777217 0 ++
    16777216999999999 :: List.replicate 16777216 16777216999999999

/-- The times of a run of calls on a bucket created at time 0: six calls at
time 0, then three calls 2.5 seconds later. -/
def callsNine : List Int :=
  [0, 0, 0, 0, 0, 0, 2500000000, 2500000000, 2500000000]

/-! ## Shape of a pipeline run -/

theorem extractText_start (env : Env) (job : Job) :
    extractText env ((((PState.start job).setStatus JobStatusProcessing).touch env).job)
      = extractText env job := rfl

theorem saveTodosToDatabase_cases (env : Env) (s : PState) (userID : String)
    (items : List TodoItem) (sourceType : String) :
    (items = [] ∧ saveTodosToDatabase env s userID items sourceType = (none, s)) ∨
    (items ≠ [] ∧ ∃ batch,
      (saveTodosToDatabase env s userID items sourceType).1 = env.InsertTodos batch ∧
      (saveTodosToDatabase env s userID items sourceType).2.job = s.job ∧
      (saveTodosToDatabase env s userID items sourceType).2.trace
        = s.trace ++ [Event.callInsertTodos batch]) := by
  unfold saveTodosToDatabase
  by_cases h : items = []
  · left; subst h; simp
  · right
    refine ⟨h, ?_⟩
    have hl : ¬ items.length = 0 := by simpa using h
    simp only [hl, if_false]
    exact ⟨_, rfl, rfl, rfl⟩

theorem saveTodosToDatabase_job (env : Env) (s : PState) (userID : String)
    (items : List TodoItem) (sourceType : String) :
    (saveTodosToDatabase env s userID items sourceType).2.job = s.job := by
  rcases saveTodosToDatabase_cases env s userID items sourceType with ⟨_, h⟩ | ⟨_, _, _, h, _⟩
  · rw [h]
  · exact h

theorem ProcessJob_extract_error (env : Env) (job : Job) (err : String)
    (h1 : extractText env job = Except.error err) :
    ProcessJob env job
      = markJobFailed env (entered env job) ("Failed to extract text: " ++ err) := by
  unfold ProcessJob
  simp only [extractText_start, h1, entered]

theorem ProcessJob_ai_error (env : Env) (job : Job) (text err : String)
    (h1 : extractText env job = Except.ok text)
    (h2 : env.ExtractTodos text = Except.error err) :
    ProcessJob env job
      = markJobFailed env ((entered env job).emit (Event.callExtractTodos text))
          ("Failed to process with AI: " ++ err) := by
  unfold ProcessJob
  simp only [extractText_start, h1, h2, entered]

theorem ProcessJob_after_ai (env : Env) (job : Job) (text : String)
    (todos : List GeminiTodoItem)
    (h1 : extractText env job = Except.ok text)
    (h2 : env.ExtractTodos text = Except.ok todos) :
    ProcessJob env job
      = match (afterSave env job text todos).1 with
        | some err =>
          markJobFailed env (afterSave env job text todos).2 ("Failed to save todos: " ++ err)
        | none =>
          if job.FilePath ≠ "" then
            cleanupFile env ((((afterSave env job text todos).2.setStatus
              JobStatusCompleted).setResult
                { Todos := todos.map toTodoItem, ProcessedAt := env.Now 1 }).touch env)
              job.FilePath
          else
            ((((afterSave env job text todos).2.setStatus JobStatusCompleted).setResult
              { Todos := todos.map toTodoItem, ProcessedAt := env.Now 1 }).touch env) := by
  have hj : (afterSave env job text todos).2.job.FilePath = job.FilePath := by
    unfold afterSave
    rw [saveTodosToDatabase_job]
    rfl
  unfold ProcessJob
  simp only [extractText_start, h1, h2]
  show (match (afterSave env job text todos).1 with
        | some err =>
          markJobFailed env (afterSave env job text todos).2 ("Failed to save todos: " ++ err)
        | none =>
          if (afterSave env job text todos).2.job.FilePath ≠ "" then
            cleanupFile env ((((afterSave env job text todos).2.setStatus
              JobStatusCompleted).setResult
                { Todos := todos.map toTodoItem, ProcessedAt := env.Now 1 }).touch env)
              (afterSave env job text todos).2.job.FilePath
          else
            ((((afterSave env job text todos).2.setStatus JobStatusCompleted).setResult
              { Todos := todos.map toTodoItem, ProcessedAt := env.Now 1 }).touch env)) = _
  rw [hj]

theorem markJobFailed_trace (env : Env) (s : PState) (msg : String) :
    (markJobFailed env s msg).trace = s.trace ++ failEvents msg (env.Now s.nowCalls) := by
  simp [markJobFailed, failEvents, PState.setStatus, PState.setError, PState.touch,
    PState.setUpdatedAt, PState.timeNow]

theorem markJobFailed_job (env : Env) (s : PState) (msg : String) :
    (markJobFailed env s msg).job
      = { s.job with Status := JobStatusFailed, Error := msg,
                     UpdatedAt := env.Now s.nowCalls } := rfl

theorem afterSave_cases (env : Env) (job : Job) (text : String)
    (todos : List GeminiTodoItem) :
    (todos = [] ∧ (afterSave env job text todos).1 = none ∧
      (afterSave env job text todos).2.job = (entered env job).job ∧
      (afterSave env job text todos).2.trace
        = headEvents env ++ [Event.callExtractTodos text]) ∨
    (todos ≠ [] ∧ ∃ batch,
      (afterSave env job text todos).1 = env.InsertTodos batch ∧
      (afterSave env job text todos).2.job = (entered env job).job ∧
      (afterSave env job text todos).2.trace
        = headEvents env ++ [Event.callExtractTodos text, Event.callInsertTodos batch]) := by
  unfold afterSave
  rcases saveTodosToDatabase_cases env
      ((((entered env job).emit (Event.callExtractTodos text)).timeNow env).2)
      job.UserID (todos.map toTodoItem) job.JobType with ⟨he, h⟩ | ⟨hne, batch, hb, hj, ht⟩
  · left
    refine ⟨by simpa using he, ?_, ?_, ?_⟩ <;> rw [h] <;> rfl
  · right
    refine ⟨by simpa using hne, batch, hb, ?_, ?_⟩
    · rw [hj]; rfl
    · rw [ht]; rfl

theorem ProcessJob_cases (env : Env) (job : Job) :
    (∃ err t, extractText env job = Except.error err ∧
      (ProcessJob env job).trace
        = headEvents env ++ failEvents ("Failed to extract text: " ++ err) t ∧
      (ProcessJob env job).job
        = { job with Status := JobStatusFailed, Error := "Failed to extract text: " ++ err,
                     UpdatedAt := t }) ∨
    (∃ text err t, extractText env job = Except.ok text ∧
      env.ExtractTodos text = Except.error err ∧
      (ProcessJob env job).trace
        = headEvents env ++ [Event.callExtractTodos text]
            ++ failEvents ("Failed to process with AI: " ++ err) t ∧
      (ProcessJob env job).job
        = { job with Status := JobStatusFailed, Error := "Failed to process with AI: " ++ err,
                     UpdatedAt := t }) ∨
    (∃ text todos batch err t, extractText env job = Except.ok text ∧
      env.ExtractTodos text = Except.ok todos ∧ todos ≠ [] ∧
      env.InsertTodos batch = some err ∧
      (ProcessJob env job).trace
        = headEvents env ++ [Event.callExtractTodos text, Event.callInsertTodos batch]
            ++ failEvents ("Failed to save todos: " ++ err) t ∧
      (ProcessJob env job).job
        = { job with Status := JobStatusFailed, Error := "Failed to save todos: " ++ err,
                     UpdatedAt := t }) ∨
    (∃ text todos saved tr t, extractText env job = Except.ok text ∧
      env.ExtractTodos text = Except.ok todos ∧
      ((todos = [] ∧ saved = []) ∨
        (todos ≠ [] ∧ ∃ batch, saved = [Event.callInsertTodos batch] ∧
          env.InsertTodos batch = none)) ∧
      (ProcessJob env job).trace
        = headEvents env ++ [Event.callExtractTodos text] ++ saved
            ++ [Event.setStatus JobStatusCompleted,
                Event.setResult { Todos := todos.map toTodoItem, ProcessedAt := tr },
                Event.setUpdatedAt t]
            ++ (if job.FilePath ≠ "" then [Event.callRemove job.FilePath] else []) ∧
      (ProcessJob env job).job
        = { job with Status := JobStatusCompleted,
                     Result := some { Todos := todos.map toTodoItem, ProcessedAt := tr },
                     UpdatedAt := t }) := by
  cases h1 : extractText env job with
  | error err =>
    left
    refine ⟨err, env.Now (entered env job).nowCalls, rfl, ?_, ?_⟩
    · rw [ProcessJob_extract_error env job err h1, markJobFailed_trace]; rfl
    · rw [ProcessJob_extract_error env job err h1, markJobFailed_job]; rfl
  | ok text =>
    right
    cases h2 : env.ExtractTodos text with
    | error err =>
      left
      refine ⟨text, err, env.Now (entered env job).nowCalls, rfl, h2, ?_, ?_⟩
      · rw [ProcessJob_ai_error env job text err h1 h2, markJobFailed_trace]; rfl
      · rw [ProcessJob_ai_error env job text err h1 h2, markJobFailed_job]; rfl
    | ok todos =>
      right
      have key := ProcessJob_after_ai env job text todos h1 h2
      cases h3 : (afterSave env job text todos).1 with
      | some err =>
        left
        rw [h3] at key
        simp only at key
        rcases afterSave_cases env job text todos with ⟨_, hn, _, _⟩ | ⟨hne, batch, hb, hj, ht⟩
        · rw [hn] at h3; cases h3
        · refine ⟨text, todos, batch, err, env.Now (afterSave env job text todos).2.nowCalls,
            rfl, h2, hne, by rw [← hb, h3], ?_, ?_⟩
          · rw [key, markJobFailed_trace, ht]
          · rw [key, markJobFailed_job, hj]; rfl
      | none =>
        right
        rw [h3] at key
        simp only at key
        have hfin : ∀ s : PState, (((s.setStatus JobStatusCompleted).setResult
              { Todos := todos.map toTodoItem, ProcessedAt := env.Now 1 }).touch env).trace
            = s.trace ++ [Event.setStatus JobStatusCompleted,
                Event.setResult { Todos := todos.map toTodoItem, ProcessedAt := env.Now 1 },
                Event.setUpdatedAt (env.Now s.nowCalls)] := by
          intro s
          simp [PState.setStatus, PState.setResult, PState.touch, PState.setUpdatedAt,
            PState.timeNow]
        refine ⟨text, todos,
          (if todos = [] then [] else
            (afterSave env job text todos).2.trace.drop 3),
          env.Now 1, env.Now (afterSave env job text todos).2.nowCalls, rfl, h2, ?_, ?_, ?_⟩
        · rcases afterSave_cases env job text todos with ⟨he, _, _, _⟩ | ⟨hne, batch, hb, _, ht⟩
          · left; exact ⟨he, by simp [he]⟩
          · right
            refine ⟨hne, batch, ?_, by rw [← hb, h3]⟩
            rw [ht]; simp [hne, headEvents]
        · have htr : (afterSave env job text todos).2.trace
              = headEvents env ++ [Event.callExtractTodos text]
                ++ (if todos = [] then [] else (afterSave env job text todos).2.trace.drop 3) := by
            rcases afterSave_cases env job text todos with ⟨he, _, _, ht⟩ | ⟨hne, batch, _, _, ht⟩
            · rw [ht]; simp [he]
            · rw [ht]; simp [hne, headEvents]
          rw [key]
          by_cases hf : job.FilePath = ""
          · simp only [hf, ne_eq, not_true_eq_false, if_false, List.append_nil]
            rw [hfin, ← htr]
          · simp only [hf, ne_eq, not_false_eq_true, if_true]
            simp only [cleanupFile, PState.emit]
            rw [hfin, ← htr]
        · have hj : (afterSave env job text todos).2.job = (entered env job).job := by
            rcases afterSave_cases env job text todos with ⟨_, _, hj, _⟩ | ⟨_, _, _, hj, _⟩ <;>
              exact hj
          rw [key]
          split <;>
          · simp only [cleanupFile, PState.emit, PState.setStatus, PState.setResult,
              PState.touch, PState.setUpdatedAt, PState.timeNow, hj]
            rfl

theorem append_ne_empty (a b : String) (ha : 0 < a.length) : a ++ b ≠ "" := by
  intro h
  have hl := congrArg String.length h
  rw [String.length_append] at hl
  have h0 : ("" : String).length = 0 := rfl
  omega

/-- C1: when `ProcessJob` returns the job is terminal, never `pending` or
`processing`; it is `failed` exactly when one of steps 2 to 4 returned an
error, and then its error string is non-empty and is a step label followed by
the error the failing step returned; it is `completed` when no step returned
an error. -/
theorem ProcessJob_ends_terminal (env : Env) (job : Job) :
    ((ProcessJob env job).job.Status = JobStatusFailed ∨
      (ProcessJob env job).job.Status = JobStatusCompleted) ∧
    (ProcessJob env job).job.Status ≠ JobStatusPending ∧
    (ProcessJob env job).job.Status ≠ JobStatusProcessing ∧
    ((ProcessJob env job).job.Status = JobStatusFailed ↔
      ∃ err, stepError env job (ProcessJob env job).trace = some err) ∧
    (∀ err, stepError env job (ProcessJob env job).trace = some err →
      (ProcessJob env job).job.Status = JobStatusFailed ∧
      (ProcessJob env job).job.Error ≠ "" ∧
      ((ProcessJob env job).job.Error = "Failed to extract text: " ++ err ∨
        (ProcessJob env job).job.Error = "Failed to process with AI: " ++ err ∨
        (ProcessJob env job).job.Error = "Failed to save todos: " ++ err)) ∧
    (stepError env job (ProcessJob env job).trace = none →
      (ProcessJob env job).job.Status = JobStatusCompleted) := by
  have hfc : JobStatusFailed ≠ JobStatusCompleted := by decide
  have hfp : JobStatusFailed ≠ JobStatusPending := by decide
  have hfr : JobStatusFailed ≠ JobStatusProcessing := by decide
  have hcp : JobStatusCompleted ≠ JobStatusPending := by decide
  have hcr : JobStatusCompleted ≠ JobStatusProcessing := by decide
  rcases ProcessJob_cases env job with ⟨err, t, h1, ht, hj⟩ | ⟨text, err, t, h1, h2, ht, hj⟩ |
    ⟨text, todos, batch, err, t, h1, h2, hne, h3, ht, hj⟩ |
    ⟨text, todos, saved, tr, t, h1, h2, hs, ht, hj⟩
  · have hse : stepError env job (ProcessJob env job).trace = some err := by
      simp [stepError, h1]
    rw [hse, hj]
    refine ⟨Or.inl rfl, hfp, hfr, ⟨fun _ => ⟨err, rfl⟩, fun _ => rfl⟩, ?_, by simp⟩
    intro e he
    cases he
    exact ⟨rfl, append_ne_empty _ _ (by decide), Or.inl rfl⟩
  · have hse : stepError env job (ProcessJob env job).trace = some err := by
      simp [stepError, h1, ht, headEvents, failEvents, callError, h2]
    rw [hse, hj]
    refine ⟨Or.inl rfl, hfp, hfr, ⟨fun _ => ⟨err, rfl⟩, fun _ => rfl⟩, ?_, by simp⟩
    intro e he
    cases he
    exact ⟨rfl, append_ne_empty _ _ (by decide), Or.inr (Or.inl rfl)⟩
  · have hse : stepError env job (ProcessJob env job).trace = some err := by
      simp [stepError, h1, ht, headEvents, failEvents, callError, h2, h3]
    rw [hse, hj]
    refine ⟨Or.inl rfl, hfp, hfr, ⟨fun _ => ⟨err, rfl⟩, fun _ => rfl⟩, ?_, by simp⟩
    intro e he
    cases he
    exact ⟨rfl, append_ne_empty _ _ (by decide), Or.inr (Or.inr rfl)⟩
  · have hse : stepError env job (ProcessJob env job).trace = none := by
      rcases hs with ⟨_, hs⟩ | ⟨_, batch, hs, h3⟩ <;> subst hs <;> split_ifs at ht <;>
        simp [stepError, h1, ht, headEvents, callError, h2, *]
    rw [hse, hj]
    refine ⟨Or.inr rfl, hcp, hcr, ⟨fun h => absurd h.symm hfc, fun h => ?_⟩, ?_, fun _ => rfl⟩
    · obtain ⟨e, he⟩ := h; cases he
    · intro e he; cases he

/-- The file removal is called once, with the job's file path, on a run that
ends `completed` for a job with a file path, and not at all on any other run. -/
theorem cleanupCalls_ProcessJob (env : Env) (job : Job) :
    cleanupCalls (ProcessJob env job).trace
      = if (ProcessJob env job).job.Status = JobStatusCompleted ∧ job.FilePath ≠ ""
        then [job.FilePath] else [] := by
  have hfc : JobStatusFailed ≠ JobStatusCompleted := by decide
  rcases ProcessJob_cases env job with ⟨err, t, h1, ht, hj⟩ | ⟨text, err, t, h1, h2, ht, hj⟩ |
    ⟨text, todos, batch, err, t, h1, h2, hne, h3, ht, hj⟩ |
    ⟨text, todos, saved, tr, t, h1, h2, hs, ht, hj⟩
  · rw [ht, hj]; simp [hfc, cleanupCalls, headEvents, failEvents]
  · rw [ht, hj]; simp [hfc, cleanupCalls, headEvents, failEvents]
  · rw [ht, hj]; simp [hfc, cleanupCalls, headEvents, failEvents]
  · rw [ht, hj]
    rcases hs with ⟨_, hs⟩ | ⟨_, batch, hs, h3⟩ <;> subst hs <;>
      by_cases hf : job.FilePath = "" <;> simp [cleanupCalls, headEvents, hf]

/-- C2, the code at a failing input: an `image` job with a staged file whose
AI extraction returns an error ends `failed` and the file removal is never
called, where the claim has it called once; the same job in an environment
where every step succeeds ends `completed` with the file removal called
once. -/
theorem ProcessJob_failed_run_skips_cleanup :
    jobUpload.FilePath ≠ "" ∧
    (ProcessJob envAIDown jobUpload).job.Status = JobStatusFailed ∧
    (ProcessJob envAIDown jobUpload).job.Error
      = "Failed to process with AI: Gemini API returned status 503" ∧
    cleanupCalls (ProcessJob envAIDown jobUpload).trace = [] ∧
    (ProcessJob envAllOk jobUpload).job.Status = JobStatusCompleted ∧
    cleanupCalls (ProcessJob envAllOk jobUpload).trace = ["/tmp/todo-agent/1_scan.png"] := by
  decide

/-- C3: for a job handed to `ProcessJob` with result and error unset, after
the return exactly one of the two is set (a `completed` job has a result and
an empty error, a `failed` job a non-empty error and no result), and every
value the record takes while its status is `pending` or `processing` has
neither set. -/
theorem ProcessJob_result_xor_error (env : Env) (job : Job)
    (hr : job.Result = none) (he : job.Error = "") :
    ((ProcessJob env job).job.Status = JobStatusCompleted →
      (ProcessJob env job).job.Result ≠ none ∧ (ProcessJob env job).job.Error = "") ∧
    ((ProcessJob env job).job.Status = JobStatusFailed →
      (ProcessJob env job).job.Error ≠ "" ∧ (ProcessJob env job).job.Result = none) ∧
    (((ProcessJob env job).job.Result ≠ none ∧ (ProcessJob env job).job.Error = "") ∨
      ((ProcessJob env job).job.Result = none ∧ (ProcessJob env job).job.Error ≠ "")) ∧
    (∀ j ∈ history job (ProcessJob env job).trace,
      (j.Status = JobStatusPending ∨ j.Status = JobStatusProcessing) →
        j.Result = none ∧ j.Error = "") := by
  have hfc : JobStatusFailed ≠ JobStatusCompleted := by decide
  have hfp : JobStatusFailed ≠ JobStatusPending := by decide
  have hfr : JobStatusFailed ≠ JobStatusProcessing := by decide
  have hcp : JobStatusCompleted ≠ JobStatusPending := by decide
  have hcr : JobStatusCompleted ≠ JobStatusProcessing := by decide
  rcases ProcessJob_cases env job with ⟨err, t, h1, ht, hj⟩ | ⟨text, err, t, h1, h2, ht, hj⟩ |
    ⟨text, todos, batch, err, t, h1, h2, hne, h3, ht, hj⟩ |
    ⟨text, todos, saved, tr, t, h1, h2, hs, ht, hj⟩
  · rw [ht, hj]
    have hn := append_ne_empty "Failed to extract text: " err (by decide)
    refine ⟨fun h => absurd h hfc, fun _ => ⟨hn, hr⟩, Or.inr ⟨hr, hn⟩, ?_⟩
    simp [history, headEvents, failEvents, applyEvent, hr, he, hfp, hfr]
  · rw [ht, hj]
    have hn := append_ne_empty "Failed to process with AI: " err (by decide)
    refine ⟨fun h => absurd h hfc, fun _ => ⟨hn, hr⟩, Or.inr ⟨hr, hn⟩, ?_⟩
    simp [history, headEvents, failEvents, applyEvent, hr, he, hfp, hfr]
  · rw [ht, hj]
    have hn := append_ne_empty "Failed to save todos: " err (by decide)
    refine ⟨fun h => absurd h hfc, fun _ => ⟨hn, hr⟩, Or.inr ⟨hr, hn⟩, ?_⟩
    simp [history, headEvents, failEvents, applyEvent, hr, he, hfp, hfr]
  · rw [ht, hj]
    refine ⟨fun _ => ⟨by simp, he⟩, fun h => absurd h.symm hfc, Or.inl ⟨by simp, he⟩, ?_⟩
    rcases hs with ⟨_, hs⟩ | ⟨_, batch, hs, h3⟩ <;> subst hs <;>
      by_cases hf : job.FilePath = "" <;>
      simp [history, headEvents, applyEvent, hr, he, hcp, hcr, hf]

/-- C3 at a concrete input: the `text` job of the entry point in the
environment whose AI client is down. -/
theorem ProcessJob_result_xor_error_witness :
    ((ProcessJob envAIDown jobText).job.Status = JobStatusCompleted →
      (ProcessJob envAIDown jobText).job.Result ≠ none ∧
        (ProcessJob envAIDown jobText).job.Error = "") ∧
    ((ProcessJob envAIDown jobText).job.Status = JobStatusFailed →
      (ProcessJob envAIDown jobText).job.Error ≠ "" ∧
        (ProcessJob envAIDown jobText).job.Result = none) ∧
    (((ProcessJob envAIDown jobText).job.Result ≠ none ∧
        (ProcessJob envAIDown jobText).job.Error = "") ∨
      ((ProcessJob envAIDown jobText).job.Result = none ∧
        (ProcessJob envAIDown jobText).job.Error ≠ "")) ∧
    (∀ j ∈ history jobText (ProcessJob envAIDown jobText).trace,
      (j.Status = JobStatusPending ∨ j.Status = JobStatusProcessing) →
        j.Result = none ∧ j.Error = "") :=
  ProcessJob_result_xor_error envAIDown jobText rfl rfl

/-! ## The lifecycle of a submitted job -/

theorem statusWrites_ProcessJob (env : Env) (job : Job) :
    statusWrites (ProcessJob env job).trace = [JobStatusProcessing, JobStatusCompleted] ∨
    statusWrites (ProcessJob env job).trace = [JobStatusProcessing, JobStatusFailed] := by
  rcases ProcessJob_cases env job with ⟨err, t, h1, ht, hj⟩ | ⟨text, err, t, h1, h2, ht, hj⟩ |
    ⟨text, todos, batch, err, t, h1, h2, hne, h3, ht, hj⟩ |
    ⟨text, todos, saved, tr, t, h1, h2, hs, ht, hj⟩
  · right; rw [ht]; simp [statusWrites, headEvents, failEvents]
  · right; rw [ht]; simp [statusWrites, headEvents, failEvents]
  · right; rw [ht]; simp [statusWrites, headEvents, failEvents]
  · left; rw [ht]
    rcases hs with ⟨_, hs⟩ | ⟨_, batch, hs, h3⟩ <;> subst hs <;>
      by_cases hf : job.FilePath = "" <;> simp [statusWrites, headEvents, hf]

theorem Heap.read_alloc (h : Heap) (job : Job) :
    (h.alloc job).2.read (h.alloc job).1 = some job := by
  simp [Heap.read, Heap.alloc]

theorem JobMap.get_set_self (m : JobMap) (k : String) (v : JobPtr) :
    (m.set k v).get k = some v := by
  induction m with
  | nil => simp [JobMap.set, JobMap.get, List.lookup]
  | cons e rest ih =>
    obtain ⟨k0, v0⟩ := e
    by_cases hk : k0 = k
    · simp [JobMap.set, JobMap.get, List.lookup, hk]
    · have hk2 : (k == k0) = false := by simpa using fun h => hk h.symm
      simp only [JobMap.set, hk, if_false, JobMap.get, List.lookup, hk2]
      exact ih

theorem JobMap.get_set_other (m : JobMap) (k k2 : String) (v : JobPtr) (hne : k2 ≠ k) :
    (m.set k v).get k2 = m.get k2 := by
  induction m with
  | nil =>
    have hk2 : (k2 == k) = false := by simpa using hne
    simp [JobMap.set, JobMap.get, List.lookup, hk2]
  | cons e rest ih =>
    obtain ⟨k0, v0⟩ := e
    by_cases hk : k0 = k
    · subst hk
      have hk2 : (k2 == k0) = false := by simpa using hne
      simp [JobMap.set, JobMap.get, List.lookup, hk2]
    · simp only [JobMap.set, hk, if_false, JobMap.get, List.lookup]
      cases hb : (k2 == k0) with
      | true => rfl
      | false => exact ih

theorem ProcessInput.submit_eq (js : JobService) (h : Heap)
    (id userID jobType content filePath : String) (createdAt updatedAt : Int) :
    ProcessInput.submit js h id userID jobType content filePath createdAt updatedAt
      = some { code := 202
               js := { jobs := js.jobs.set id h.cells.length }
               heap := (h.alloc (ProcessInput.newJob id userID jobType content filePath
                 createdAt updatedAt)).2
               started := some h.cells.length } := by
  unfold ProcessInput.submit JobService.SubmitJob
  rw [Heap.read_alloc]
  rfl

/-- C4: the job the entry point builds and submits is `pending`, and from
there to the return of `ProcessJob` its statuses are pending, processing,
completed or pending, processing, failed: `processing` is not skipped, no
earlier status comes back and nothing is written after the terminal status;
every initial part of the sequence is an initial part of one of the two. -/
theorem submitted_job_lifecycle (env : Env) (js : JobService) (h : Heap)
    (id userID jobType content filePath : String) (createdAt updatedAt : Int) :
    ∃ out p job,
      ProcessInput.submit js h id userID jobType content filePath createdAt updatedAt
        = some out ∧
      out.started = some p ∧ out.heap.read p = some job ∧
      job.Status = JobStatusPending ∧
      (stateSequence env job
          = [JobStatusPending, JobStatusProcessing, JobStatusCompleted] ∨
        stateSequence env job
          = [JobStatusPending, JobStatusProcessing, JobStatusFailed]) ∧
      ∀ l, l <+: stateSequence env job →
        l <+: [JobStatusPending, JobStatusProcessing, JobStatusCompleted] ∨
        l <+: [JobStatusPending, JobStatusProcessing, JobStatusFailed] := by
  refine ⟨_, h.cells.length,
    ProcessInput.newJob id userID jobType content filePath createdAt updatedAt,
    ProcessInput.submit_eq js h id userID jobType content filePath createdAt updatedAt,
    rfl, Heap.read_alloc h _, rfl, ?_⟩
  have hs : stateSequence env
        (ProcessInput.newJob id userID jobType content filePath createdAt updatedAt)
      = JobStatusPending :: statusWrites (ProcessJob env
        (ProcessInput.newJob id userID jobType content filePath createdAt updatedAt)).trace :=
    rfl
  rcases statusWrites_ProcessJob env
      (ProcessInput.newJob id userID jobType content filePath createdAt updatedAt) with hw | hw
  · rw [hs, hw]
    exact ⟨Or.inl rfl, fun l hl => Or.inl hl⟩
  · rw [hs, hw]
    exact ⟨Or.inr rfl, fun l hl => Or.inr hl⟩

/-! ## The registry -/

/-- C9: after the entry point has built a job and submitted it, `GetJob` with
the job's identifier succeeds and the record it points to has that
identifier, status `pending`, no result and an empty error. -/
theorem GetJob_after_submit (js : JobService) (h : Heap)
    (id userID jobType content filePath : String) (createdAt updatedAt : Int) :
    ∃ out p job,
      ProcessInput.submit js h id userID jobType content filePath createdAt updatedAt
        = some out ∧
      out.js.GetJob id = Except.ok p ∧ out.heap.read p = some job ∧
      job.ID = id ∧ job.Status = JobStatusPending ∧ job.Result = none ∧ job.Error = "" := by
  refine ⟨_, h.cells.length,
    ProcessInput.newJob id userID jobType content filePath createdAt updatedAt,
    ProcessInput.submit_eq js h id userID jobType content filePath createdAt updatedAt,
    ?_, Heap.read_alloc h _, rfl, rfl, rfl, rfl⟩
  simp [JobService.GetJob, JobMap.get_set_self]

/-- C10, as stated, fails: a registry that already holds a record with the
job's identifier accepts the job without an error, and the identifier then
leads to the new record instead of the old one. -/
theorem SubmitJob_duplicate_accepted :
    registryOne.GetJob "job-2" = Except.ok 0 ∧
    (heapTwice.read 1).map (fun j => j.ID) = some "job-2" ∧
    registryOne.SubmitJob heapTwice 1 = some ({ jobs := [("job-2", 1)] }, none) ∧
    (heapTwice.read 0).map (fun j => j.Status) = some JobStatusCompleted ∧
    (heapTwice.read 1).map (fun j => j.Status) = some JobStatusPending := by
  refine ⟨?_, ?_, ?_, ?_, ?_⟩ <;> rfl

/-- C10, amended: `SubmitJob` of a job record always succeeds; afterwards the
job's identifier leads to the submitted record, whether or not the registry
held a record with that identifier before, and every other identifier leads
to what it led to before. -/
theorem SubmitJob_stores (js : JobService) (h : Heap) (p : JobPtr) (job : Job)
    (hp : h.read p = some job) :
    ∃ js2, js.SubmitJob h p = some (js2, none) ∧
      js2.GetJob job.ID = Except.ok p ∧
      ∀ id, id ≠ job.ID → js2.GetJob id = js.GetJob id := by
  refine ⟨{ jobs := js.jobs.set job.ID p }, ?_, ?_, ?_⟩
  · simp [JobService.SubmitJob, hp]
  · simp [JobService.GetJob, JobMap.get_set_self]
  · intro id hne
    simp [JobService.GetJob, JobMap.get_set_other _ _ _ _ hne]

/-- C10, amended, at a concrete input: the registry that holds a record with
the identifier of the submitted job. -/
theorem SubmitJob_stores_witness :
    ∃ js2, registryOne.SubmitJob heapTwice 1 = some (js2, none) ∧
      js2.GetJob jobText.ID = Except.ok 1 ∧
      ∀ id, id ≠ jobText.ID → js2.GetJob id = registryOne.GetJob id :=
  SubmitJob_stores registryOne heapTwice 1 jobText (by decide)

/-! ## The token bucket -/

theorem wrapInt64_eq (x : Int) (h1 : -(2 ^ 63) ≤ x) (h2 : x < 2 ^ 63) : wrapInt64 x = x := by
  unfold wrapInt64
  omega

theorem roundHalfEven_le (n d : Nat) (hd : 0 < d) :
    2 * (d * roundHalfEven n d) ≤ 2 * n + d := by
  have h := Nat.div_add_mod n d
  have hr := Nat.mod_lt n hd
  unfold roundHalfEven
  split_ifs <;> (try simp only [Nat.mul_add, Nat.mul_one]) <;> omega

theorem le_roundHalfEven (n d k : Nat) (hd : 0 < d) (h : k * d ≤ n) :
    k ≤ roundHalfEven n d := by
  have hk : k ≤ n / d := (Nat.le_div_iff_mul_le hd).2 h
  unfold roundHalfEven
  split_ifs <;> omega

theorem roundHalfEven_one (n : Nat) : roundHalfEven n 1 = n := by
  simp [roundHalfEven, Nat.mod_one]

theorem halvings_spec (fuel : Nat) : ∀ n, n ≤ fuel → 0 < n →
    2 ^ halvings fuel n ≤ n ∧ n < 2 ^ (halvings fuel n + 1) := by
  induction fuel with
  | zero => intro n h1 h2; omega
  | succ fuel ih =>
    intro n h1 h2
    unfold halvings
    split_ifs with h
    · obtain ⟨i1, i2⟩ := ih (n / 2) (by omega) (by omega)
      rw [pow_succ] at i2 ⊢
      rw [pow_succ]
      constructor <;> omega
    · simp
      omega

theorem pow_floorLog2_le (n : Nat) (h : 0 < n) : 2 ^ floorLog2 n ≤ n :=
  (halvings_spec n n le_rfl h).1

theorem lt_pow_floorLog2 (n : Nat) (h : 0 < n) : n < 2 ^ (floorLog2 n + 1) :=
  (halvings_spec n n le_rfl h).2

theorem binaryExponent_spec (p q : Nat) (hp : 0 < p) (hq : 0 < q) :
    (2 : ℚ) ^ binaryExponent p q ≤ (p : ℚ) / q := by
  have hq0 : (0 : ℚ) < q := by exact_mod_cast hq
  unfold binaryExponent
  split_ifs with h
  · rw [le_div_iff₀ hq0]
    rcases le_total (floorLog2 p) (floorLog2 q) with hab | hab
    · obtain ⟨k, hk⟩ := Nat.exists_eq_add_of_le hab
      rw [hk] at h ⊢
      have h1 : floorLog2 p - (floorLog2 p + k) = 0 := by omega
      have h2 : floorLog2 p + k - floorLog2 p = k := by omega
      rw [h1, h2, pow_zero, mul_one] at h
      have h3 : ((floorLog2 p : ℕ) : ℤ) - ((floorLog2 p + k : ℕ) : ℤ) = -(k : ℤ) := by push_cast; ring
      rw [h3, zpow_neg, zpow_natCast]
      have h4 : (q : ℚ) ≤ p * 2 ^ k := by exact_mod_cast h
      have h5 : (0 : ℚ) < 2 ^ k := by positivity
      rw [inv_mul_le_iff₀ h5]
      linarith
    · obtain ⟨k, hk⟩ := Nat.exists_eq_add_of_le hab
      rw [hk] at h ⊢
      have h1 : floorLog2 q - (floorLog2 q + k) = 0 := by omega
      have h2 : floorLog2 q + k - floorLog2 q = k := by omega
      rw [h1, h2, pow_zero, mul_one] at h
      have h3 : ((floorLog2 q + k : ℕ) : ℤ) - ((floorLog2 q : ℕ) : ℤ) = (k : ℤ) := by push_cast; ring
      rw [h3, zpow_natCast]
      have h4 : (q : ℚ) * 2 ^ k ≤ p := by exact_mod_cast h
      linarith
  · have h1 : ((2 : ℚ) ^ floorLog2 p) ≤ p := by exact_mod_cast pow_floorLog2_le p hp
    have h2 : (q : ℚ) ≤ 2 ^ (floorLog2 q + 1) := by exact_mod_cast (lt_pow_floorLog2 q hq).le
    have h3 : ((floorLog2 p : ℕ) : ℤ) - ((floorLog2 q : ℕ) : ℤ) - 1
        = ((floorLog2 p : ℕ) : ℤ) - ((floorLog2 q + 1 : ℕ) : ℤ) := by push_cast; ring
    rw [h3, zpow_sub₀ (by norm_num : (2 : ℚ) ≠ 0), zpow_natCast, zpow_natCast]
    exact div_le_div₀ (by positivity) h1 hq0 h2

theorem binaryExponent_le (p q : Nat) (E : Int) (hp : 0 < p) (hq : 0 < q)
    (h : (p : ℚ) / q < 2 ^ (E + 1)) : binaryExponent p q ≤ E := by
  have h1 := lt_of_le_of_lt (binaryExponent_spec p q hp hq) h
  have h2 := (zpow_lt_zpow_iff_right₀ (by norm_num : (1 : ℚ) < 2)).1 h1
  omega

theorem ofFraction_eq (p q : Nat) (E : Int) (hp : 0 < p) (hE : binaryExponent p q ≤ E)
    (hE52 : E ≤ 52) :
    ∃ t : Nat, (52 - E).toNat ≤ t ∧
      Float64.ofFraction p q = { mant := roundHalfEven (p * 2 ^ t) q, exp := -(t : Int) } := by
  refine ⟨(52 - binaryExponent p q).toNat, by omega, ?_⟩
  unfold Float64.ofFraction
  rw [if_neg (by omega)]
  have h1 : (binaryExponent p q - 52).toNat = 0 := by omega
  have h2 : binaryExponent p q - 52 = -((52 - binaryExponent p q).toNat : Int) := by omega
  rw [h1, pow_zero, mul_one]
  congr 1

theorem trunc_add (sec m1 t1 E : Nat) (hE : E ≤ 52) (hpos : 0 < sec * 2 ^ t1 + m1)
    (hlt : sec * 2 ^ t1 + m1 < 2 ^ t1 * 2 ^ (E + 1)) :
    ∃ t2 : Nat, 52 - E ≤ t2 ∧
      (Float64.add { mant := sec, exp := 0 } { mant := m1, exp := -(t1 : Int) }).trunc
        = roundHalfEven ((sec * 2 ^ t1 + m1) * 2 ^ t2) (2 ^ t1) / 2 ^ t2 := by
  have hq : 0 < 2 ^ t1 := by positivity
  have hb : binaryExponent (sec * 2 ^ t1 + m1) (2 ^ t1) ≤ (E : Int) := by
    apply binaryExponent_le _ _ _ hpos hq
    rw [div_lt_iff₀ (by positivity)]
    have : ((sec * 2 ^ t1 + m1 : ℕ) : ℚ) < ((2 ^ t1 * 2 ^ (E + 1) : ℕ) : ℚ) := by
      exact_mod_cast hlt
    have h2 : ((2 : ℚ) ^ ((E : ℤ) + 1)) = 2 ^ (E + 1) := by
      rw [← zpow_natCast]; push_cast; rfl
    rw [h2]
    push_cast at this ⊢
    linarith
  obtain ⟨t2, ht2, heq⟩ := ofFraction_eq _ _ (E : Int) hpos hb (by omega)
  refine ⟨t2, by omega, ?_⟩
  unfold Float64.add
  have hmin : min (0 : Int) (-(t1 : Int)) = -(t1 : Int) := by omega
  simp only [hmin]
  have e1 : ((0 : Int) - -(t1 : Int)).toNat = t1 := by omega
  have e2 : (-(t1 : Int) - -(t1 : Int)).toNat = 0 := by omega
  have e3 : (-(t1 : Int)).toNat = 0 := by omega
  have e4 : (- -(t1 : Int)).toNat = t1 := by omega
  rw [e1, e2, e3, e4, pow_zero, mul_one, mul_one, heq]
  unfold Float64.trunc
  simp only
  have e5 : (-(t2 : Int)).toNat = 0 := by omega
  have e6 : (- -(t2 : Int)).toNat = t2 := by omega
  rw [e5, e6, pow_zero, mul_one]

theorem Seconds_eq (d : Nat) (hsec : d / 1000000000 < 2 ^ 53) :
    Seconds d = Float64.add { mant := d / 1000000000, exp := 0 }
      (Float64.ofFraction (d % 1000000000) 1000000000) := by
  have hn : d % 1000000000 < 2 ^ 53 := by
    have := Nat.mod_lt d (by norm_num : 0 < 1000000000)
    norm_num at this ⊢
    omega
  unfold Seconds Float64.ofNat Float64.div
  rw [if_pos hsec, if_pos hn, if_pos (by norm_num)]
  simp

theorem wholeSecondsNat_whole (d : Nat) (hsec : d / 1000000000 < 2 ^ 53)
    (hn : d % 1000000000 = 0) : wholeSecondsNat d = d / 1000000000 := by
  unfold wholeSecondsNat
  rw [Seconds_eq d hsec, hn]
  generalize d / 1000000000 = sec at hsec ⊢
  have h0 : Float64.ofFraction 0 1000000000 = { mant := 0, exp := 0 } := by
    simp [Float64.ofFraction]
  rw [h0]
  rcases Nat.eq_zero_or_pos sec with h | h
  · subst h
    simp [Float64.add, Float64.ofFraction, Float64.trunc]
  · obtain ⟨t2, _, heq⟩ := trunc_add sec 0 0 52 le_rfl (by simpa using h)
      (by
        simp only [pow_zero, mul_one, add_zero, one_mul]
        omega)
    have h1 : ((0 : Nat) : Int) = 0 := rfl
    rw [h1, neg_zero] at heq
    rw [heq]
    simp only [pow_zero, mul_one, add_zero, roundHalfEven_one]
    exact Nat.mul_div_cancel _ (by positivity)

theorem trunc_seconds_struct (sec n E : Nat) (hE : E ≤ 52)
    (hsec : sec + 1 ≤ 2 ^ (E + 1)) (hn : 0 < n) (hlt : n < 1000000000) :
    ∃ S1 S2 m1 m2 : Nat, 2 ^ 53 ≤ S1 ∧ 2 ^ (52 - E) ≤ S2 ∧
      2 * (1000000000 * m1) ≤ 2 * (n * S1) + 1000000000 ∧
      2 * (S1 * m2) ≤ 2 * ((sec * S1 + m1) * S2) + S1 ∧
      sec * S2 ≤ m2 ∧
      (Float64.add { mant := sec, exp := 0 } (Float64.ofFraction n 1000000000)).trunc
        = m2 / S2 := by
  have hb : binaryExponent n 1000000000 ≤ -1 := by
    apply binaryExponent_le _ _ _ hn (by norm_num)
    rw [div_lt_iff₀ (by norm_num)]
    have : (n : ℚ) < 1000000000 := by exact_mod_cast hlt
    simpa using this
  obtain ⟨t1, ht1, heq1⟩ := ofFraction_eq n 1000000000 (-1) hn hb (by norm_num)
  have ht1 : 53 ≤ t1 := by simpa using ht1
  have hS1 : 2 ^ 53 ≤ 2 ^ t1 := Nat.pow_le_pow_right (by norm_num) ht1
  have hA1 := roundHalfEven_le (n * 2 ^ t1) 1000000000 (by norm_num)
  have hm0 : 1 ≤ roundHalfEven (n * 2 ^ t1) 1000000000 := by
    apply le_roundHalfEven _ _ _ (by norm_num)
    have : 1 * 2 ^ t1 ≤ n * 2 ^ t1 := Nat.mul_le_mul_right _ hn
    norm_num at hS1
    omega
  have hm1 : roundHalfEven (n * 2 ^ t1) 1000000000 < 2 ^ t1 := by
    generalize roundHalfEven (n * 2 ^ t1) 1000000000 = m1 at hA1 ⊢
    generalize 2 ^ t1 = S1 at hS1 hA1 ⊢
    norm_num at hS1
    nlinarith
  have hS1pos : 0 < 2 ^ t1 := by positivity
  obtain ⟨t2, ht2, heq2⟩ := trunc_add sec (roundHalfEven (n * 2 ^ t1) 1000000000) t1 E hE
    (by omega)
    (by
      have : (sec + 1) * 2 ^ t1 ≤ 2 ^ (E + 1) * 2 ^ t1 := Nat.mul_le_mul_right _ hsec
      nlinarith)
  have hS2 : 2 ^ (52 - E) ≤ 2 ^ t2 := Nat.pow_le_pow_right (by norm_num) ht2
  refine ⟨2 ^ t1, 2 ^ t2, roundHalfEven (n * 2 ^ t1) 1000000000,
    roundHalfEven ((sec * 2 ^ t1 + roundHalfEven (n * 2 ^ t1) 1000000000) * 2 ^ t2) (2 ^ t1),
    hS1, hS2, ?_, ?_, ?_, ?_⟩
  · linarith
  · exact roundHalfEven_le _ _ hS1pos
  · apply le_roundHalfEven _ _ _ hS1pos
    nlinarith [Nat.zero_le (roundHalfEven (n * 2 ^ t1) 1000000000 * 2 ^ t2)]
  · rw [heq1, heq2]

theorem wholeSecondsNat_struct (d E : Nat) (hE : E ≤ 52)
    (hsec : d / 1000000000 + 1 ≤ 2 ^ (E + 1)) (hn : 0 < d % 1000000000) :
    ∃ S1 S2 m1 m2 : Nat, 2 ^ 53 ≤ S1 ∧ 2 ^ (52 - E) ≤ S2 ∧
      2 * (1000000000 * m1) ≤ 2 * (d % 1000000000 * S1) + 1000000000 ∧
      2 * (S1 * m2) ≤ 2 * ((d / 1000000000 * S1 + m1) * S2) + S1 ∧
      d / 1000000000 * S2 ≤ m2 ∧
      wholeSecondsNat d = m2 / S2 := by
  have hsec53 : d / 1000000000 < 2 ^ 53 := by
    have : 2 ^ (E + 1) ≤ 2 ^ 53 := Nat.pow_le_pow_right (by norm_num) (by omega)
    omega
  unfold wholeSecondsNat
  rw [Seconds_eq d hsec53]
  exact trunc_seconds_struct _ _ E hE hsec hn (Nat.mod_lt d (by norm_num))

theorem wholeSecondsNat_ge (d : Nat) (hsec : d / 1000000000 + 1 ≤ 2 ^ 53) :
    d / 1000000000 ≤ wholeSecondsNat d := by
  rcases Nat.eq_zero_or_pos (d % 1000000000) with hn | hn
  · rw [wholeSecondsNat_whole d (by omega) hn]
  · obtain ⟨S1, S2, m1, m2, _, hS2, _, _, hlow, heq⟩ :=
      wholeSecondsNat_struct d 52 le_rfl hsec hn
    rw [heq]
    exact (Nat.le_div_iff_mul_le (by simpa using hS2)).2 hlow

theorem wholeSecondsNat_le_succ (d : Nat) (hsec : d / 1000000000 + 1 ≤ 2 ^ 53) :
    wholeSecondsNat d ≤ d / 1000000000 + 1 := by
  rcases Nat.eq_zero_or_pos (d % 1000000000) with hn | hn
  · rw [wholeSecondsNat_whole d (by omega) hn]
    omega
  · obtain ⟨S1, S2, m1, m2, hS1, hS2, hA1, hA2, _, heq⟩ :=
      wholeSecondsNat_struct d 52 le_rfl hsec hn
    have hlt := Nat.mod_lt d (by norm_num : 0 < 1000000000)
    rw [heq]
    have hS2pos : 0 < S2 := by simpa using hS2
    apply Nat.le_of_lt_succ
    rw [Nat.div_lt_iff_lt_mul hS2pos]
    generalize d / 1000000000 = sec at *
    generalize d % 1000000000 = n at *
    norm_num at hS1
    by_contra hcon
    push_neg at hcon
    have h1 : n * S1 ≤ 999999999 * S1 := Nat.mul_le_mul_right _ (by omega)
    have hm1 : m1 ≤ S1 := by nlinarith
    have h2 : S1 * ((sec + 1).succ * S2) ≤ S1 * m2 := Nat.mul_le_mul_left _ hcon
    have h3 : m1 * S2 ≤ S1 * S2 := Nat.mul_le_mul_right _ hm1
    have h4 : S1 * 1 ≤ S1 * S2 := Nat.mul_le_mul_left _ hS2pos
    nlinarith

theorem wholeSecondsNat_exact (d E G : Nat) (hE : E ≤ 52)
    (hsec : d / 1000000000 + 1 ≤ 2 ^ (E + 1)) (hG : d % 1000000000 + G ≤ 1000000000)
    (hgap1 : 1000000000 ≤ 2 * G * 2 ^ (52 - E))
    (hgap : 1000000000 * (2 ^ 53 + 2 ^ (52 - E)) < 2 * G * 2 ^ 53 * 2 ^ (52 - E)) :
    wholeSecondsNat d = d / 1000000000 := by
  rcases Nat.eq_zero_or_pos (d % 1000000000) with hn | hn
  · have : 2 ^ (E + 1) ≤ 2 ^ 53 := Nat.pow_le_pow_right (by norm_num) (by omega)
    rw [wholeSecondsNat_whole d (by omega) hn]
  · obtain ⟨S1, S2, m1, m2, hS1, hS2, hA1, hA2, hlow, heq⟩ :=
      wholeSecondsNat_struct d E hE hsec hn
    rw [heq]
    have hB : 0 < 2 ^ (52 - E) := by positivity
    have hS2pos : 0 < S2 := by omega
    apply Nat.div_eq_of_lt_le
    · exact hlow
    · generalize d / 1000000000 = sec at *
      generalize d % 1000000000 = n at *
      generalize 2 ^ (52 - E) = B at *
      norm_num at hS1 hgap
      by_contra hcon
      push_neg at hcon
      have h1 : S1 * (sec.succ * S2) ≤ S1 * m2 := Nat.mul_le_mul_left _ hcon
      have h2 : 2 * (S1 * S2) ≤ 2 * (m1 * S2) + S1 := by nlinarith
      have h3 : n * S1 + G * S1 ≤ 1000000000 * S1 := by
        have := Nat.mul_le_mul_right S1 hG
        nlinarith
      have h4 : 2 * (1000000000 * m1) * S2 ≤ (2 * (n * S1) + 1000000000) * S2 :=
        Nat.mul_le_mul_right _ hA1
      have h5 : (n * S1 + G * S1) * S2 ≤ 1000000000 * S1 * S2 := Nat.mul_le_mul_right _ h3
      have h6 : 2 * (G * (S1 * S2)) ≤ 1000000000 * (S1 + S2) := by nlinarith
      obtain ⟨a, rfl⟩ := Nat.exists_eq_add_of_le hS1
      obtain ⟨b, rfl⟩ := Nat.exists_eq_add_of_le hS2
      have hG1 : 1 ≤ G := by
        rcases Nat.eq_zero_or_pos G with h | h
        · subst h
          omega
        · exact h
      have p1 : b * 1000000000 ≤ b * (2 * G * 9007199254740992) :=
        Nat.mul_le_mul_left _ (by omega)
      have p2 : a * 1000000000 ≤ a * (2 * G * B) := Nat.mul_le_mul_left _ hgap1
      have p3 : 0 ≤ G * (a * b) := Nat.zero_le _
      linarith

theorem wholeSecondsNat_small (d : Nat) (h : d < 16777216 * 1000000000) :
    wholeSecondsNat d = d / 1000000000 := by
  have hn := Nat.mod_lt d (by norm_num : 0 < 1000000000)
  exact wholeSecondsNat_exact d 23 1 (by norm_num) (by norm_num; omega) (by omega)
    (by norm_num) (by norm_num)

theorem wholeSecondsNat_le_max (d : Nat) (h : d ≤ 2 ^ 63) :
    wholeSecondsNat d ≤ 9223372036 := by
  norm_num at h
  rcases Nat.lt_or_ge (d / 1000000000) 9223372036 with hs | hs
  · have := wholeSecondsNat_le_succ d (by norm_num; omega)
    omega
  · have := wholeSecondsNat_exact d 33 145224192 (by norm_num) (by norm_num; omega) (by omega)
      (by norm_num) (by norm_num)
    omega

theorem timeSub_eq (t u : Int) (h1 : minDuration ≤ t - u) (h2 : t - u ≤ maxDuration) :
    timeSub t u = t - u := by
  unfold timeSub
  rw [if_neg (by omega), if_neg (by omega)]

theorem timeSub_range (t u : Int) :
    minDuration ≤ timeSub t u ∧ timeSub t u ≤ maxDuration := by
  unfold timeSub
  split_ifs <;> simp only [minDuration, maxDuration] at * <;> omega

theorem timeSub_ge (t u : Int) (d : Int) (hd : d ≤ maxDuration) (h : d ≤ t - u) :
    d ≤ timeSub t u := by
  unfold timeSub
  split_ifs <;> simp only [minDuration, maxDuration] at * <;> omega

theorem timeSub_lt (t u : Int) (d : Int) (hd : minDuration < d) (h : t - u < d) :
    timeSub t u < d := by
  unfold timeSub
  split_ifs <;> simp only [minDuration, maxDuration] at * <;> omega

theorem wholeSeconds_of_small (d : Int) (h0 : 0 ≤ d) (h : d < 16777216 * 1000000000) :
    wholeSeconds d = d / 1000000000 := by
  unfold wholeSeconds
  rw [if_pos h0, wholeSecondsNat_small d.toNat (by omega)]
  omega

theorem wholeSeconds_ge (d : Int) (h0 : 0 ≤ d) (h : d ≤ 2 ^ 63) :
    d / 1000000000 ≤ wholeSeconds d := by
  unfold wholeSeconds
  rw [if_pos h0]
  have := wholeSecondsNat_ge d.toNat (by norm_num; omega)
  omega

theorem wholeSeconds_le (d : Int) (h0 : 0 ≤ d) (h : d ≤ 2 ^ 63) :
    wholeSeconds d ≤ maxSeconds := by
  unfold wholeSeconds maxSeconds
  rw [if_pos h0]
  have := wholeSecondsNat_le_max d.toNat (by norm_num; omega)
  omega

theorem wholeSeconds_of_neg (d : Int) (h : d < 0) :
    wholeSeconds d = -wholeSeconds (-d) := by
  unfold wholeSeconds
  rw [if_neg (by omega), if_pos (by omega)]

theorem seconds_range (t u : Int) :
    -maxSeconds ≤ wholeSeconds (timeSub t u) ∧ wholeSeconds (timeSub t u) ≤ maxSeconds := by
  have hr := timeSub_range t u
  simp only [minDuration, maxDuration] at hr
  rcases lt_or_le (timeSub t u) 0 with h | h
  · rw [wholeSeconds_of_neg _ h]
    have h1 := wholeSeconds_le (-timeSub t u) (by omega) (by omega)
    have h2 := wholeSeconds_ge (-timeSub t u) (by omega) (by omega)
    simp only [maxSeconds] at *
    omega
  · have h1 := wholeSeconds_le (timeSub t u) h (by omega)
    have h2 := wholeSeconds_ge (timeSub t u) h (by omega)
    simp only [maxSeconds] at *
    omega

theorem seconds_pos (t u : Int) (h : 1000000000 ≤ t - u) :
    1 ≤ wholeSeconds (timeSub t u) := by
  have h1 := timeSub_ge t u 1000000000 (by simp only [maxDuration]; omega) h
  have hr := (timeSub_range t u).2
  simp only [maxDuration] at hr
  have h2 := wholeSeconds_ge (timeSub t u) (by omega) (by omega)
  omega

theorem seconds_nonpos (t u : Int) (h : t - u < 1000000000) :
    wholeSeconds (timeSub t u) ≤ 0 := by
  have h1 := timeSub_lt t u 1000000000 (by simp only [minDuration]; omega) h
  have hr := (timeSub_range t u).1
  simp only [minDuration] at hr
  rcases lt_or_le (timeSub t u) 0 with h2 | h2
  · rw [wholeSeconds_of_neg _ h2]
    have h3 := wholeSeconds_ge (-timeSub t u) (by omega) (by omega)
    omega
  · rw [wholeSeconds_of_small _ h2 (by omega)]
    omega

theorem seconds_zero (t u : Int) (h0 : 0 ≤ t - u) (h : t - u < 1000000000) :
    wholeSeconds (timeSub t u) = 0 := by
  have h1 := timeSub_lt t u 1000000000 (by simp only [minDuration]; omega) h
  have h2 := timeSub_ge t u 0 (by simp only [maxDuration]; omega) h0
  rw [wholeSeconds_of_small _ h2 (by omega)]
  omega

theorem seconds_floor (t u : Int) (h0 : 0 ≤ t - u) (h : t - u < 16777216 * 1000000000) :
    wholeSeconds (timeSub t u) = ⌊elapsedSeconds u t⌋ := by
  rw [timeSub_eq t u (by simp only [minDuration]; omega) (by simp only [maxDuration]; omega),
    wholeSeconds_of_small _ h0 h]
  unfold elapsedSeconds
  have hf := Rat.floor_intCast_div_natCast (t - u) 1000000000
  simpa using hf.symm

theorem tokensToAdd_eq (tb : TokenBucket) (now : Int) (hr : 0 ≤ tb.rate)
    (hb : maxSeconds * tb.rate < 2 ^ 63) :
    tb.tokensToAdd now = wholeSeconds (timeSub now tb.lastRefill) * tb.rate := by
  obtain ⟨h1, h2⟩ := seconds_range now tb.lastRefill
  have h3 : wholeSeconds (timeSub now tb.lastRefill) * tb.rate ≤ maxSeconds * tb.rate :=
    mul_le_mul_of_nonneg_right h2 hr
  have h4 : -maxSeconds * tb.rate ≤ wholeSeconds (timeSub now tb.lastRefill) * tb.rate :=
    mul_le_mul_of_nonneg_right h1 hr
  unfold TokenBucket.tokensToAdd
  apply wrapInt64_eq
  · have h5 : -maxSeconds * tb.rate = -(maxSeconds * tb.rate) := by ring
    omega
  · omega

theorem refill_inv (C R : Int) (hR : 0 ≤ R) (hb : C + maxSeconds * R < 2 ^ 63)
    (tb : TokenBucket) (h : BucketInv C R tb) (now : Int) :
    BucketInv C R (tb.refill now) := by
  obtain ⟨hc, hr, h0, h1⟩ := h
  have hadd := tokensToAdd_eq tb now (by rw [hr]; exact hR) (by rw [hr]; omega)
  obtain ⟨_, h2⟩ := seconds_range now tb.lastRefill
  have h3 : wholeSeconds (timeSub now tb.lastRefill) * tb.rate ≤ maxSeconds * R := by
    rw [hr]; exact mul_le_mul_of_nonneg_right h2 hR
  unfold TokenBucket.refill
  split_ifs with hpos hgt
  · exact ⟨hc, hr, by show 0 ≤ tb.capacity; omega, by show tb.capacity ≤ C; omega⟩
  · have hw : wrapInt64 (tb.tokens + tb.tokensToAdd now) = tb.tokens + tb.tokensToAdd now :=
      wrapInt64_eq _ (by omega) (by omega)
    refine ⟨hc, hr, ?_, ?_⟩
    · show 0 ≤ wrapInt64 (tb.tokens + tb.tokensToAdd now); omega
    · show wrapInt64 (tb.tokens + tb.tokensToAdd now) ≤ C; omega
  · exact ⟨hc, hr, h0, h1⟩

theorem allow_inv (C R : Int) (hR : 0 ≤ R) (hb : C + maxSeconds * R < 2 ^ 63)
    (tb : TokenBucket) (h : BucketInv C R tb) (now : Int) :
    BucketInv C R (tb.allow now).2 := by
  obtain ⟨hc, hr, h0, h1⟩ := refill_inv C R hR hb tb h now
  unfold TokenBucket.allow
  split_ifs with hpos
  · exact ⟨hc, hr, by show 0 ≤ (tb.refill now).tokens - 1; omega,
      by show (tb.refill now).tokens - 1 ≤ C; omega⟩
  · exact ⟨hc, hr, h0, h1⟩

theorem allowAll_inv (C R : Int) (hR : 0 ≤ R) (hb : C + maxSeconds * R < 2 ^ 63)
    (ts : List Int) : ∀ tb : TokenBucket, BucketInv C R tb → BucketInv C R (allowAll tb ts).2 := by
  induction ts with
  | nil => intro tb h; exact h
  | cons t rest ih =>
    intro tb h
    exact ih _ (allow_inv C R hR hb tb h t)

theorem newTokenBucket_inv (C R t0 : Int) (hC : 0 ≤ C) : BucketInv C R (newTokenBucket R C t0) :=
  ⟨rfl, rfl, hC, le_refl C⟩

theorem allow_permit_iff (tb : TokenBucket) (now : Int) :
    (tb.allow now).1 = true ↔ 1 ≤ (tb.refill now).tokens := by
  unfold TokenBucket.allow
  split_ifs with hpos
  · simp; omega
  · simp; omega

theorem allow_tokens_permit (tb : TokenBucket) (now : Int) (h : (tb.allow now).1 = true) :
    (tb.allow now).2.tokens = (tb.refill now).tokens - 1 := by
  unfold TokenBucket.allow at h ⊢
  split_ifs with hpos
  · rfl
  · rw [if_neg hpos] at h; cases h

theorem allow_tokens_deny (tb : TokenBucket) (now : Int) (h : (tb.allow now).1 = false) :
    (tb.allow now).2.tokens = (tb.refill now).tokens := by
  unfold TokenBucket.allow at h ⊢
  split_ifs with hpos
  · rw [if_pos hpos] at h; cases h
  · rfl

theorem refill_same_instant (tb : TokenBucket) : tb.refill tb.lastRefill = tb := by
  have hs : wholeSeconds (timeSub tb.lastRefill tb.lastRefill) = 0 :=
    seconds_zero _ _ (by omega) (by omega)
  have ha : tb.tokensToAdd tb.lastRefill = 0 := by
    unfold TokenBucket.tokensToAdd
    rw [hs, zero_mul]
    rfl
  unfold TokenBucket.refill
  rw [ha]
  simp

theorem allowAll_same_instant (n : Nat) :
    ∀ tb : TokenBucket, tb.tokens = n →
      (allowAll tb (List.replicate (n + 1) tb.lastRefill)).1
        = List.replicate n true ++ [false] := by
  induction n with
  | zero =>
    intro tb h
    have hd : (tb.allow tb.lastRefill).1 = false := by
      unfold TokenBucket.allow
      rw [refill_same_instant, if_neg (by omega)]
    simp [allowAll, hd]
  | succ k ih =>
    intro tb h
    have hp : tb.allow tb.lastRefill = (true, { tb with tokens := tb.tokens - 1 }) := by
      unfold TokenBucket.allow
      rw [refill_same_instant, if_pos (by omega)]
    have hk := ih { tb with tokens := tb.tokens - 1 } (by show tb.tokens - 1 = (k : Int); omega)
    rw [List.replicate_succ, allowAll, hp]
    simp only [List.replicate_succ, List.cons_append]
    exact congrArg (List.cons true) hk

theorem allow_after_second (C R : Int) (hC : 1 ≤ C) (hR : 1 ≤ R)
    (hb : C + maxSeconds * R < 2 ^ 63) (tb : TokenBucket) (h : BucketInv C R tb) (now : Int)
    (he : 1000000000 ≤ now - tb.lastRefill) : (tb.allow now).1 = true := by
  obtain ⟨hc, hr, h0, h1⟩ := h
  rw [allow_permit_iff]
  have hadd := tokensToAdd_eq tb now (by rw [hr]; omega) (by rw [hr]; omega)
  have hs := seconds_pos now tb.lastRefill he
  obtain ⟨_, h2⟩ := seconds_range now tb.lastRefill
  have h3 : wholeSeconds (timeSub now tb.lastRefill) * tb.rate ≤ maxSeconds * R := by
    rw [hr]; exact mul_le_mul_of_nonneg_right h2 (by omega)
  have h4 : 1 * R ≤ wholeSeconds (timeSub now tb.lastRefill) * tb.rate := by
    rw [hr]; exact mul_le_mul_of_nonneg_right hs (by omega)
  unfold TokenBucket.refill
  rw [if_pos (by omega)]
  have hw : wrapInt64 (tb.tokens + tb.tokensToAdd now) = tb.tokens + tb.tokensToAdd now :=
    wrapInt64_eq _ (by omega) (by omega)
  split_ifs with hgt
  · show 1 ≤ tb.capacity; omega
  · show 1 ≤ wrapInt64 (tb.tokens + tb.tokensToAdd now); omega

/-- C5, as stated, fails: with capacity 1 and rate 2^62 the bucket is drained
by a first call at time 0, and a call four seconds later is denied, because
the credit 4 * 2^62 wraps to zero in a 64-bit `int`. -/
theorem tokenBucket_refill_overflow :
    (1 : Int) ≤ 1 ∧ (1 : Int) ≤ 2 ^ 62 ∧
    1000000000 ≤ 4000000000 - (allowAll (newTokenBucket (2 ^ 62) 1 0) [0]).2.lastRefill ∧
    ((allowAll (newTokenBucket (2 ^ 62) 1 0) [0]).2.allow 4000000000).1 = false := by
  decide

/-- C5, amended: for capacity C >= 1 and rate R >= 1, the first C calls on a
new bucket made with no time elapsing are permitted and call C + 1 is denied;
and when C + 9223372036 * R < 2^63 (the credit of the longest elapsed time
fits a 64-bit `int`), after any calls, a call made a full second or more after
the bucket's last refill is permitted. -/
theorem tokenBucket_burst_then_refill (C R t0 : Int) (hC : 1 ≤ C) (hR : 1 ≤ R) :
    (allowAll (newTokenBucket R C t0) (List.replicate (C.toNat + 1) t0)).1
      = List.replicate C.toNat true ++ [false] ∧
    (C + maxSeconds * R < 2 ^ 63 →
      ∀ (ts : List Int) (now : Int),
        1000000000 ≤ now - (allowAll (newTokenBucket R C t0) ts).2.lastRefill →
        ((allowAll (newTokenBucket R C t0) ts).2.allow now).1 = true) := by
  refine ⟨?_, ?_⟩
  · exact allowAll_same_instant C.toNat (newTokenBucket R C t0)
      (by show C = (C.toNat : Int); omega)
  · intro hb ts now he
    exact allow_after_second C R hC hR hb _
      (allowAll_inv C R (by omega) hb ts _ (newTokenBucket_inv C R t0 (by omega))) now he

/-- C5, amended, at capacity 5 and rate 1: five permits, then a denial; and a
call a second or more after the last refill is permitted. -/
theorem tokenBucket_burst_then_refill_witness :
    (1 : Int) ≤ 5 ∧ (1 : Int) ≤ 1 ∧
    (allowAll (newTokenBucket 1 5 0) [0, 0, 0, 0, 0, 0]).1
      = [true, true, true, true, true, false] ∧
    ∀ (ts : List Int) (now : Int),
      1000000000 ≤ now - (allowAll (newTokenBucket 1 5 0) ts).2.lastRefill →
      ((allowAll (newTokenBucket 1 5 0) ts).2.allow now).1 = true :=
  ⟨by decide, by decide,
    (tokenBucket_burst_then_refill 5 1 0 (by decide) (by decide)).1,
    (tokenBucket_burst_then_refill 5 1 0 (by decide) (by decide)).2 (by decide)⟩

theorem floor_elapsed_half : ⌊elapsedSeconds bucketHalf.lastRefill 1500000000⌋ = 1 := by
  rw [Int.floor_eq_iff]
  norm_num [elapsedSeconds, bucketHalf]

/-- C6, as stated, fails: at rate 2 and 1.5 seconds after the last refill the
call credits 2 tokens, not floor(1.5 * 2) = 3, and the drained bucket of
capacity 10 then holds 2 tokens, not 3. -/
theorem refill_not_floor_of_product :
    bucketHalf.lastRefill ≤ 1500000000 ∧
    ⌊elapsedSeconds bucketHalf.lastRefill 1500000000 * bucketHalf.rate⌋ = 3 ∧
    bucketHalf.tokensToAdd 1500000000 = 2 ∧
    (bucketHalf.refill 1500000000).tokens = 2 ∧
    min bucketHalf.capacity
      (bucketHalf.tokens + ⌊elapsedSeconds bucketHalf.lastRefill 1500000000 * bucketHalf.rate⌋)
      = 3 := by
  have hf : ⌊elapsedSeconds bucketHalf.lastRefill 1500000000 * bucketHalf.rate⌋ = 3 := by
    rw [Int.floor_eq_iff]
    norm_num [elapsedSeconds, bucketHalf]
  refine ⟨by decide, hf, by decide, by decide, ?_⟩
  rw [hf]
  decide

/-- C6, amended: for a bucket with 0 <= tokens <= capacity and rate >= 0, and
a call at a time `now >= lastRefill` less than 2^24 seconds after it (where
the `float64` seconds of the code are exact) whose credit keeps the tokens
under 2^63, the tokens credited are floor(elapsed seconds) * rate (the whole
elapsed seconds times the rate), and the tokens after crediting are the
smaller of the capacity and tokens + floor(elapsed seconds) * rate. -/
theorem refill_credits_whole_seconds (tb : TokenBucket) (now : Int)
    (h0 : tb.lastRefill ≤ now) (h24 : now - tb.lastRefill < 16777216 * 1000000000)
    (hr : 0 ≤ tb.rate) (ht0 : 0 ≤ tb.tokens) (ht1 : tb.tokens ≤ tb.capacity)
    (hov : tb.tokens + ⌊elapsedSeconds tb.lastRefill now⌋ * tb.rate < 2 ^ 63) :
    tb.tokensToAdd now = ⌊elapsedSeconds tb.lastRefill now⌋ * tb.rate ∧
    (tb.refill now).tokens
      = min tb.capacity (tb.tokens + ⌊elapsedSeconds tb.lastRefill now⌋ * tb.rate) := by
  have hd : now - tb.lastRefill ≤ maxDuration := by
    simp only [maxDuration]
    omega
  have hs := seconds_floor now tb.lastRefill (by omega) h24
  have hs0 : 0 ≤ wholeSeconds (timeSub now tb.lastRefill) := by
    rw [timeSub_eq _ _ (by simp only [minDuration]; omega) hd,
      wholeSeconds_of_small _ (by omega) h24]
    omega
  rw [← hs] at hov ⊢
  have hp : 0 ≤ wholeSeconds (timeSub now tb.lastRefill) * tb.rate := mul_nonneg hs0 hr
  have hadd : tb.tokensToAdd now = wholeSeconds (timeSub now tb.lastRefill) * tb.rate := by
    unfold TokenBucket.tokensToAdd
    exact wrapInt64_eq _ (by omega) (by omega)
  refine ⟨hadd, ?_⟩
  unfold TokenBucket.refill
  rw [hadd]
  have hw : wrapInt64 (tb.tokens + wholeSeconds (timeSub now tb.lastRefill) * tb.rate)
      = tb.tokens + wholeSeconds (timeSub now tb.lastRefill) * tb.rate :=
    wrapInt64_eq _ (by omega) (by omega)
  rw [hw]
  split_ifs with hpos hgt
  · show tb.capacity = _
    omega
  · show tb.tokens + wholeSeconds (timeSub now tb.lastRefill) * tb.rate = _
    omega
  · omega

/-- C6, amended, at the drained bucket of capacity 10 and rate 2, 1.5 seconds
after its last refill: 2 tokens are credited. -/
theorem refill_credits_whole_seconds_witness :
    bucketHalf.tokensToAdd 1500000000
      = ⌊elapsedSeconds bucketHalf.lastRefill 1500000000⌋ * bucketHalf.rate ∧
    (bucketHalf.refill 1500000000).tokens
      = min bucketHalf.capacity
          (bucketHalf.tokens
            + ⌊elapsedSeconds bucketHalf.lastRefill 1500000000⌋ * bucketHalf.rate) :=
  refill_credits_whole_seconds bucketHalf 1500000000 (by decide) (by decide) (by decide)
    (by decide) (by decide) (by rw [floor_elapsed_half]; decide)

/-- C7: a call of `allow` that credits at least one token (its `tokensToAdd`
is positive) sets `lastRefill` to the call time; a call that credits none
leaves `lastRefill` as it was, in particular a call less than a second after
the last refill; and after a call that credited none a later call computes
its credit from the same `lastRefill` as before. -/
theorem allow_lastRefill (tb : TokenBucket) (now : Int) :
    (0 < tb.tokensToAdd now → (tb.allow now).2.lastRefill = now) ∧
    (tb.tokensToAdd now ≤ 0 → (tb.allow now).2.lastRefill = tb.lastRefill) ∧
    (tb.lastRefill ≤ now → now - tb.lastRefill < 1000000000 →
      tb.tokensToAdd now = 0 ∧ (tb.allow now).2.lastRefill = tb.lastRefill) ∧
    (tb.tokensToAdd now ≤ 0 →
      ∀ later : Int, (tb.allow now).2.tokensToAdd later = tb.tokensToAdd later) := by
  have hl : (tb.allow now).2.lastRefill = (tb.refill now).lastRefill := by
    unfold TokenBucket.allow
    split_ifs <;> rfl
  have hrate : (tb.allow now).2.rate = tb.rate := by
    unfold TokenBucket.allow TokenBucket.refill
    split_ifs <;> rfl
  have hpos : 0 < tb.tokensToAdd now → (tb.allow now).2.lastRefill = now := by
    intro h
    rw [hl]
    unfold TokenBucket.refill
    rw [if_pos h]
  have hnon : tb.tokensToAdd now ≤ 0 → (tb.allow now).2.lastRefill = tb.lastRefill := by
    intro h
    rw [hl]
    unfold TokenBucket.refill
    rw [if_neg (by omega)]
  refine ⟨hpos, hnon, ?_, ?_⟩
  · intro h0 h1
    have hz : tb.tokensToAdd now = 0 := by
      unfold TokenBucket.tokensToAdd
      rw [seconds_zero now tb.lastRefill (by omega) h1, zero_mul]
      rfl
    exact ⟨hz, hnon (by omega)⟩
  · intro h later
    unfold TokenBucket.tokensToAdd
    rw [hnon h, hrate]

/-- C8, as stated, fails: with capacity 2^63 - 1 and rate 1, a call one second
after the bucket was made adds one token to a full bucket, the count wraps,
and the bucket is left with a negative number of tokens. -/
theorem tokenBucket_tokens_negative :
    (0 : Int) ≤ 2 ^ 63 - 1 ∧ (0 : Int) ≤ 1 ∧
    (allowAll (newTokenBucket 1 (2 ^ 63 - 1) 0) [1000000000]).2.tokens = -(2 ^ 63) ∧
    (allowAll (newTokenBucket 1 (2 ^ 63 - 1) 0) [1000000000]).2.tokens < 0 := by
  decide

/-- C8, amended: for capacity C >= 0 and rate R >= 0 with
C + 9223372036 * R < 2^63, every bucket reached from `newTokenBucket(R, C)` by
calls of `allow` at any times has 0 <= tokens <= C; and (for any C and R) a
call of `allow` on it is permitted exactly when the tokens after crediting
are at least 1, a permitted call takes exactly one token and a denied call
takes none. -/
theorem tokenBucket_invariant (C R t0 : Int) (ts : List Int) (hC : 0 ≤ C) (hR : 0 ≤ R)
    (hb : C + maxSeconds * R < 2 ^ 63) :
    0 ≤ (allowAll (newTokenBucket R C t0) ts).2.tokens ∧
    (allowAll (newTokenBucket R C t0) ts).2.tokens ≤ C ∧
    ∀ now : Int,
      (((allowAll (newTokenBucket R C t0) ts).2.allow now).1 = true ↔
        1 ≤ ((allowAll (newTokenBucket R C t0) ts).2.refill now).tokens) ∧
      (((allowAll (newTokenBucket R C t0) ts).2.allow now).1 = true →
        ((allowAll (newTokenBucket R C t0) ts).2.allow now).2.tokens
          = ((allowAll (newTokenBucket R C t0) ts).2.refill now).tokens - 1) ∧
      (((allowAll (newTokenBucket R C t0) ts).2.allow now).1 = false →
        ((allowAll (newTokenBucket R C t0) ts).2.allow now).2.tokens
          = ((allowAll (newTokenBucket R C t0) ts).2.refill now).tokens) := by
  obtain ⟨_, _, h0, h1⟩ := allowAll_inv C R hR hb ts _ (newTokenBucket_inv C R t0 hC)
  exact ⟨h0, h1, fun now =>
    ⟨allow_permit_iff _ now, allow_tokens_permit _ now, allow_tokens_deny _ now⟩⟩

/-- C8, amended, at capacity 5 and rate 1, after two calls at time 0 and one
two seconds later. -/
theorem tokenBucket_invariant_witness :
    0 ≤ (allowAll (newTokenBucket 1 5 0) [0, 0, 2000000000]).2.tokens ∧
    (allowAll (newTokenBucket 1 5 0) [0, 0, 2000000000]).2.tokens ≤ 5 ∧
    ∀ now : Int,
      (((allowAll (newTokenBucket 1 5 0) [0, 0, 2000000000]).2.allow now).1 = true ↔
        1 ≤ ((allowAll (newTokenBucket 1 5 0) [0, 0, 2000000000]).2.refill now).tokens) ∧
      (((allowAll (newTokenBucket 1 5 0) [0, 0, 2000000000]).2.allow now).1 = true →
        ((allowAll (newTokenBucket 1 5 0) [0, 0, 2000000000]).2.allow now).2.tokens
          = ((allowAll (newTokenBucket 1 5 0) [0, 0, 2000000000]).2.refill now).tokens - 1) ∧
      (((allowAll (newTokenBucket 1 5 0) [0, 0, 2000000000]).2.allow now).1 = false →
        ((allowAll (newTokenBucket 1 5 0) [0, 0, 2000000000]).2.allow now).2.tokens
          = ((allowAll (newTokenBucket 1 5 0) [0, 0, 2000000000]).2.refill now).tokens) :=
  tokenBucket_invariant 5 1 0 [0, 0, 2000000000] (by decide) (by decide) (by decide)

/-! ## The registry: update, list and sweep -/

theorem Heap.read_write_same (h : Heap) (p : JobPtr) (old job : Job)
    (hr : h.read p = some old) : (h.write p job).read p = some job := by
  unfold Heap.read at hr ⊢
  unfold Heap.write
  have hlt : p < h.cells.length := by
    rcases Nat.lt_or_ge p h.cells.length with hlt | hge
    · exact hlt
    · rw [List.get?_eq_none.mpr hge] at hr; cases hr
  simp [List.get?_eq_getElem?, hlt]

theorem UpdateJob_found (js : JobService) (h : Heap) (id : String) (p : JobPtr) (job : Job)
    (status : JobStatusEnum) (result : Option ProcessingResult) (errorMsg : String) (now : Int)
    (hg : js.GetJob id = Except.ok p) (hr : h.read p = some job) :
    js.UpdateJob h id status result errorMsg now
      = some (js, h.write p { job with Status := status, Result := result, Error := errorMsg,
                                       UpdatedAt := now }, none) := by
  have hm : js.jobs.get id = some p := by
    unfold JobService.GetJob at hg
    cases hq : js.jobs.get id with
    | none => rw [hq] at hg; cases hg
    | some q => rw [hq] at hg; cases hg; rfl
  unfold JobService.UpdateJob
  rw [hm]
  simp only [hr]

/-- C11, as stated, fails: the value `GetJob` returned before an update is a
pointer to the registry's record, and after `UpdateJob` the status, result and
update time read through it are the new ones, not those of the time of the
read. -/
theorem GetJob_value_sees_update :
    registryOne.GetJob "job-2" = Except.ok 0 ∧
    (heapOne.read 0).map (fun j => (j.Status, j.Result, j.UpdatedAt))
      = some (JobStatusPending, none, 1000) ∧
    (registryOne.UpdateJob heapOne "job-2" JobStatusCompleted (some resultOne) "" 2000).map
        (fun r => (r.2.1.read 0).map (fun j => (j.Status, j.Result, j.UpdatedAt)))
      = some (some (JobStatusCompleted, some resultOne, 2000)) := by
  refine ⟨?_, ?_, ?_⟩ <;> rfl

/-- C11, amended: the value `GetJob(id)` returns is the pointer to the
registry's own record, not a copy. After a subsequent `UpdateJob(id, status,
result, errorMsg)` at time `now` the record read through the value the caller
already holds has the new status, result, error and update time (its other
fields as before), and after a pipeline run on that job it is the record the
run left. -/
theorem GetJob_value_is_live (js : JobService) (h : Heap) (id : String) (p : JobPtr)
    (job : Job) (status : JobStatusEnum) (result : Option ProcessingResult)
    (errorMsg : String) (now : Int) (env : Env)
    (hg : js.GetJob id = Except.ok p) (hr : h.read p = some job) :
    (∃ h2, js.UpdateJob h id status result errorMsg now = some (js, h2, none) ∧
      h2.read p = some { job with Status := status, Result := result, Error := errorMsg,
                                  UpdatedAt := now }) ∧
    (∃ h3, ProcessJobAt env h p = some h3 ∧ h3.read p = some (ProcessJob env job).job) := by
  refine ⟨⟨_, UpdateJob_found js h id p job status result errorMsg now hg hr,
    Heap.read_write_same h p job _ hr⟩, ⟨h.write p (ProcessJob env job).job, ?_,
    Heap.read_write_same h p job _ hr⟩⟩
  unfold ProcessJobAt
  rw [hr]

/-- C11, amended, at a concrete input: the registry holding the pending
`text` job, updated to `completed` with a result at time 2000. -/
theorem GetJob_value_is_live_witness :
    (∃ h2, registryOne.UpdateJob heapOne "job-2" JobStatusCompleted (some resultOne) "" 2000
        = some (registryOne, h2, none) ∧
      h2.read 0 = some { jobText with Status := JobStatusCompleted, Result := some resultOne,
                                      Error := "", UpdatedAt := 2000 }) ∧
    (∃ h3, ProcessJobAt envAllOk heapOne 0 = some h3 ∧
      h3.read 0 = some (ProcessJob envAllOk jobText).job) :=
  GetJob_value_is_live registryOne heapOne "job-2" 0 jobText JobStatusCompleted
    (some resultOne) "" 2000 envAllOk rfl rfl

/-- C12: for a registry holding a record for `id`, `UpdateJob(id, status,
result, errorMsg)` at time `now` returns no error, and a following
`GetJob(id)` returns a record whose status, result and error are the
arguments and whose update time is `now`, with identifier, owner, type,
content, file path and creation time as before. -/
theorem UpdateJob_then_GetJob (js : JobService) (h : Heap) (id : String) (p : JobPtr)
    (job : Job) (status : JobStatusEnum) (result : Option ProcessingResult)
    (errorMsg : String) (now : Int)
    (hg : js.GetJob id = Except.ok p) (hr : h.read p = some job) :
    ∃ js2 h2 q rec,
      js.UpdateJob h id status result errorMsg now = some (js2, h2, none) ∧
      js2.GetJob id = Except.ok q ∧ h2.read q = some rec ∧
      rec.Status = status ∧ rec.Result = result ∧ rec.Error = errorMsg ∧
      rec.UpdatedAt = now ∧
      rec.ID = job.ID ∧ rec.UserID = job.UserID ∧ rec.JobType = job.JobType ∧
      rec.Content = job.Content ∧ rec.FilePath = job.FilePath ∧
      rec.CreatedAt = job.CreatedAt :=
  ⟨js, _, p, _, UpdateJob_found js h id p job status result errorMsg now hg hr, hg,
    Heap.read_write_same h p job _ hr, rfl, rfl, rfl, rfl, rfl, rfl, rfl, rfl, rfl, rfl⟩

/-- C12 at a concrete input: the pending `text` job updated to `completed`. -/
theorem UpdateJob_then_GetJob_witness :
    ∃ js2 h2 q rec,
      registryOne.UpdateJob heapOne "job-2" JobStatusCompleted (some resultOne) "" 2000
        = some (js2, h2, none) ∧
      js2.GetJob "job-2" = Except.ok q ∧ h2.read q = some rec ∧
      rec.Status = JobStatusCompleted ∧ rec.Result = some resultOne ∧ rec.Error = "" ∧
      rec.UpdatedAt = 2000 ∧
      rec.ID = jobText.ID ∧ rec.UserID = jobText.UserID ∧ rec.JobType = jobText.JobType ∧
      rec.Content = jobText.Content ∧ rec.FilePath = jobText.FilePath ∧
      rec.CreatedAt = jobText.CreatedAt :=
  UpdateJob_then_GetJob registryOne heapOne "job-2" 0 jobText JobStatusCompleted
    (some resultOne) "" 2000 rfl rfl

/-- C13: for an identifier the registry does not hold, `UpdateJob` returns
`ErrJobNotFound` and leaves the map and every record as they were. -/
theorem UpdateJob_not_found (js : JobService) (h : Heap) (id : String)
    (status : JobStatusEnum) (result : Option ProcessingResult) (errorMsg : String)
    (now : Int) (hn : js.jobs.get id = none) :
    js.UpdateJob h id status result errorMsg now = some (js, h, some ErrJobNotFound) ∧
    js.GetJob id = Except.error ErrJobNotFound := by
  unfold JobService.UpdateJob JobService.GetJob
  rw [hn]
  exact ⟨rfl, rfl⟩

/-- C13 at a concrete input: an update of an identifier the registry does not
hold. -/
theorem UpdateJob_not_found_witness :
    registryOne.UpdateJob heapOne "job-9" JobStatusCompleted (some resultOne) "" 2000
      = some (registryOne, heapOne, some ErrJobNotFound) ∧
    registryOne.GetJob "job-9" = Except.error ErrJobNotFound :=
  UpdateJob_not_found registryOne heapOne "job-9" JobStatusCompleted (some resultOne) "" 2000
    rfl

theorem lookup_filter_of_none {β : Type} (P : String × β → Bool) (k : String) :
    ∀ m : List (String × β), List.lookup k m = none → List.lookup k (m.filter P) = none := by
  intro m
  induction m with
  | nil => intro _; rfl
  | cons e rest ih =>
    obtain ⟨k0, v0⟩ := e
    intro hn
    cases hb : (k == k0) with
    | true => simp [List.lookup, hb] at hn
    | false =>
      simp only [List.lookup, hb] at hn
      by_cases hP : P (k0, v0) = true
      · simp only [List.filter, hP, List.lookup, hb]
        exact ih hn
      · have hP2 : P (k0, v0) = false := by simpa using hP
        simp only [List.filter, hP2]
        exact ih hn

theorem lookup_none_of_not_mem {β : Type} (k : String) :
    ∀ m : List (String × β), k ∉ m.map Prod.fst → List.lookup k m = none := by
  intro m
  induction m with
  | nil => intro _; rfl
  | cons e rest ih =>
    obtain ⟨k0, v0⟩ := e
    intro hn
    have hne : k ≠ k0 := fun hc => hn (by simp [hc])
    have hb : (k == k0) = false := by simpa using hne
    simp only [List.lookup, hb]
    exact ih (fun hm => hn (by simp only [List.map_cons, List.mem_cons]; exact Or.inr hm))

theorem lookup_filter_nodup {β : Type} (P : String × β → Bool) (k : String) :
    ∀ m : List (String × β), (m.map Prod.fst).Nodup →
      List.lookup k (m.filter P)
        = (List.lookup k m).bind (fun v => if P (k, v) = true then some v else none) := by
  intro m
  induction m with
  | nil => intro _; rfl
  | cons e rest ih =>
    obtain ⟨k0, v0⟩ := e
    intro hnd
    have hnd2 : k0 ∉ rest.map Prod.fst ∧ (rest.map Prod.fst).Nodup := by
      simpa using hnd
    cases hb : (k == k0) with
    | true =>
      have hk : k = k0 := by simpa using hb
      subst hk
      by_cases hP : P (k, v0) = true
      · simp [List.filter, hP, List.lookup]
      · have hP2 : P (k, v0) = false := by simpa using hP
        simp only [List.filter, hP2, List.lookup, BEq.refl, Option.some_bind]
        simp only [hP2, Bool.false_eq_true, if_false]
        exact lookup_filter_of_none P k rest (lookup_none_of_not_mem k rest hnd2.1)
    | false =>
      by_cases hP : P (k0, v0) = true
      · simp only [List.filter, hP, List.lookup, hb]
        exact ih hnd2.2
      · have hP2 : P (k0, v0) = false := by simpa using hP
        simp only [List.filter, hP2, List.lookup, hb]
        exact ih hnd2.2

theorem cleanupLoop_eq (h : Heap) (cutoff : Int) :
    ∀ m : JobMap, (∀ e ∈ m, ∃ job, h.read e.2 = some job) →
      cleanupLoop h cutoff m = some (m.filter (fun e => !createdBefore h cutoff e)) := by
  intro m
  induction m with
  | nil => intro _; rfl
  | cons e rest ih =>
    obtain ⟨k0, p0⟩ := e
    intro hv
    obtain ⟨job, hj⟩ := hv (k0, p0) (by simp)
    have hrest := ih (fun e he => hv e (by simp [he]))
    have hj2 : h.read p0 = some job := hj
    by_cases hc : job.CreatedAt < cutoff
    · simp [cleanupLoop, hj2, hrest, List.filter, createdBefore, hc]
    · simp [cleanupLoop, hj2, hrest, List.filter, createdBefore, hc]

theorem GetJob_eq_ok (js : JobService) (id : String) (p : JobPtr) :
    js.GetJob id = Except.ok p ↔ List.lookup id js.jobs = some p := by
  unfold JobService.GetJob JobMap.get
  cases hq : List.lookup id js.jobs with
  | none => simp
  | some q =>
    constructor
    · intro hg; cases hg; rfl
    · intro hg; cases hg; rfl

theorem GetJob_eq_error (js : JobService) (id : String) :
    js.GetJob id = Except.error ErrJobNotFound ↔ List.lookup id js.jobs = none := by
  unfold JobService.GetJob JobMap.get
  cases hq : List.lookup id js.jobs with
  | none => simp
  | some q => simp

/-- C14, as stated, fails: with `maxAge` the smallest duration (-2^63 ns) the
negation `-maxAge` wraps to the same value, the cutoff lies 2^63 ns before
`now` instead of after it, and a record created before `now - maxAge` stays
in the registry. -/
theorem CleanupOldJobs_min_duration_keeps :
    (heapOne.read 0).map (fun j => decide (j.CreatedAt < 2000 - minDuration)) = some true ∧
    registryOne.GetJob "job-2" = Except.ok 0 ∧
    (registryOne.CleanupOldJobs heapOne minDuration 2000).map
        (fun js2 => js2.GetJob "job-2") = some (Except.ok 0) := by
  refine ⟨?_, ?_, ?_⟩ <;> rfl

/-- C14, amended: for a well-formed registry and every `maxAge` other than
the smallest duration, `CleanupOldJobs(maxAge)` at time `now` removes exactly
the records created strictly before `now - maxAge`: `GetJob` then returns
`ErrJobNotFound` for each of them and the same pointer as before, to the same
untouched record, for every other; an identifier that was not held is still
not held. -/
theorem CleanupOldJobs_removes_old (js : JobService) (h : Heap) (maxAge now : Int)
    (hwf : js.WellFormed h) (hlo : minDuration < maxAge) (hhi : maxAge ≤ maxDuration) :
    ∃ js2, js.CleanupOldJobs h maxAge now = some js2 ∧
      (∀ id p job, js.GetJob id = Except.ok p → h.read p = some job →
        (job.CreatedAt < now - maxAge → js2.GetJob id = Except.error ErrJobNotFound) ∧
        (¬ job.CreatedAt < now - maxAge → js2.GetJob id = Except.ok p)) ∧
      (∀ id, js.GetJob id = Except.error ErrJobNotFound →
        js2.GetJob id = Except.error ErrJobNotFound) := by
  obtain ⟨hnd, hv⟩ := hwf
  have hcut : now + wrapInt64 (-maxAge) = now - maxAge := by
    rw [wrapInt64_eq (-maxAge) (by simp only [maxDuration] at hhi; omega)
      (by simp only [minDuration] at hlo; omega)]
    omega
  refine ⟨{ jobs := js.jobs.filter (fun e => !createdBefore h (now - maxAge) e) }, ?_, ?_, ?_⟩
  · unfold JobService.CleanupOldJobs
    rw [hcut, cleanupLoop_eq h (now - maxAge) js.jobs hv]
  · intro id p job hg hr
    rw [GetJob_eq_ok] at hg
    have hl := lookup_filter_nodup (fun e => !createdBefore h (now - maxAge) e) id js.jobs hnd
    rw [hg] at hl
    have hcb : createdBefore h (now - maxAge) (id, p) = decide (job.CreatedAt < now - maxAge) := by
      unfold createdBefore
      simp only [hr]
    constructor
    · intro hold
      rw [GetJob_eq_error]
      show List.lookup id (js.jobs.filter (fun e => !createdBefore h (now - maxAge) e)) = none
      rw [hl]
      simp [hcb, hold]
    · intro hnew
      rw [GetJob_eq_ok]
      show List.lookup id (js.jobs.filter (fun e => !createdBefore h (now - maxAge) e)) = some p
      rw [hl]
      simp [hcb, hnew]
  · intro id hg
    rw [GetJob_eq_error] at hg ⊢
    exact lookup_filter_of_none _ id js.jobs hg

/-- C14, amended, at a concrete input: a sweep at time 2000 with `maxAge` 500
of the registry whose one record was created at time 1000. -/
theorem CleanupOldJobs_removes_old_witness :
    ∃ js2, registryOne.CleanupOldJobs heapOne 500 2000 = some js2 ∧
      (∀ id p job, registryOne.GetJob id = Except.ok p → heapOne.read p = some job →
        (job.CreatedAt < 2000 - 500 → js2.GetJob id = Except.error ErrJobNotFound) ∧
        (¬ job.CreatedAt < 2000 - 500 → js2.GetJob id = Except.ok p)) ∧
      (∀ id, registryOne.GetJob id = Except.error ErrJobNotFound →
        js2.GetJob id = Except.error ErrJobNotFound) :=
  CleanupOldJobs_removes_old registryOne heapOne 500 2000
    ⟨by decide, by
      intro e he
      have he2 : e = ("job-2", 0) := by simpa [registryOne] using he
      subst he2
      exact ⟨jobText, rfl⟩⟩
    (by decide) (by decide)

theorem lookup_eq_some_iff_mem {β : Type} (k : String) (v : β) :
    ∀ m : List (String × β), (m.map Prod.fst).Nodup →
      (List.lookup k m = some v ↔ (k, v) ∈ m) := by
  intro m
  induction m with
  | nil => intro _; simp [List.lookup]
  | cons e rest ih =>
    obtain ⟨k0, v0⟩ := e
    intro hnd
    have hnd2 : k0 ∉ rest.map Prod.fst ∧ (rest.map Prod.fst).Nodup := by
      simpa using hnd
    cases hb : (k == k0) with
    | true =>
      have hk : k = k0 := by simpa using hb
      subst hk
      simp only [List.lookup, BEq.refl, Option.some.injEq, List.mem_cons, Prod.mk.injEq,
        true_and]
      constructor
      · intro hv; exact Or.inl hv.symm
      · rintro (hv | hm)
        · exact hv.symm
        · exact absurd (List.mem_map_of_mem Prod.fst hm) hnd2.1
    | false =>
      have hne : k ≠ k0 := by simpa using hb
      simp only [List.lookup, hb, List.mem_cons, Prod.mk.injEq, hne, false_and, false_or]
      exact ih hnd2.2

theorem listJobsLoop_eq (h : Heap) (userID : String) :
    ∀ m : JobMap, (∀ e ∈ m, ∃ job, h.read e.2 = some job) →
      listJobsLoop h userID m = some ((m.filter (ownedBy h userID)).map Prod.snd) := by
  intro m
  induction m with
  | nil => intro _; rfl
  | cons e rest ih =>
    obtain ⟨k0, p0⟩ := e
    intro hv
    obtain ⟨job, hj⟩ := hv (k0, p0) (by simp)
    have hrest := ih (fun e he => hv e (by simp [he]))
    have hj2 : h.read p0 = some job := hj
    by_cases hc : job.UserID = userID
    · simp [listJobsLoop, hj2, hrest, List.filter, ownedBy, hc]
    · simp [listJobsLoop, hj2, hrest, List.filter, ownedBy, hc]

/-- C15: for a well-formed registry, in whatever order `range` visits the
map, `ListJobs(userID)` returns a permutation of the registry's entries
filtered by owner: each record whose `UserID` is `userID` once, and no other;
it returns the empty list when no record has that owner. -/
theorem ListJobs_permutation (js : JobService) (h : Heap) (userID : String)
    (order : JobMap) (hwf : js.WellFormed h) (hord : order.Perm js.jobs) :
    ∃ out, JobService.ListJobs { jobs := order } h userID = some out ∧
      out.Perm ((js.jobs.filter (ownedBy h userID)).map Prod.snd) ∧
      (∀ p, p ∈ out ↔ ∃ id job, js.GetJob id = Except.ok p ∧ h.read p = some job ∧
        job.UserID = userID) ∧
      ((∀ e ∈ js.jobs, ownedBy h userID e = false) → out = []) := by
  obtain ⟨hnd, hv⟩ := hwf
  have hv2 : ∀ e ∈ order, ∃ job, h.read e.2 = some job :=
    fun e he => hv e (hord.mem_iff.mp he)
  have hperm : ((order.filter (ownedBy h userID)).map Prod.snd).Perm
      ((js.jobs.filter (ownedBy h userID)).map Prod.snd) :=
    (hord.filter _).map _
  refine ⟨_, listJobsLoop_eq h userID order hv2, hperm, ?_, ?_⟩
  · intro p
    rw [hperm.mem_iff]
    simp only [List.mem_map, List.mem_filter]
    constructor
    · rintro ⟨⟨id, q⟩, ⟨hmem, hown⟩, rfl⟩
      obtain ⟨job, hj⟩ := hv (id, q) hmem
      have hj2 : h.read q = some job := hj
      refine ⟨id, job, ?_, hj2, ?_⟩
      · rw [GetJob_eq_ok]
        exact (lookup_eq_some_iff_mem id q js.jobs hnd).mpr hmem
      · unfold ownedBy at hown
        simp only [hj2] at hown
        simpa using hown
    · rintro ⟨id, job, hg, hr, hu⟩
      rw [GetJob_eq_ok] at hg
      refine ⟨(id, p), ⟨?_, ?_⟩, rfl⟩
      · exact (lookup_eq_some_iff_mem id p js.jobs hnd).mp hg
      · unfold ownedBy
        simp only [hr]
        simpa using hu
  · intro hnone
    have hf : js.jobs.filter (ownedBy h userID) = [] := by
      rw [List.filter_eq_nil_iff]
      intro e he
      simp [hnone e he]
    have hp := hperm
    rw [hf] at hp
    simpa using hp

/-- C15 at a concrete input: the jobs of `user-1` in a registry of three
jobs, visited in another order than the one the registry is written in. -/
theorem ListJobs_permutation_witness :
    ∃ out, JobService.ListJobs { jobs := [("job-3", 2), ("job-2", 0), ("job-1", 1)] }
        heapMixed "user-1" = some out ∧
      out.Perm ((registryMixed.jobs.filter (ownedBy heapMixed "user-1")).map Prod.snd) ∧
      (∀ p, p ∈ out ↔ ∃ id job, registryMixed.GetJob id = Except.ok p ∧
        heapMixed.read p = some job ∧ job.UserID = "user-1") ∧
      ((∀ e ∈ registryMixed.jobs, ownedBy heapMixed "user-1" e = false) → out = []) :=
  ListJobs_permutation registryMixed heapMixed "user-1"
    [("job-3", 2), ("job-2", 0), ("job-1", 1)]
    ⟨by decide, by
      intro e he
      simp only [registryMixed, List.mem_cons, List.mem_singleton, List.not_mem_nil,
        or_false] at he
      rcases he with rfl | rfl | rfl <;> exact ⟨_, rfl⟩⟩
    (by decide)

/-! ## The entry point: authentication -/

/-- C20: a request to `ProcessInput` whose presented key (the `X-API-Key`
header, or when that is empty the `Authorization` header with a leading
`Bearer ` cut off) is not the configured key is answered 401; the registry
and the heap are left as they were, so no job is submitted, and no pipeline
run is started. -/
theorem ProcessInput_unauthorized (hd : Handler) (henv : HandlerEnv) (js : JobService)
    (h : Heap) (req : Request) (hk : presentedKey req ≠ hd.apiKey) :
    hd.ProcessInput henv js h req
      = some { code := 401, js := js, heap := h, started := none } := by
  unfold Handler.ProcessInput Handler.authenticate
  rw [if_pos hk]
  rfl

/-- C20 at two concrete inputs: the request of the test with an invalid
`X-API-Key`, and a well-formed `text` request with a wrong bearer token. -/
theorem ProcessInput_unauthorized_witness :
    presentedKey requestInvalidKey = "invalid-key" ∧
    handlerTest.ProcessInput henvOk registryOne heapOne requestInvalidKey
      = some { code := 401, js := registryOne, heap := heapOne, started := none } ∧
    presentedKey requestBearerWrong = "wrong" ∧
    handlerTest.ProcessInput henvOk registryOne heapOne requestBearerWrong
      = some { code := 401, js := registryOne, heap := heapOne, started := none } :=
  ⟨by decide, ProcessInput_unauthorized handlerTest henvOk registryOne heapOne
      requestInvalidKey (by decide),
    by decide, ProcessInput_unauthorized handlerTest henvOk registryOne heapOne
      requestBearerWrong (by decide)⟩

/-! ## The rate limiter: the sweep of idle clients -/

theorem VisitorMap.get_after_set (m : VisitorMap) (k : String) (v : visitor) :
    (m.set k v).get k = some v := by
  induction m with
  | nil => simp [VisitorMap.set, VisitorMap.get, List.lookup]
  | cons e rest ih =>
    obtain ⟨k0, v0⟩ := e
    by_cases hk : k0 = k
    · simp [VisitorMap.set, VisitorMap.get, List.lookup, hk]
    · have hk2 : (k == k0) = false := by simpa using fun h => hk h.symm
      simp only [VisitorMap.set, hk, if_false, VisitorMap.get, List.lookup, hk2]
      exact ih

theorem allow_first_sighting (rl : RateLimiter) (ip : String) (clock : Nat → Int)
    (hn : rl.visitors.get ip = none) :
    (rl.allow ip clock).1 = ((newTokenBucket rl.rate rl.burst (clock 0)).allow (clock 3)).1 ∧
    (rl.allow ip clock).2.visitors.get ip
      = some { limiter := ((newTokenBucket rl.rate rl.burst (clock 0)).allow (clock 3)).2
               lastSeen := clock 2 } := by
  unfold RateLimiter.allow
  rw [hn]
  exact ⟨rfl, VisitorMap.get_after_set _ _ _⟩

/-- C16: for a well-formed rate limiter and a sweep at time `t`,
`cleanupVisitors` removes exactly the clients last seen before `t` minus the
sweep interval and keeps every other client with its bucket and last-seen
time unchanged (rate, burst and interval are untouched); for a removed
client the next `allow` is a first sighting: it runs on a new bucket that
holds the full burst. -/
theorem cleanupVisitors_removes_idle (rl : RateLimiter) (t : Int) (hwf : rl.WellFormed) :
    (∀ ip v, rl.visitors.get ip = some v →
      (v.lastSeen < t - rl.cleanupInterval → (rl.cleanupVisitors t).visitors.get ip = none) ∧
      (¬ v.lastSeen < t - rl.cleanupInterval →
        (rl.cleanupVisitors t).visitors.get ip = some v)) ∧
    (∀ ip, rl.visitors.get ip = none → (rl.cleanupVisitors t).visitors.get ip = none) ∧
    (rl.cleanupVisitors t).rate = rl.rate ∧ (rl.cleanupVisitors t).burst = rl.burst ∧
    (rl.cleanupVisitors t).cleanupInterval = rl.cleanupInterval ∧
    (∀ ip v (clock : Nat → Int), rl.visitors.get ip = some v →
      v.lastSeen < t - rl.cleanupInterval →
      (newTokenBucket rl.rate rl.burst (clock 0)).tokens = rl.burst ∧
      ((rl.cleanupVisitors t).allow ip clock).1
        = ((newTokenBucket rl.rate rl.burst (clock 0)).allow (clock 3)).1 ∧
      ((rl.cleanupVisitors t).allow ip clock).2.visitors.get ip
        = some { limiter := ((newTokenBucket rl.rate rl.burst (clock 0)).allow (clock 3)).2
                 lastSeen := clock 2 }) := by
  obtain ⟨hnd, hpos, hmax⟩ := hwf
  have hcut : t + wrapInt64 (-rl.cleanupInterval) = t - rl.cleanupInterval := by
    rw [wrapInt64_eq (-rl.cleanupInterval) (by simp only [maxDuration] at hmax; omega)
      (by omega)]
    omega
  have hget : ∀ ip, (rl.cleanupVisitors t).visitors.get ip
      = (rl.visitors.get ip).bind
          (fun v => if (!decide (v.lastSeen < t - rl.cleanupInterval)) = true then some v
            else none) := by
    intro ip
    unfold RateLimiter.cleanupVisitors VisitorMap.get
    simp only [hcut]
    exact lookup_filter_nodup
      (fun e => !decide (e.2.lastSeen < t - rl.cleanupInterval)) ip rl.visitors hnd
  have hold : ∀ ip v, rl.visitors.get ip = some v → v.lastSeen < t - rl.cleanupInterval →
      (rl.cleanupVisitors t).visitors.get ip = none := by
    intro ip v hv hlt
    rw [hget, hv]
    simp
    omega
  refine ⟨?_, ?_, rfl, rfl, rfl, ?_⟩
  · intro ip v hv
    refine ⟨hold ip v hv, ?_⟩
    intro hge
    rw [hget, hv]
    simp
    omega
  · intro ip hn
    rw [hget, hn]
    rfl
  · intro ip v clock hv hlt
    exact ⟨rfl, allow_first_sighting (rl.cleanupVisitors t) ip clock (hold ip v hv hlt)⟩

/-- C16 at a concrete input: a sweep 70 seconds after the first of two
clients was last seen, 20 seconds after the second. -/
theorem cleanupVisitors_removes_idle_witness :
    (limiterTwo.cleanupVisitors 70000000000).visitors.get "10.0.0.1" = none ∧
    (limiterTwo.cleanupVisitors 70000000000).visitors.get "10.0.0.2"
      = limiterTwo.visitors.get "10.0.0.2" ∧
    ((limiterTwo.cleanupVisitors 70000000000).allow "10.0.0.1"
      (fun _ => 71000000000)).1 = true ∧
    ∀ ip v (clock : Nat → Int), limiterTwo.visitors.get ip = some v →
      v.lastSeen < 70000000000 - limiterTwo.cleanupInterval →
      (newTokenBucket limiterTwo.rate limiterTwo.burst (clock 0)).tokens = limiterTwo.burst ∧
      ((limiterTwo.cleanupVisitors 70000000000).allow ip clock).1
        = ((newTokenBucket limiterTwo.rate limiterTwo.burst (clock 0)).allow (clock 3)).1 ∧
      ((limiterTwo.cleanupVisitors 70000000000).allow ip clock).2.visitors.get ip
        = some { limiter :=
                   ((newTokenBucket limiterTwo.rate limiterTwo.burst (clock 0)).allow
                     (clock 3)).2
                 lastSeen := clock 2 } :=
  ⟨by decide, by decide, by decide,
    (cleanupVisitors_removes_idle limiterTwo 70000000000
      ⟨by decide, by decide, by decide⟩).2.2.2.2.2⟩

/-! ## The pipeline: the batch handed to the store -/

theorem buildTodos_get? (env : Env) (userID sourceType : String) (now : Int) (uuid0 : Nat)
    (shared : String) :
    ∀ (items : List TodoItem) (k i : Nat),
      (buildTodos env userID sourceType now uuid0 shared k items).get? i
        = (items.get? i).map (fun item =>
            todoOf env userID sourceType now (env.NewUUID (uuid0 + (k + i)))
              (if env.LoopVarPerIteration then item.Description else shared) item) := by
  intro items
  induction items with
  | nil => intro k i; rfl
  | cons item rest ih =>
    intro k i
    cases i with
    | zero => rfl
    | succ j =>
      have hk : k + (j + 1) = k + 1 + j := by omega
      simp only [buildTodos, List.get?_cons_succ, hk]
      exact ih (k + 1) j

theorem buildTodos_length (env : Env) (userID sourceType : String) (now : Int) (uuid0 : Nat)
    (shared : String) :
    ∀ (items : List TodoItem) (k : Nat),
      (buildTodos env userID sourceType now uuid0 shared k items).length = items.length := by
  intro items
  induction items with
  | nil => intro k; rfl
  | cons item rest ih =>
    intro k
    simp only [buildTodos, List.length_cons]
    rw [ih (k + 1)]

theorem saveTodosToDatabase_eq (env : Env) (s : PState) (userID : String)
    (items : List TodoItem) (sourceType : String) (hne : items ≠ []) :
    saveTodosToDatabase env s userID items sourceType
      = (env.InsertTodos (buildTodos env userID sourceType (env.Now s.nowCalls) s.uuidCalls
            (lastDescription items) 0 items),
          { job := s.job
            trace := s.trace ++ [Event.callInsertTodos
              (buildTodos env userID sourceType (env.Now s.nowCalls) s.uuidCalls
                (lastDescription items) 0 items)]
            nowCalls := s.nowCalls + 1
            uuidCalls := s.uuidCalls + items.length }) := by
  have hl : ¬ items.length = 0 := by simpa using hne
  unfold saveTodosToDatabase
  rw [if_neg hl]
  rfl

theorem saveTodosToDatabase_records (env : Env) (s : PState) (userID : String)
    (items : List TodoItem) (sourceType : String) (hne : items ≠ []) :
    ∃ batch,
      (saveTodosToDatabase env s userID items sourceType).2.trace
        = s.trace ++ [Event.callInsertTodos batch] ∧
      (saveTodosToDatabase env s userID items sourceType).1 = env.InsertTodos batch ∧
      batch.length = items.length ∧
      ∀ i item, items.get? i = some item →
        batch.get? i = some (todoOf env userID sourceType (env.Now s.nowCalls)
          (env.NewUUID (s.uuidCalls + (0 + i)))
          (if env.LoopVarPerIteration then item.Description else lastDescription items)
          item) := by
  refine ⟨_, ?_, ?_, buildTodos_length env userID sourceType (env.Now s.nowCalls) s.uuidCalls
    (lastDescription items) items 0, ?_⟩
  · rw [saveTodosToDatabase_eq env s userID items sourceType hne]
  · rw [saveTodosToDatabase_eq env s userID items sourceType hne]
  · intro i item hi
    rw [buildTodos_get?, hi]
    rfl

/-- With one loop variable per iteration (Go 1.22 and later), for a non-empty
list of n candidates the batch `saveTodosToDatabase` hands to the store has n
records in candidate order; record i has the given owner and
source kind and candidate i's title, its description is candidate i's own
when that is non-empty and unset otherwise, and its due date is the parsed
date when candidate i's due-date text is present, non-empty and accepted by
`time.Parse("2006-01-02", ...)`, and unset otherwise; the error returned is
the store's, so a due-date text that does not parse is never an error. -/
theorem saveTodosToDatabase_batch (env : Env) (s : PState) (userID : String)
    (items : List TodoItem) (sourceType : String) (hne : items ≠ [])
    (hgo : env.LoopVarPerIteration = true) :
    ∃ batch,
      (saveTodosToDatabase env s userID items sourceType).2.trace
        = s.trace ++ [Event.callInsertTodos batch] ∧
      (saveTodosToDatabase env s userID items sourceType).1 = env.InsertTodos batch ∧
      batch.length = items.length ∧
      ∀ i item, items.get? i = some item →
        ∃ todo, batch.get? i = some todo ∧
          todo.UserID = userID ∧ todo.SourceType = sourceType ∧ todo.Title = item.Title ∧
          todo.Description = (if item.Description ≠ "" then some item.Description else none) ∧
          todo.DueDate
            = (match item.DueDate with
               | some d => if d ≠ "" then env.ParseDate d else none
               | none => none) ∧
          (∀ d, item.DueDate = some d → env.ParseDate d = none → todo.DueDate = none) ∧
          (item.DueDate = some "" → todo.DueDate = none) := by
  obtain ⟨batch, ht, he, hl, hr⟩ := saveTodosToDatabase_records env s userID items sourceType hne
  refine ⟨batch, ht, he, hl, ?_⟩
  intro i item hi
  refine ⟨_, hr i item hi, rfl, rfl, rfl, ?_, rfl, ?_, ?_⟩
  · simp [todoOf, hgo]
  · intro d hd hp
    simp only [todoOf, hd]
    split_ifs
    · exact hp
    · rfl
  · intro hd
    simp [todoOf, hd]

/-- The batch with one loop variable per iteration, at a concrete input: a
candidate with a valid date and no description, and a candidate with a description and the due-date text
`soon`. -/
theorem saveTodosToDatabase_batch_witness :
    ∃ batch,
      (saveTodosToDatabase envDates (PState.start jobText) "user-1" itemsTwo "text").2.trace
        = (PState.start jobText).trace ++ [Event.callInsertTodos batch] ∧
      (saveTodosToDatabase envDates (PState.start jobText) "user-1" itemsTwo "text").1
        = envDates.InsertTodos batch ∧
      batch.length = itemsTwo.length ∧
      ∀ i item, itemsTwo.get? i = some item →
        ∃ todo, batch.get? i = some todo ∧
          todo.UserID = "user-1" ∧ todo.SourceType = "text" ∧ todo.Title = item.Title ∧
          todo.Description = (if item.Description ≠ "" then some item.Description else none) ∧
          todo.DueDate
            = (match item.DueDate with
               | some d => if d ≠ "" then envDates.ParseDate d else none
               | none => none) ∧
          (∀ d, item.DueDate = some d → envDates.ParseDate d = none → todo.DueDate = none) ∧
          (item.DueDate = some "" → todo.DueDate = none) :=
  saveTodosToDatabase_batch envDates (PState.start jobText) "user-1" itemsTwo "text"
    (by decide) rfl

/-- The records of the batch at that concrete input: the first has a
due date and no description, the second the description and no due date. -/
theorem saveTodosToDatabase_batch_values :
    (insertCalls
      (saveTodosToDatabase envDates (PState.start jobText) "user-1" itemsTwo "text").2.trace).map
        (fun batch => batch.map (fun t => (t.Title, t.Description, t.DueDate)))
      = [[("Buy milk", none, some 1704153600000000000),
          ("Call mom", some "about the trip", none)]] := by
  decide

/-- With one loop variable shared by all iterations (Go before 1.22) the
description of every record that has one is that of the last candidate:
`&item.Description` is the same address in every iteration. -/
theorem saveTodosToDatabase_batch_shared (env : Env) (s : PState) (userID : String)
    (items : List TodoItem) (sourceType : String) (hne : items ≠ [])
    (hgo : env.LoopVarPerIteration = false) :
    ∃ batch,
      (saveTodosToDatabase env s userID items sourceType).2.trace
        = s.trace ++ [Event.callInsertTodos batch] ∧
      ∀ i item, items.get? i = some item →
        ∃ todo, batch.get? i = some todo ∧
          todo.Description
            = (if item.Description ≠ "" then some (lastDescription items) else none) := by
  obtain ⟨batch, ht, _, _, hr⟩ := saveTodosToDatabase_records env s userID items sourceType hne
  refine ⟨batch, ht, ?_⟩
  intro i item hi
  refine ⟨_, hr i item hi, ?_⟩
  simp [todoOf, hgo]

/-- The shared loop variable at a concrete input: both records carry the
description of the second candidate. -/
theorem saveTodosToDatabase_batch_shared_witness :
    (insertCalls
      (saveTodosToDatabase envDatesShared (PState.start jobText) "user-1" itemsDescribed
        "text").2.trace).map (fun batch => batch.map (fun t => (t.Title, t.Description)))
      = [[("Buy milk", some "about the trip"), ("Call mom", some "about the trip")]] ∧
    ∃ batch,
      (saveTodosToDatabase envDatesShared (PState.start jobText) "user-1" itemsDescribed
        "text").2.trace = (PState.start jobText).trace ++ [Event.callInsertTodos batch] ∧
      ∀ i item, itemsDescribed.get? i = some item →
        ∃ todo, batch.get? i = some todo ∧
          todo.Description
            = (if item.Description ≠ "" then some (lastDescription itemsDescribed)
               else none) :=
  ⟨by decide,
    saveTodosToDatabase_batch_shared envDatesShared (PState.start jobText) "user-1"
      itemsDescribed "text" (by decide) rfl⟩

/-- Whatever the loop variable is (any Go version), for a non-empty list of n
candidates the batch `saveTodosToDatabase` hands to the store has n records
in candidate order; record i has the given owner and source kind and
candidate i's title, it has a description exactly when candidate i's is
non-empty, and its due date is the parsed date when candidate i's due-date
text is present, non-empty and accepted by `time.Parse("2006-01-02", ...)`,
and unset otherwise; the error returned is the store's. -/
theorem saveTodosToDatabase_batch_every_build (env : Env) (s : PState) (userID : String)
    (items : List TodoItem) (sourceType : String) (hne : items ≠ []) :
    ∃ batch,
      (saveTodosToDatabase env s userID items sourceType).2.trace
        = s.trace ++ [Event.callInsertTodos batch] ∧
      (saveTodosToDatabase env s userID items sourceType).1 = env.InsertTodos batch ∧
      batch.length = items.length ∧
      ∀ i item, items.get? i = some item →
        ∃ todo, batch.get? i = some todo ∧
          todo.UserID = userID ∧ todo.SourceType = sourceType ∧ todo.Title = item.Title ∧
          (todo.Description ≠ none ↔ item.Description ≠ "") ∧
          todo.DueDate
            = (match item.DueDate with
               | some d => if d ≠ "" then env.ParseDate d else none
               | none => none) ∧
          (∀ d, item.DueDate = some d → env.ParseDate d = none → todo.DueDate = none) ∧
          (item.DueDate = some "" → todo.DueDate = none) := by
  obtain ⟨batch, ht, he, hl, hr⟩ := saveTodosToDatabase_records env s userID items sourceType hne
  refine ⟨batch, ht, he, hl, ?_⟩
  intro i item hi
  refine ⟨_, hr i item hi, rfl, rfl, rfl, ?_, rfl, ?_, ?_⟩
  · by_cases hd : item.Description = "" <;> simp [todoOf, hd]
  · intro d hd hp
    simp only [todoOf, hd]
    split_ifs
    · exact hp
    · rfl
  · intro hd
    simp [todoOf, hd]

/-- The batch for any loop variable, at a concrete input with the shared one:
a candidate with a valid date and no description, and a candidate with a
description and the due-date text `soon`. -/
theorem saveTodosToDatabase_batch_every_build_witness :
    ∃ batch,
      (saveTodosToDatabase envDatesShared (PState.start jobText) "user-1" itemsTwo
        "text").2.trace = (PState.start jobText).trace ++ [Event.callInsertTodos batch] ∧
      (saveTodosToDatabase envDatesShared (PState.start jobText) "user-1" itemsTwo "text").1
        = envDatesShared.InsertTodos batch ∧
      batch.length = itemsTwo.length ∧
      ∀ i item, itemsTwo.get? i = some item →
        ∃ todo, batch.get? i = some todo ∧
          todo.UserID = "user-1" ∧ todo.SourceType = "text" ∧ todo.Title = item.Title ∧
          (todo.Description ≠ none ↔ item.Description ≠ "") ∧
          todo.DueDate
            = (match item.DueDate with
               | some d => if d ≠ "" then envDatesShared.ParseDate d else none
               | none => none) ∧
          (∀ d, item.DueDate = some d → envDatesShared.ParseDate d = none →
            todo.DueDate = none) ∧
          (item.DueDate = some "" → todo.DueDate = none) :=
  saveTodosToDatabase_batch_every_build envDatesShared (PState.start jobText) "user-1"
    itemsTwo "text" (by decide)

/-- C17: built with one loop variable shared by all iterations (the Go
versions before 1.22, which the sources admit), `saveTodosToDatabase` called
on the candidates `Buy milk` with the description `two litres` and `Call mom`
with the description `about the trip` hands the store two records that both
carry the description `about the trip`: the record of the first candidate has
a description, as its candidate has, but not that candidate's own. -/
theorem saveTodosToDatabase_description_aliased :
    envDatesShared.LoopVarPerIteration = false ∧
    itemsDescribed.map (fun item => (item.Title, item.Description))
      = [("Buy milk", "two litres"), ("Call mom", "about the trip")] ∧
    (insertCalls
      (saveTodosToDatabase envDatesShared (PState.start jobText) "user-1" itemsDescribed
        "text").2.trace).map (fun batch => batch.map (fun t => (t.Title, t.Description)))
      = [[("Buy milk", some "about the trip"), ("Call mom", some "about the trip")]] ∧
    ∃ batch item todo,
      insertCalls
        (saveTodosToDatabase envDatesShared (PState.start jobText) "user-1" itemsDescribed
          "text").2.trace = [batch] ∧
      itemsDescribed.get? 0 = some item ∧ batch.get? 0 = some todo ∧
      item.Description ≠ "" ∧ todo.Description ≠ some item.Description :=
  ⟨rfl, by decide, by decide, _, _, _, rfl, rfl, rfl, by decide, by decide⟩

/-! ## The pipeline: the two end-to-end scenarios -/

theorem afterSave_batch (env : Env) (job : Job) (text : String) (todos : List GeminiTodoItem)
    (hne : todos ≠ []) :
    (afterSave env job text todos).1 = env.InsertTodos (runBatch env job todos) ∧
    (afterSave env job text todos).2.job = (entered env job).job ∧
    (afterSave env job text todos).2.trace
      = headEvents env
          ++ [Event.callExtractTodos text, Event.callInsertTodos (runBatch env job todos)] := by
  have hne2 : todos.map toTodoItem ≠ [] := by simpa using hne
  unfold afterSave
  rw [saveTodosToDatabase_eq _ _ _ _ _ hne2]
  exact ⟨rfl, rfl, rfl⟩

theorem ProcessJob_completed (env : Env) (job : Job) (text : String)
    (todos : List GeminiTodoItem)
    (h1 : extractText env job = Except.ok text)
    (h2 : env.ExtractTodos text = Except.ok todos)
    (h3 : (afterSave env job text todos).1 = none) :
    (ProcessJob env job).job
      = { job with Status := JobStatusCompleted,
                   Result := some { Todos := todos.map toTodoItem, ProcessedAt := env.Now 1 },
                   UpdatedAt := env.Now (afterSave env job text todos).2.nowCalls } ∧
    (ProcessJob env job).trace
      = (afterSave env job text todos).2.trace
          ++ [Event.setStatus JobStatusCompleted,
              Event.setResult { Todos := todos.map toTodoItem, ProcessedAt := env.Now 1 },
              Event.setUpdatedAt (env.Now (afterSave env job text todos).2.nowCalls)]
          ++ (if job.FilePath ≠ "" then [Event.callRemove job.FilePath] else []) := by
  have key := ProcessJob_after_ai env job text todos h1 h2
  rw [h3] at key
  simp only at key
  have hj : (afterSave env job text todos).2.job = (entered env job).job := by
    rcases afterSave_cases env job text todos with ⟨_, _, hj, _⟩ | ⟨_, _, _, hj, _⟩ <;> exact hj
  have hfin : ∀ s : PState, (((s.setStatus JobStatusCompleted).setResult
        { Todos := todos.map toTodoItem, ProcessedAt := env.Now 1 }).touch env).trace
      = s.trace ++ [Event.setStatus JobStatusCompleted,
          Event.setResult { Todos := todos.map toTodoItem, ProcessedAt := env.Now 1 },
          Event.setUpdatedAt (env.Now s.nowCalls)] := by
    intro s
    simp [PState.setStatus, PState.setResult, PState.touch, PState.setUpdatedAt,
      PState.timeNow]
  refine ⟨?_, ?_⟩
  · rw [key]
    split <;>
    · simp only [cleanupFile, PState.emit, PState.setStatus, PState.setResult,
        PState.touch, PState.setUpdatedAt, PState.timeNow, hj]
      rfl
  · rw [key]
    split
    · simp only [cleanupFile, PState.emit]
      rw [hfin]
    · rw [hfin, List.append_nil]

theorem extractText_text (env : Env) (job : Job) (ht : job.JobType = "text") :
    extractText env job = Except.ok job.Content := by
  unfold extractText
  rw [if_pos ht]

/-- C18: for a `text` job without a staged file and with content t, when the
AI client returns the candidates cs and the store accepts the batch (or cs is
empty, and then the store is not called), `ProcessJob` hands exactly t to the
AI client, ends `completed`, attaches a result whose items are the candidates
in order with title, description and due date kept, and does not call the
file removal. -/
theorem ProcessJob_text_success (env : Env) (job : Job) (cs : List GeminiTodoItem)
    (ht : job.JobType = "text") (hf : job.FilePath = "")
    (h2 : env.ExtractTodos job.Content = Except.ok cs)
    (h3 : cs = [] ∨ env.InsertTodos (runBatch env job cs) = none) :
    extractCalls (ProcessJob env job).trace = [job.Content] ∧
    (ProcessJob env job).job.Status = JobStatusCompleted ∧
    (ProcessJob env job).job.Result
      = some { Todos := cs.map toTodoItem, ProcessedAt := env.Now 1 } ∧
    (cs.map toTodoItem).length = cs.length ∧
    (∀ i c, cs.get? i = some c →
      ∃ item, (cs.map toTodoItem).get? i = some item ∧ item.Title = c.Title ∧
        item.Description = c.Description ∧ item.DueDate = c.DueDate) ∧
    cleanupCalls (ProcessJob env job).trace = [] ∧
    (cs = [] → insertCalls (ProcessJob env job).trace = []) ∧
    (cs ≠ [] → insertCalls (ProcessJob env job).trace = [runBatch env job cs]) := by
  have h1 := extractText_text env job ht
  have hsave : (afterSave env job job.Content cs).1 = none := by
    by_cases hc : cs = []
    · rcases afterSave_cases env job job.Content cs with ⟨_, hn, _, _⟩ | ⟨hne, _⟩
      · exact hn
      · exact absurd hc hne
    · rw [(afterSave_batch env job job.Content cs hc).1]
      rcases h3 with h3 | h3
      · exact absurd h3 hc
      · exact h3
  obtain ⟨hj, htr⟩ := ProcessJob_completed env job job.Content cs h1 h2 hsave
  have hnf : ¬ job.FilePath ≠ "" := fun hx => hx hf
  rw [if_neg hnf, List.append_nil] at htr
  have hitems : ∀ i c, cs.get? i = some c →
      ∃ item, (cs.map toTodoItem).get? i = some item ∧ item.Title = c.Title ∧
        item.Description = c.Description ∧ item.DueDate = c.DueDate := by
    intro i c hc
    refine ⟨toTodoItem c, ?_, rfl, rfl, rfl⟩
    have hc2 : cs[i]? = some c := by simpa [List.get?_eq_getElem?] using hc
    simp [List.get?_eq_getElem?, hc2]
  by_cases hc : cs = []
  · have hat : (afterSave env job job.Content cs).2.trace
        = headEvents env ++ [Event.callExtractTodos job.Content] := by
      rcases afterSave_cases env job job.Content cs with ⟨_, _, _, hat⟩ | ⟨hne, _⟩
      · exact hat
      · exact absurd hc hne
    rw [hat] at htr
    rw [htr, hj]
    refine ⟨?_, rfl, rfl, by simp, hitems, ?_, ?_, fun hne => absurd hc hne⟩
    · simp [extractCalls, headEvents]
    · simp [cleanupCalls, headEvents]
    · intro _
      simp [insertCalls, headEvents]
  · rw [(afterSave_batch env job job.Content cs hc).2.2] at htr
    rw [htr, hj]
    refine ⟨?_, rfl, rfl, by simp, hitems, ?_, fun he => absurd he hc, ?_⟩
    · simp [extractCalls, headEvents]
    · simp [cleanupCalls, headEvents]
    · intro _
      simp [insertCalls, headEvents]

/-- C18 at the end-to-end scenario: the `text` job with content
`Buy milk tomorrow`, one candidate with the due date `2024-01-02`, and a
store that accepts the batch; the record handed to the store has the parsed
date. -/
theorem ProcessJob_text_success_witness :
    extractCalls (ProcessJob envDates jobText).trace = ["Buy milk tomorrow"] ∧
    (ProcessJob envDates jobText).job.Status = JobStatusCompleted ∧
    (ProcessJob envDates jobText).job.Result
      = some { Todos := candidatesMilk.map toTodoItem, ProcessedAt := envDates.Now 1 } ∧
    cleanupCalls (ProcessJob envDates jobText).trace = [] ∧
    insertCalls (ProcessJob envDates jobText).trace = [runBatch envDates jobText candidatesMilk] ∧
    (runBatch envDates jobText candidatesMilk).map (fun t => (t.Title, t.DueDate))
      = [("Buy milk", some 1704153600000000000)] :=
  ⟨(ProcessJob_text_success envDates jobText candidatesMilk rfl rfl rfl (Or.inr rfl)).1,
    (ProcessJob_text_success envDates jobText candidatesMilk rfl rfl rfl (Or.inr rfl)).2.1,
    (ProcessJob_text_success envDates jobText candidatesMilk rfl rfl rfl (Or.inr rfl)).2.2.1,
    (ProcessJob_text_success envDates jobText candidatesMilk rfl rfl rfl
      (Or.inr rfl)).2.2.2.2.2.1,
    (ProcessJob_text_success envDates jobText candidatesMilk rfl rfl rfl
      (Or.inr rfl)).2.2.2.2.2.2.2 (by decide),
    by decide⟩

/-- C19: for a job whose text extraction and AI extraction succeed with a
non-empty candidate list and whose batch insert returns the error e,
`ProcessJob` ends `failed` with the error message `Failed to save todos: `
followed by e, and the result is left as it was handed in (unset for a job
of the entry point); the file removal is not called. -/
theorem ProcessJob_persistence_error (env : Env) (job : Job) (text e : String)
    (cs : List GeminiTodoItem)
    (h1 : extractText env job = Except.ok text)
    (h2 : env.ExtractTodos text = Except.ok cs) (hne : cs ≠ [])
    (h3 : env.InsertTodos (runBatch env job cs) = some e) :
    (ProcessJob env job).job.Status = JobStatusFailed ∧
    (ProcessJob env job).job.Error = "Failed to save todos: " ++ e ∧
    (ProcessJob env job).job.Result = job.Result ∧
    (job.Result = none → (ProcessJob env job).job.Result = none) ∧
    insertCalls (ProcessJob env job).trace = [runBatch env job cs] := by
  have key := ProcessJob_after_ai env job text cs h1 h2
  obtain ⟨hs, hj, htr⟩ := afterSave_batch env job text cs hne
  rw [h3] at hs
  rw [hs] at key
  simp only at key
  have hjob : (ProcessJob env job).job
      = { job with Status := JobStatusFailed, Error := "Failed to save todos: " ++ e,
                   UpdatedAt := env.Now (afterSave env job text cs).2.nowCalls } := by
    rw [key, markJobFailed_job, hj]
    rfl
  have htrace : (ProcessJob env job).trace
      = headEvents env
          ++ [Event.callExtractTodos text, Event.callInsertTodos (runBatch env job cs)]
          ++ failEvents ("Failed to save todos: " ++ e)
              (env.Now (afterSave env job text cs).2.nowCalls) := by
    rw [key, markJobFailed_trace, htr]
  rw [hjob, htrace]
  refine ⟨rfl, rfl, rfl, fun hr => hr, ?_⟩
  simp [insertCalls, headEvents, failEvents]

/-- C19 at a concrete input: the `text` job of the entry point, one
candidate, and a store that answers with an error. -/
theorem ProcessJob_persistence_error_witness :
    (ProcessJob envStoreDown jobText).job.Status = JobStatusFailed ∧
    (ProcessJob envStoreDown jobText).job.Error
      = "Failed to save todos: " ++ "supabase returned status 500" ∧
    (ProcessJob envStoreDown jobText).job.Result = jobText.Result ∧
    (jobText.Result = none → (ProcessJob envStoreDown jobText).job.Result = none) ∧
    insertCalls (ProcessJob envStoreDown jobText).trace
      = [runBatch envStoreDown jobText candidatesMilk] :=
  ProcessJob_persistence_error envStoreDown jobText "Buy milk tomorrow"
    "supabase returned status 500" candidatesMilk rfl rfl (by decide) rfl

/-! ## The status query -/

theorem statusTodos_length (senv : StatusEnv) (job : Job) (shared : String)
    (items : List TodoItem) (k : Nat) :
    (statusTodos senv job shared k items).length = items.length := by
  induction items generalizing k with
  | nil => rfl
  | cons item rest ih => simp [statusTodos, ih]

theorem statusTodos_title (senv : StatusEnv) (job : Job) (shared : String)
    (items : List TodoItem) (k i : Nat) (item : TodoItem)
    (hi : items.get? i = some item) :
    ∃ todo, (statusTodos senv job shared k items).get? i = some todo ∧
      todo.Title = item.Title := by
  induction items generalizing k i with
  | nil => simp at hi
  | cons first rest ih =>
    cases i with
    | zero =>
      simp only [List.get?_cons_zero, Option.some.injEq] at hi
      subst hi
      exact ⟨_, rfl, rfl⟩
    | succ j =>
      simp only [List.get?_cons_succ] at hi
      exact ih (k + 1) j hi

/-- C21: an authenticated status query (with a non-empty route parameter)
whose job the registry finds is answered 200 with the identifier, the status
name and the two timestamps of the job record; the message of the answer is
the error text of the job, so it is present exactly when that text is
non-empty; when the job has a result, the answer has as many todos as the
result has items, and the todo of index i carries the title of the item of
index i; without a result the answer has no todo. -/
theorem GetJobStatus_found (hd : Handler) (senv : StatusEnv) (js : JobService) (h : Heap)
    (req : Request) (jobID : String) (p : JobPtr) (job : Job)
    (hkey : presentedKey req = hd.apiKey) (hid : jobID ≠ "")
    (hget : js.GetJob jobID = Except.ok p) (hread : h.read p = some job) :
    ∃ body : JobStatus,
      hd.GetJobStatus senv js h req jobID = some { code := 200, body := some body } ∧
      body.JobID = job.ID ∧ body.Status = job.Status ∧
      body.CreatedAt = job.CreatedAt ∧ body.UpdatedAt = job.UpdatedAt ∧
      body.Message = job.Error ∧ (body.Message ≠ "" ↔ job.Error ≠ "") ∧
      (job.Result = none → body.Todos = []) ∧
      (∀ result, job.Result = some result →
        body.Todos.length = result.Todos.length ∧
        ∀ i item, result.Todos.get? i = some item →
          ∃ todo, body.Todos.get? i = some todo ∧ todo.Title = item.Title) := by
  have hauth : hd.authenticate req = true := by simp [Handler.authenticate, hkey]
  refine ⟨{ JobID := job.ID, Status := job.Status,
             Message := if job.Error ≠ "" then job.Error else "",
             Todos :=
               match job.Result with
               | some result =>
                 statusTodos senv job (lastDescription result.Todos) 0 result.Todos
               | none => [],
             CreatedAt := job.CreatedAt, UpdatedAt := job.UpdatedAt },
    ?_, rfl, rfl, rfl, rfl, ?_, ?_, ?_, ?_⟩
  · simp only [Handler.GetJobStatus, hauth, hid, hget, hread]
    simp
  · show (if job.Error ≠ "" then job.Error else "") = job.Error
    split <;> simp_all
  · show (if job.Error ≠ "" then job.Error else "") ≠ "" ↔ job.Error ≠ ""
    split <;> simp_all
  · intro hnone
    show (match job.Result with
      | some result => statusTodos senv job (lastDescription result.Todos) 0 result.Todos
      | none => []) = []
    rw [hnone]
  · intro result hres
    show (match job.Result with
      | some result => statusTodos senv job (lastDescription result.Todos) 0 result.Todos
      | none => []).length = result.Todos.length ∧
      ∀ i item, result.Todos.get? i = some item →
        ∃ todo, (match job.Result with
          | some result => statusTodos senv job (lastDescription result.Todos) 0 result.Todos
          | none => []).get? i = some todo ∧ todo.Title = item.Title
    rw [hres]
    exact ⟨statusTodos_length _ _ _ _ _, fun i item hi => statusTodos_title _ _ _ _ _ i item hi⟩

/-- The query of `TestGetJobStatus`: a completed job with one result item is
answered 200 with one todo. -/
theorem GetJobStatus_found_witness :
    presentedKey requestStatus = handlerTest.apiKey ∧
    registryDone.GetJob "test-job-id" = Except.ok 0 ∧ heapDone.read 0 = some jobDone ∧
    ∃ body : JobStatus,
      handlerTest.GetJobStatus senvOk registryDone heapDone requestStatus "test-job-id" =
        some { code := 200, body := some body } ∧
      body.JobID = "test-job-id" ∧ body.Status = "completed" ∧ body.Todos.length = 1 :=
  ⟨by decide, rfl, rfl,
    match GetJobStatus_found handlerTest senvOk registryDone heapDone requestStatus
        "test-job-id" 0 jobDone (by decide) (by decide) rfl rfl with
    | ⟨body, h1, h2, h3, _, _, _, _, _, h9⟩ =>
      ⟨body, h1, h2, h3, (h9 _ rfl).1⟩⟩

/-! ## A status read next to an update -/

/-- The update `updateDone` of the job of `heapOne`, run alone. -/
theorem UpdateJob_steps_alone :
    (Race.run registryOne updateDone (List.replicate 7 Thread.updater)
        (Race.start heapOne)).map (fun s => s.heap.read 0) =
      some (some { jobText with Status := JobStatusCompleted, Result := some resultOne,
                                UpdatedAt := 2000 }) := by
  decide

/-- A status read that runs before or after the whole update sees the old
values or the new values, and `GetJob` cannot start while `UpdateJob` holds
the mutex. -/
theorem status_read_serial :
    observed registryOne heapOne updateDone scheduleReadFirst = some (Seen.all jobText) ∧
    observed registryOne heapOne updateDone scheduleUpdateFirst =
      some (Seen.all { jobText with Status := JobStatusCompleted, Result := some resultOne,
                                    UpdatedAt := 2000 }) ∧
    observed registryOne heapOne updateDone
      (List.replicate 3 Thread.updater ++ List.replicate 7 Thread.reader ++
        List.replicate 4 Thread.updater) = none := by
  decide

/-- C22: an interleaving of a status read with `UpdateJob` on the same job in
which the reader sees the new status `completed` next to the old result (none)
and the old time of update: `GetJob` returns the pointer before `UpdateJob`
takes the mutex, and the reader reads the fields, without the mutex, between
the assignment of the status and that of the result. What the reader sees is
neither the old record nor the new one. -/
theorem status_read_sees_half_update :
    observed registryOne heapOne updateDone scheduleTorn =
      some { Status := some JobStatusCompleted, UpdatedAt := some 1000, Error := some "",
             Result := some none } ∧
    observed registryOne heapOne updateDone scheduleTorn ≠ some (Seen.all jobText) ∧
    observed registryOne heapOne updateDone scheduleTorn ≠
      some (Seen.all { jobText with Status := JobStatusCompleted, Result := some resultOne,
                                    UpdatedAt := 2000 }) := by
  decide

/-! ## The number of permits -/

theorem wrapInt64_le (x : Int) (h : -(2 ^ 63) ≤ x) : wrapInt64 x ≤ x := by
  unfold wrapInt64
  omega

theorem wrapInt64_ge (x : Int) : -(2 ^ 63) ≤ wrapInt64 x := by
  unfold wrapInt64
  omega

theorem allow_step_bound (tb : TokenBucket) (t tend : Int) (hR : 0 ≤ tb.rate)
    (hT : -(2 ^ 63) ≤ tb.tokens) (hC : -(2 ^ 63) ≤ tb.capacity)
    (h0 : tb.lastRefill ≤ t) (h1 : t ≤ tend)
    (h24 : tend - tb.lastRefill < 16777216 * 1000000000) :
    (tb.allow t).2.rate = tb.rate ∧ (tb.allow t).2.capacity = tb.capacity ∧
    -(2 ^ 63) ≤ (tb.allow t).2.tokens ∧
    tb.lastRefill ≤ (tb.allow t).2.lastRefill ∧ (tb.allow t).2.lastRefill ≤ t ∧
    (if (tb.allow t).1 = true then (1 : Int) else 0) + max (tb.allow t).2.tokens 0
        + tb.rate * ((tend - (tb.allow t).2.lastRefill) / 1000000000)
      ≤ max tb.tokens 0 + tb.rate * ((tend - tb.lastRefill) / 1000000000) := by
  have hs : wholeSeconds (timeSub t tb.lastRefill) = (t - tb.lastRefill) / 1000000000 := by
    rw [timeSub_eq _ _ (by simp only [minDuration]; omega) (by simp only [maxDuration]; omega),
      wholeSeconds_of_small _ (by omega) (by omega)]
  have hy : 0 ≤ (t - tb.lastRefill) / 1000000000 * tb.rate :=
    mul_nonneg (Int.ediv_nonneg (by omega) (by norm_num)) hR
  have hw := wrapInt64_le _ (le_trans (by norm_num) hy)
  have hmul : tb.rate * ((tend - t) / 1000000000) + (t - tb.lastRefill) / 1000000000 * tb.rate
      ≤ tb.rate * ((tend - tb.lastRefill) / 1000000000) := by
    have h : (tend - t) / 1000000000 + (t - tb.lastRefill) / 1000000000
        ≤ (tend - tb.lastRefill) / 1000000000 := by omega
    nlinarith [mul_le_mul_of_nonneg_left h hR]
  have hadd : tb.tokensToAdd t = wrapInt64 ((t - tb.lastRefill) / 1000000000 * tb.rate) := by
    unfold TokenBucket.tokensToAdd
    rw [hs]
  unfold TokenBucket.allow TokenBucket.refill
  rw [hadd]
  generalize (t - tb.lastRefill) / 1000000000 * tb.rate = y at *
  generalize wrapInt64 y = add at *
  have hw2 := wrapInt64_ge (tb.tokens + add)
  by_cases hpos : add > 0
  · have hw1 := wrapInt64_le (tb.tokens + add) (by omega)
    generalize wrapInt64 (tb.tokens + add) = w at *
    simp only [if_pos hpos]
    split_ifs <;> refine ⟨?_, ?_, ?_, ?_, ?_, ?_⟩ <;>
      first | rfl | contradiction | omega | (simp; done) | (simp; omega)
  · simp only [if_neg hpos]
    split_ifs <;> refine ⟨?_, ?_, ?_, ?_, ?_, ?_⟩ <;>
      first | rfl | contradiction | omega | (simp; done) | (simp; omega)

theorem permits_cons (b : Bool) (answers : List Bool) :
    (permits (b :: answers) : Int) = (if b = true then (1 : Int) else 0) + permits answers := by
  cases b
  · simp [permits, List.count_cons]
  · simp [permits, List.count_cons]
    omega

theorem permits_append (l1 l2 : List Bool) : permits (l1 ++ l2) = permits l1 + permits l2 := by
  simp [permits]

theorem permits_replicate_true (k : Nat) : permits (List.replicate k true) = k := by
  simp [permits]

theorem permits_le (ts : List Int) (tend : Int) :
    ∀ tb : TokenBucket, 0 ≤ tb.rate → -(2 ^ 63) ≤ tb.tokens → -(2 ^ 63) ≤ tb.capacity →
      (tb.lastRefill :: ts).Pairwise (· ≤ ·) → (∀ t ∈ ts, t ≤ tend) →
      tb.lastRefill ≤ tend → tend - tb.lastRefill < 16777216 * 1000000000 →
      (permits (allowAll tb ts).1 : Int)
        ≤ max tb.tokens 0 + tb.rate * ((tend - tb.lastRefill) / 1000000000) := by
  induction ts with
  | nil =>
    intro tb hR _ _ _ _ hle _
    have h1 : 0 ≤ tb.rate * ((tend - tb.lastRefill) / 1000000000) :=
      mul_nonneg hR (Int.ediv_nonneg (by omega) (by norm_num))
    simp only [allowAll, permits, List.count_nil, Nat.cast_zero]
    omega
  | cons t rest ih =>
    intro tb hR hT hC hsorted hend hle h24
    rw [List.pairwise_cons] at hsorted
    obtain ⟨hfirst, hrest⟩ := hsorted
    have h0 : tb.lastRefill ≤ t := hfirst t (List.mem_cons_self _ _)
    have h1 : t ≤ tend := hend t (List.mem_cons_self _ _)
    obtain ⟨s1, s2, s3, s4, s5, s6⟩ := allow_step_bound tb t tend hR hT hC h0 h1 h24
    rw [List.pairwise_cons] at hrest
    have hih := ih (tb.allow t).2 (by rw [s1]; exact hR) s3 (by rw [s2]; exact hC)
      (by
        rw [List.pairwise_cons]
        exact ⟨fun u hu => le_trans s5 (hrest.1 u hu), hrest.2⟩)
      (fun u hu => hend u (List.mem_cons_of_mem _ hu)) (by omega) (by omega)
    rw [s1] at hih
    show (permits ((tb.allow t).1 :: (allowAll (tb.allow t).2 rest).1) : Int) ≤ _
    rw [permits_cons]
    omega

theorem le_lastTime (ts : List Int) :
    ∀ t0 : Int, (t0 :: ts).Pairwise (· ≤ ·) → ∀ t ∈ t0 :: ts, t ≤ lastTime t0 ts := by
  induction ts with
  | nil =>
    intro t0 _ t ht
    simp only [List.mem_singleton] at ht
    rw [ht]
    exact le_rfl
  | cons a rest ih =>
    intro t0 hs t ht
    rw [List.pairwise_cons] at hs
    have ha := ih a hs.2
    show t ≤ lastTime a rest
    rcases List.mem_cons.1 ht with h | h
    · rw [h]
      exact le_trans (hs.1 a (List.mem_cons_self _ _)) (ha a (List.mem_cons_self _ _))
    · exact ha t h

theorem floor_elapsedSeconds (t0 t : Int) :
    ⌊elapsedSeconds t0 t⌋ = (t - t0) / 1000000000 := by
  unfold elapsedSeconds
  have hf := Rat.floor_intCast_div_natCast (t - t0) 1000000000
  simpa using hf

theorem allowAll_append (l1 l2 : List Int) :
    ∀ tb : TokenBucket, allowAll tb (l1 ++ l2)
      = ((allowAll tb l1).1 ++ (allowAll (allowAll tb l1).2 l2).1,
         (allowAll (allowAll tb l1).2 l2).2) := by
  induction l1 with
  | nil => intro tb; rfl
  | cons t rest ih =>
    intro tb
    show ((tb.allow t).1 :: (allowAll (tb.allow t).2 (rest ++ l2)).1,
      (allowAll (tb.allow t).2 (rest ++ l2)).2) = _
    rw [ih]
    rfl

theorem allowAll_drain (k : Nat) :
    ∀ tb : TokenBucket, (k : Int) ≤ tb.tokens →
      allowAll tb (List.replicate k tb.lastRefill)
        = (List.replicate k true, { tb with tokens := tb.tokens - k }) := by
  induction k with
  | zero =>
    intro tb _
    simp [allowAll]
  | succ k ih =>
    intro tb h
    have hp : tb.allow tb.lastRefill = (true, { tb with tokens := tb.tokens - 1 }) := by
      unfold TokenBucket.allow
      rw [refill_same_instant, if_pos (by omega)]
    rw [List.replicate_succ]
    show ((tb.allow tb.lastRefill).1 :: (allowAll (tb.allow tb.lastRefill).2 _).1,
      (allowAll (tb.allow tb.lastRefill).2 _).2) = _
    rw [hp]
    have h2 := ih { tb with tokens := tb.tokens - 1 } (by show (k : Int) ≤ tb.tokens - 1; push_cast at h; omega)
    simp only at h2 ⊢
    rw [h2, List.replicate_succ]
    congr 2
    push_cast
    have e : tb.tokens - 1 - (k : Int) = tb.tokens - ((k : Int) + 1) := by omega
    rw [e]

theorem lastTime_cons (t0 t : Int) (ts : List Int) : lastTime t0 (t :: ts) = lastTime t ts :=
  rfl

theorem lastTime_append (l1 l2 : List Int) :
    ∀ t0 : Int, lastTime t0 (l1 ++ l2) = lastTime (lastTime t0 l1) l2 := by
  induction l1 with
  | nil => intro t0; rfl
  | cons a rest ih => intro t0; exact ih a

theorem lastTime_replicate (k : Nat) (a : Int) : lastTime a (List.replicate k a) = a := by
  induction k with
  | zero => rfl
  | succ k ih =>
    rw [List.replicate_succ]
    exact ih

theorem allowAll_cons (tb : TokenBucket) (t : Int) (ts : List Int) :
    allowAll tb (t :: ts)
      = ((tb.allow t).1 :: (allowAll (tb.allow t).2 ts).1, (allowAll (tb.allow t).2 ts).2) :=
  rfl

theorem permits_cons_true (answers : List Bool) :
    permits (true :: answers) = permits answers + 1 := by
  simp [permits]

/-- C23, amended: for every capacity C >= 0 and rate R >= 0, and every run of
calls of `allow` on a bucket created at time t0, at times that never decrease
and start at t0 or later, the last of them less than 2^24 seconds (16777216
seconds) after t0, the number of permitted calls is at most
C + R * floor(the seconds from t0 to the last call). -/
theorem permits_bounded (C R t0 : Int) (ts : List Int) (hC : 0 ≤ C) (hR : 0 ≤ R)
    (hsorted : (t0 :: ts).Pairwise (· ≤ ·))
    (h24 : lastTime t0 ts - t0 < 16777216 * 1000000000) :
    (permits (allowAll (newTokenBucket R C t0) ts).1 : Int)
      ≤ C + R * ⌊elapsedSeconds t0 (lastTime t0 ts)⌋ := by
  have hl := le_lastTime ts t0 hsorted
  have h := permits_le ts (lastTime t0 ts) (newTokenBucket R C t0) hR
    (by show -(2 ^ 63) ≤ C; omega) (by show -(2 ^ 63) ≤ C; omega) hsorted
    (fun t ht => hl t (List.mem_cons_of_mem _ ht)) (hl t0 (List.mem_cons_self _ _)) h24
  rw [floor_elapsedSeconds]
  have hm : max (newTokenBucket R C t0).tokens 0 = C := by
    show max C 0 = C
    omega
  rw [hm] at h
  exact h

/-- C23, amended, at capacity 5 and rate 1: of six calls at the time of
creation and three calls 2.5 seconds later, seven are permitted, and
5 + 1 * floor(2.5) = 7. -/
theorem permits_bounded_witness :
    permits (allowAll (newTokenBucket 1 5 0) callsNine).1 = 7 ∧
    (permits (allowAll (newTokenBucket 1 5 0) callsNine).1 : Int)
      ≤ 5 + 1 * ⌊elapsedSeconds 0 (lastTime 0 callsNine)⌋ :=
  ⟨by set_option maxRecDepth 16384 in decide,
    permits_bounded 5 1 0 callsNine (by decide) (by decide) (by decide) (by decide)⟩

/-- C23, as stated, fails: on a bucket of capacity 16777217 and rate 1 created
at time 0, the 16777217 calls at time 0 are all permitted and drain the
bucket; the next call comes 16777216.999999999 seconds later, the `float64`
sum of `Seconds` rounds that to 16777217, so 16777217 tokens are credited, and
that call and the 16777216 calls after it at the same time are all permitted:
33554434 permits, one more than C + R * floor(16777216.999999999) = 33554433. -/
theorem permits_exceed_bound :
    (0 :: callsTwoBursts).Pairwise (· ≤ ·) ∧
    permits (allowAll (newTokenBucket 1 16777217 0) callsTwoBursts).1 = 33554434 ∧
    (16777217 : Int) + 1 * ⌊elapsedSeconds 0 (lastTime 0 callsTwoBursts)⌋ = 33554433 := by
  have hd1 : allowAll (newTokenBucket 1 16777217 0) (List.replicate 16777217 0)
      = (List.replicate 16777217 true,
         { tokens := 0, capacity := 16777217, rate := 1, lastRefill := 0 }) :=
    allowAll_drain 16777217 (newTokenBucket 1 16777217 0) (by decide)
  have ha : TokenBucket.allow { tokens := 0, capacity := 16777217, rate := 1, lastRefill := 0 }
      16777216999999999
      = (true, { tokens := 16777216, capacity := 16777217, rate := 1,
                 lastRefill := 16777216999999999 }) := by
    set_option maxRecDepth 8192 in decide
  have hd2 : allowAll { tokens := 16777216, capacity := 16777217, rate := 1,
                        lastRefill := 16777216999999999 }
        (List.replicate 16777216 16777216999999999)
      = (List.replicate 16777216 true,
         { tokens := 0, capacity := 16777217, rate := 1, lastRefill := 16777216999999999 }) :=
    allowAll_drain 16777216 { tokens := 16777216, capacity := 16777217, rate := 1,
                              lastRefill := 16777216999999999 } (by decide)
  have e1 : allowAll (newTokenBucket 1 16777217 0) callsTwoBursts
      = (List.replicate 16777217 true ++ true :: List.replicate 16777216 true,
         { tokens := 0, capacity := 16777217, rate := 1, lastRefill := 16777216999999999 }) := by
    unfold callsTwoBursts
    rw [allowAll_append, hd1, allowAll_cons, ha, hd2]
  refine ⟨?_, ?_, ?_⟩
  · unfold callsTwoBursts
    simp only [List.pairwise_cons, List.pairwise_append, List.pairwise_replicate,
      List.mem_append, List.mem_cons, List.mem_replicate]
    refine ⟨fun a h => ?_, Or.inr le_rfl, ⟨fun a h => ?_, Or.inr le_rfl⟩,
      fun a h b hb => ?_⟩ <;> omega
  · rw [e1]
    dsimp only
    rw [permits_append, permits_replicate_true, permits_cons_true, permits_replicate_true]
  · unfold callsTwoBursts
    rw [lastTime_append, lastTime_replicate, floor_elapsedSeconds]
    rw [lastTime_cons, lastTime_replicate]
    norm_num

end TodoAgent
